import Mathlib

/-!
Verification of the mdv terminal markdown renderer.

This file is a shallow embedding, into Lean, of the parts of the mdv source
(src/utils.rs, src/terminal.rs, src/table.rs, src/renderer/event/*.rs) that
the specification's claims are about, together with theorems settling those
claims.

Modelling conventions:
* A Rust `String`/`&str` is modelled as `List Char` (`Str` below).  Rust byte
  offsets (`rfind`, `truncate`, `insert_str`, `replace_range`) are modelled as
  character offsets; the two coincide on ASCII data and the distinction is
  immaterial to the properties proved here.
* `usize` arithmetic is modelled as `Nat`; Lean's truncated subtraction
  coincides with Rust's `saturating_sub`, which the source uses at every
  subtraction that can underflow.
* The display-width table of the external `unicode-width` crate is modelled by
  `char_width` (zero-width controls and combining marks, double-width CJK
  ranges, width one otherwise).
* Rust `char::is_whitespace` (the Unicode White_Space property) is modelled by
  `rust_is_ws`.
-/

namespace Mdv

/-- Model of a Rust string: a list of characters. -/
abbrev Str := List Char

/-- Convert a Lean string literal to the model type. -/
def str (s : String) : Str := s.data

/-- The ESC character (0x1B). -/
def escCh : Char := '\x1b'

/-- Model of Rust `char::is_whitespace` (Unicode White_Space property). -/
def rust_is_ws (c : Char) : Bool :=
  c = ' ' || c = '\t' || c = '\n' || c = '\r' || c = '\x0b' || c = '\x0c' ||
  c = '\x85' || c = '\xa0' || c.toNat = 0x1680 ||
  (0x2000 ≤ c.toNat && c.toNat ≤ 0x200a) ||
  c.toNat = 0x2028 || c.toNat = 0x2029 || c.toNat = 0x202f ||
  c.toNat = 0x205f || c.toNat = 0x3000

/-- Model of Rust `char::is_ascii_digit` / the `[0-9]` regex class. -/
def is_digit (c : Char) : Bool := '0' ≤ c && c ≤ '9'

/-- Model of the `unicode-width` crate's per-character display width:
control characters and combining marks are zero columns, East-Asian wide
ranges are two columns, everything else is one column. -/
def char_width (c : Char) : Nat :=
  let n := c.toNat
  if n < 0x20 || n = 0x7f then 0
  else if 0x300 ≤ n && n ≤ 0x36f then 0
  else if (0x1100 ≤ n && n ≤ 0x115f) || (0x2e80 ≤ n && n ≤ 0x303e) ||
          (0x3041 ≤ n && n ≤ 0x33ff) || (0x3400 ≤ n && n ≤ 0x4dbf) ||
          (0x4e00 ≤ n && n ≤ 0x9fff) || (0xa000 ≤ n && n ≤ 0xa4cf) ||
          (0xac00 ≤ n && n ≤ 0xd7a3) || (0xf900 ≤ n && n ≤ 0xfaff) ||
          (0xfe30 ≤ n && n ≤ 0xfe4f) || (0xff00 ≤ n && n ≤ 0xff60) ||
          (0xffe0 ≤ n && n ≤ 0xffe6) || (0x20000 ≤ n && n ≤ 0x3fffd) then 2
  else 1

/-- `utils.rs::display_width`: Unicode display width of a string. -/
def display_width (s : Str) : Nat := (s.map char_width).sum

/-- Rust `str::trim_start` (drop leading whitespace). -/
def trim_start (s : Str) : Str := s.dropWhile rust_is_ws

/-- Rust `str::trim_end` (drop trailing whitespace). -/
def trim_end (s : Str) : Str := (s.reverse.dropWhile rust_is_ws).reverse

/-- Rust `str::trim`. -/
def trim (s : Str) : Str := trim_end (trim_start s)

/-- Rust `str::split(c)`: split on a separator character, keeping empty
segments. -/
def split_on (sep : Char) : Str → List Str
  | [] => [[]]
  | c :: rest =>
    match split_on sep rest with
    | [] => if c = sep then [[], [c]] else [[c]]
    | h :: t => if c = sep then [] :: h :: t else (c :: h) :: t

/-- Rust `str::lines()`: split on newlines, dropping one trailing empty
segment and any trailing carriage return per line. -/
def rust_lines (s : Str) : List Str :=
  let parts := split_on '\n' s
  let parts := match parts.reverse with
    | [] :: rest => rest.reverse
    | _ => parts
  parts.map (fun l => match l.reverse with
    | '\r' :: rest => rest.reverse
    | _ => l)

/-- Rust `String::repeat` for a one-character pattern (`" ".repeat(n)`). -/
def char_repeat (c : Char) (n : Nat) : Str := List.replicate n c

/-- Rust `String::repeat` for an arbitrary pattern. -/
def str_repeat (s : Str) (n : Nat) : Str := (List.replicate n s).flatten

/-- Rust `str::rfind(c)`: character index of the last occurrence. -/
def rfind_char (c : Char) (s : Str) : Option Nat :=
  match s.reverse.findIdx? (· = c) with
  | none => none
  | some j => some (s.length - 1 - j)

/-- Rust `str::ends_with(c)`. -/
def ends_with_char (c : Char) (s : Str) : Bool :=
  match s.reverse with
  | [] => false
  | c' :: _ => c' = c

/-- Helper for `strip_ansi`: match `[0-9;]*m` and return how many characters
the match consumed. -/
def sgr_body_len : Str → Option Nat
  | [] => none
  | c :: t => if c = 'm' then some 1
    else if is_digit c || c = ';' then (sgr_body_len t).map (· + 1)
    else none

/-- Helper for `strip_ansi`: match the tail of the SGR regex `\x1b\[[0-9;]*m`
(the part after the ESC); returns the number of characters consumed. -/
def parse_sgr : Str → Option Nat
  | [] => none
  | c :: t => if c = '[' then (sgr_body_len t).map (· + 1) else none

/-- First `strip_ansi` pass: remove every match of `\x1b\[[0-9;]*m`
(`regex::Regex::replace_all` scans left to right, and a match can only start
at an ESC character).  The scanner consumes at least one character per step,
so it is phrased with a fuel counter initialised to the string length; the
fuel-out branch is never reached. -/
def strip_sgr_go : Nat → Str → Str
  | _, [] => []
  | 0, s => s
  | fuel + 1, c :: rest =>
    if c = escCh then
      match parse_sgr rest with
      | some n => strip_sgr_go fuel (rest.drop n)
      | none => c :: strip_sgr_go fuel rest
    else c :: strip_sgr_go fuel rest

/-- Entry point of the first `strip_ansi` pass. -/
def strip_sgr (s : Str) : Str := strip_sgr_go s.length s

/-- Helper for `strip_ansi`: match `[^\x1b]*\x1b\\` and return how many
characters the match consumed. -/
def osc8_url_len : Str → Option Nat
  | [] => none
  | c :: t =>
    if c = escCh then
      if t.head? = some '\\' then some 2 else none
    else (osc8_url_len t).map (· + 1)

/-- Helper for `strip_ansi`: match the tail of the OSC-8 start regex
`\x1b\]8;;[^\x1b]*\x1b\\` (the part after the ESC). -/
def parse_osc8_start : Str → Option Nat
  | ']' :: '8' :: ';' :: ';' :: t => (osc8_url_len t).map (· + 4)
  | _ => none

/-- Second `strip_ansi` pass: remove every match of the OSC-8 hyperlink start
regex `\x1b\]8;;[^\x1b]*\x1b\\` (fuel = string length, never exhausted). -/
def strip_osc8_start_go : Nat → Str → Str
  | _, [] => []
  | 0, s => s
  | fuel + 1, c :: rest =>
    if c = escCh then
      match parse_osc8_start rest with
      | some n => strip_osc8_start_go fuel (rest.drop n)
      | none => c :: strip_osc8_start_go fuel rest
    else c :: strip_osc8_start_go fuel rest

/-- Entry point of the second `strip_ansi` pass. -/
def strip_osc8_start (s : Str) : Str := strip_osc8_start_go s.length s

/-- Helper for `strip_ansi`: match the tail of the OSC-8 end regex
`\x1b\]8;;\x1b\\` (the part after the first ESC). -/
def parse_osc8_end : Str → Option Nat
  | ']' :: '8' :: ';' :: ';' :: e :: '\\' :: _ => if e = escCh then some 6 else none
  | _ => none

/-- Third `strip_ansi` pass: remove every match of `\x1b\]8;;\x1b\\`
(fuel = string length, never exhausted). -/
def strip_osc8_end_go : Nat → Str → Str
  | _, [] => []
  | 0, s => s
  | fuel + 1, c :: rest =>
    if c = escCh then
      match parse_osc8_end rest with
      | some n => strip_osc8_end_go fuel (rest.drop n)
      | none => c :: strip_osc8_end_go fuel rest
    else c :: strip_osc8_end_go fuel rest

/-- Entry point of the third `strip_ansi` pass. -/
def strip_osc8_end (s : Str) : Str := strip_osc8_end_go s.length s

/-- `utils.rs::strip_ansi`: remove SGR color sequences, then OSC-8 hyperlink
start sequences, then OSC-8 hyperlink end sequences. -/
def strip_ansi (s : Str) : Str := strip_osc8_end (strip_osc8_start (strip_sgr s))

/-- `utils.rs::consume_escape_sequence`, CSI arm: consume until a final byte
in `'@'..='~'` (inclusive).  Returns the consumed characters and their
count. -/
def consume_csi : Str → (Str × Nat)
  | [] => ([], 0)
  | c :: t =>
    if '@' ≤ c && c ≤ '~' then ([c], 1)
    else
      let (s, n) := consume_csi t
      (c :: s, n + 1)

/-- `utils.rs::consume_escape_sequence`, OSC arm: consume until BEL or an
ESC-backslash terminator. -/
def consume_osc : Str → (Str × Nat)
  | [] => ([], 0)
  | c :: t =>
    if c = '\x07' then ([c], 1)
    else if c = escCh then
      match t with
      | '\\' :: _ => ([c, '\\'], 2)
      | _ =>
        let (s, n) := consume_osc t
        (c :: s, n + 1)
    else
      let (s, n) := consume_osc t
      (c :: s, n + 1)

/-- `utils.rs::consume_escape_sequence`: the input is the character stream
after an ESC; the returned sequence includes the leading ESC, and the count
says how many input characters were consumed. -/
def consume_escape_sequence (s : Str) : (Str × Nat) :=
  match s with
  | [] => ([escCh], 0)
  | c :: t =>
    if c = '[' then
      let (body, n) := consume_csi t
      (escCh :: '[' :: body, n + 1)
    else if c = ']' then
      let (body, n) := consume_osc t
      (escCh :: ']' :: body, n + 1)
    else ([escCh, c], 1)

/-- `utils.rs::is_sgr_sequence`. -/
def is_sgr_sequence (s : Str) : Bool :=
  match s with
  | a :: b :: _ => a = escCh && b = '[' && ends_with_char 'm' s
  | _ => false

/-- `utils.rs::is_sgr_reset`. -/
def is_sgr_reset (s : Str) : Bool :=
  if !is_sgr_sequence s then false
  else
    let inner := (s.drop 2).take (s.length - 1 - 2)
    (split_on ';' inner).any (fun p => (trim p).isEmpty || trim p = ['0'])

/-- `utils.rs::WrapMode`. -/
inductive WrapMode where
  | none | character | word
deriving DecidableEq, Repr

/-- Loop state of `utils.rs::wrap_line_character`. -/
structure WrapSt where
  result : List Str
  current_line : Str
  current_width : Nat
  ansi_stack : Str
deriving Repr

/-- Main loop of `utils.rs::wrap_line_character` (fuel = remaining string
length, never exhausted: every step consumes at least one character). -/
def wrap_line_char_loop_go (width : Nat) : Nat → Str → WrapSt → WrapSt
  | _, [], st => st
  | 0, _, st => st
  | fuel + 1, c :: rest, st =>
    if c = escCh then
      let (seq, n) := consume_escape_sequence rest
      let st := { st with current_line := st.current_line ++ seq }
      let st :=
        if is_sgr_sequence seq then
          if is_sgr_reset seq then { st with ansi_stack := [] }
          else { st with ansi_stack := st.ansi_stack ++ seq }
        else st
      wrap_line_char_loop_go width fuel (rest.drop n) st
    else if rust_is_ws c then
      let cw := if c = '\t' then 4 else 1
      if st.current_width + cw > width && !(trim st.current_line).isEmpty then
        wrap_line_char_loop_go width fuel rest
          { st with result := st.result ++ [trim_end st.current_line],
                    current_line := st.ansi_stack, current_width := 0 }
      else
        wrap_line_char_loop_go width fuel rest
          { st with current_line := st.current_line ++ [c],
                    current_width := st.current_width + cw }
    else
      -- The source first flushes the full line when the character would
      -- overflow a non-blank line, then unconditionally appends the
      -- character; the two steps are composed in each branch here.
      let cw := char_width c
      if st.current_width + cw > width && !(trim st.current_line).isEmpty then
        wrap_line_char_loop_go width fuel rest
          { st with result := st.result ++ [st.current_line],
                    current_line := st.ansi_stack ++ [c],
                    current_width := cw }
      else
        wrap_line_char_loop_go width fuel rest
          { st with current_line := st.current_line ++ [c],
                    current_width := st.current_width + cw }

/-- Entry point of the `wrap_line_character` loop. -/
def wrap_line_char_loop (width : Nat) (s : Str) (st : WrapSt) : WrapSt :=
  wrap_line_char_loop_go width s.length s st

/-- `utils.rs::wrap_line_character`. -/
def wrap_line_character (line : Str) (width : Nat) : List Str :=
  if width = 0 then [line]
  else
    let clean_line := strip_ansi line
    if display_width clean_line ≤ width then [line]
    else
      let st := wrap_line_char_loop width line ⟨[], [], 0, []⟩
      let result :=
        if !(trim st.current_line).isEmpty then st.result ++ [st.current_line]
        else st.result
      if result.isEmpty then [[]] else result

/-- `utils.rs::split_line_into_words_with_ansi` loop (fuel = remaining
string length, never exhausted). -/
def split_words_ansi_go : Nat → Str → Str → Bool → List (Str × Bool) → List (Str × Bool)
  | _, [], current, in_ws, res =>
    if !current.isEmpty then res ++ [(current, in_ws)] else res
  | 0, _, _, _, res => res
  | fuel + 1, c :: rest, current, in_ws, res =>
    if c = escCh then
      let (seq, n) := consume_escape_sequence rest
      split_words_ansi_go fuel (rest.drop n) (current ++ seq) in_ws res
    else if rust_is_ws c then
      if !in_ws && !current.isEmpty then
        split_words_ansi_go fuel rest [c] true (res ++ [(current, false)])
      else
        split_words_ansi_go fuel rest (current ++ [c]) true res
    else
      if in_ws && !current.isEmpty then
        split_words_ansi_go fuel rest [c] false (res ++ [(current, true)])
      else
        split_words_ansi_go fuel rest (current ++ [c]) false res

/-- Entry point of the `split_line_into_words_with_ansi` loop. -/
def split_words_ansi_loop (s current : Str) (in_ws : Bool)
    (res : List (Str × Bool)) : List (Str × Bool) :=
  split_words_ansi_go s.length s current in_ws res

/-- `utils.rs::split_line_into_words_with_ansi`. -/
def split_line_into_words_with_ansi (line : Str) : List (Str × Bool) :=
  split_words_ansi_loop line [] false []

/-- `utils.rs::update_ansi_stack` (fuel = remaining string length, never
exhausted). -/
def update_ansi_stack_go : Nat → Str → Str → Str
  | _, stack, [] => stack
  | 0, stack, _ => stack
  | fuel + 1, stack, c :: rest =>
    if c = escCh then
      let (seq, n) := consume_escape_sequence rest
      let stack :=
        if is_sgr_sequence seq then
          if is_sgr_reset seq then [] else stack ++ seq
        else stack
      update_ansi_stack_go fuel stack (rest.drop n)
    else update_ansi_stack_go fuel stack rest

/-- Entry point of `update_ansi_stack`. -/
def update_ansi_stack (stack s : Str) : Str :=
  update_ansi_stack_go s.length stack s

/-- Loop state of `utils.rs::wrap_line_word`. -/
def wrap_line_word_loop (width : Nat) : List (Str × Bool) → WrapSt → WrapSt
  | [], st => st
  | (word, is_ws) :: rest, st =>
    let clean_word := strip_ansi word
    let word_width := display_width clean_word
    let st :=
      if word.contains escCh then { st with ansi_stack := update_ansi_stack st.ansi_stack word }
      else st
    let st :=
      if is_ws then
        if st.current_width + word_width ≤ width then
          { st with current_line := st.current_line ++ word,
                    current_width := st.current_width + word_width }
        else if !(trim st.current_line).isEmpty then
          { st with result := st.result ++ [trim_end st.current_line],
                    current_line := st.ansi_stack, current_width := 0 }
        else st
      else
        if st.current_width + word_width ≤ width || (trim st.current_line).isEmpty then
          { st with current_line := st.current_line ++ word,
                    current_width := st.current_width + word_width }
        else
          { st with result := st.result ++ [trim_end st.current_line],
                    current_line := st.ansi_stack ++ word,
                    current_width := word_width }
    wrap_line_word_loop width rest st

/-- `utils.rs::wrap_line_word`. -/
def wrap_line_word (line : Str) (width : Nat) : List Str :=
  if width = 0 then [line]
  else
    let clean_line := strip_ansi line
    if display_width clean_line ≤ width then [line]
    else
      let words := split_line_into_words_with_ansi line
      let st := wrap_line_word_loop width words ⟨[], [], 0, []⟩
      let result :=
        if !(trim st.current_line).isEmpty then st.result ++ [st.current_line]
        else st.result
      if result.isEmpty then [[]] else result

/-- `utils.rs::wrap_text_with_mode`. -/
def wrap_text_with_mode (text : Str) (width : Nat) (mode : WrapMode) : Str :=
  if width = 0 || mode = WrapMode.none then text
  else
    let lines := split_on '\n' text
    let wrapped := lines.flatMap (fun line =>
      if (trim line).isEmpty then [[]]
      else
        match mode with
        | WrapMode.none => [line]
        | WrapMode.character => wrap_line_character line width
        | WrapMode.word => wrap_line_word line width)
    List.intercalate ['\n'] wrapped

/-! ## terminal.rs: colors and ANSI style application -/

/-- Model of `crossterm::style::Color` as used by `terminal.rs`. -/
inductive Color where
  | black | darkRed | darkGreen | darkYellow | darkBlue | darkMagenta
  | darkCyan | grey | darkGrey | red | green | yellow | blue | magenta
  | cyan | white
  | ansiValue (n : Nat)
  | rgb (r g b : Nat)
  | reset
deriving DecidableEq, Repr

/-- `terminal.rs::color_to_ansi_fg`.  The RGB arm is `unreachable!()` in the
source (RGB is emitted as a truecolor sequence before this is called); it is
given a dummy value here. -/
def color_to_ansi_fg : Color → Nat
  | Color.black => 30
  | Color.darkRed => 31
  | Color.darkGreen => 32
  | Color.darkYellow => 33
  | Color.darkBlue => 34
  | Color.darkMagenta => 35
  | Color.darkCyan => 36
  | Color.grey => 37
  | Color.darkGrey => 90
  | Color.red => 91
  | Color.green => 92
  | Color.yellow => 93
  | Color.blue => 94
  | Color.magenta => 95
  | Color.cyan => 96
  | Color.white => 97
  | Color.ansiValue n => n
  | Color.rgb _ _ _ => 0
  | Color.reset => 39

/-- `terminal.rs::color_to_ansi_bg`. -/
def color_to_ansi_bg : Color → Nat
  | Color.black => 40
  | Color.darkRed => 41
  | Color.darkGreen => 42
  | Color.darkYellow => 43
  | Color.darkBlue => 44
  | Color.darkMagenta => 45
  | Color.darkCyan => 46
  | Color.grey => 47
  | Color.darkGrey => 100
  | Color.red => 101
  | Color.green => 102
  | Color.yellow => 103
  | Color.blue => 104
  | Color.magenta => 105
  | Color.cyan => 106
  | Color.white => 107
  | Color.ansiValue n => n + 10
  | Color.rgb _ _ _ => 0
  | Color.reset => 49

/-- Decimal rendering of a `usize`, modelling `format!("{}", n)` (fuel = the
number itself, never exhausted: `n / 10 < n` whenever `10 ≤ n`). -/
def nat_str_go : Nat → Nat → Str
  | 0, n => [Char.ofNat (48 + n % 10)]
  | fuel + 1, n =>
    if n < 10 then [Char.ofNat (48 + n)]
    else nat_str_go fuel (n / 10) ++ [Char.ofNat (48 + n % 10)]

/-- Entry point of the decimal rendering. -/
def nat_str (n : Nat) : Str := nat_str_go n n

/-- An SGR escape sequence `\x1b[{body}m`. -/
def sgr_seq (body : Str) : Str := escCh :: '[' :: body ++ ['m']

/-- `terminal.rs::AnsiStyle`. -/
structure AnsiStyle where
  fg_color : Option Color := none
  bg_color : Option Color := none
  bold : Bool := false
  italic : Bool := false
  underline : Bool := false
  strikethrough : Bool := false
deriving Repr

/-- The foreground-color escape emitted by `AnsiStyle::apply` (256-color and
truecolor formats, else the basic fg code). -/
def fg_seq : Option Color → Str
  | none => []
  | some (Color.ansiValue n) => sgr_seq (str "38;5;" ++ nat_str n)
  | some (Color.rgb r g b) =>
    sgr_seq (str "38;2;" ++ nat_str r ++ [';'] ++ nat_str g ++ [';'] ++ nat_str b)
  | some c => sgr_seq (nat_str (color_to_ansi_fg c))

/-- The background-color escape emitted by `AnsiStyle::apply`. -/
def bg_seq : Option Color → Str
  | none => []
  | some (Color.ansiValue n) => sgr_seq (str "48;5;" ++ nat_str n)
  | some (Color.rgb r g b) =>
    sgr_seq (str "48;2;" ++ nat_str r ++ [';'] ++ nat_str g ++ [';'] ++ nat_str b)
  | some c => sgr_seq (nat_str (color_to_ansi_bg c))

/-- The attribute escapes emitted by `AnsiStyle::apply`. -/
def attr_seq (style : AnsiStyle) : Str :=
  (if style.bold then sgr_seq (str "1") else []) ++
  (if style.italic then sgr_seq (str "3") else []) ++
  (if style.underline then sgr_seq (str "4") else []) ++
  (if style.strikethrough then sgr_seq (str "9") else [])

/-- `terminal.rs::AnsiStyle::apply`. -/
def AnsiStyle.apply (style : AnsiStyle) (text : Str) (no_colors : Bool) : Str :=
  if no_colors then text
  else
    fg_seq style.fg_color ++ bg_seq style.bg_color ++ attr_seq style ++ text ++
      sgr_seq (str "0")

/-- `terminal.rs::AnsiStyle` builder helpers (`fg`, `bold`, …). -/
def AnsiStyle.fg (s : AnsiStyle) (c : Color) : AnsiStyle := { s with fg_color := some c }

def AnsiStyle.mkBold (s : AnsiStyle) : AnsiStyle := { s with bold := true }

def AnsiStyle.mkItalic (s : AnsiStyle) : AnsiStyle := { s with italic := true }

def AnsiStyle.mkUnderline (s : AnsiStyle) : AnsiStyle := { s with underline := true }

def AnsiStyle.mkStrikethrough (s : AnsiStyle) : AnsiStyle := { s with strikethrough := true }

/-! ## theme.rs: theme data and style creation -/

/-- `theme.rs::ThemeElement`. -/
inductive ThemeElement where
  | text | textLight | h1 | h2 | h3 | h4 | h5 | h6 | code | codeBlock
  | quote | link | emphasis | strong | strikethrough | border | listMarker
  | tableHeader | tableBorder | error | warning
deriving DecidableEq, Repr

/-- `theme.rs::Theme`: the color assigned to each semantic element. -/
structure Theme where
  text : Color := Color.reset
  text_light : Color := Color.grey
  h1 : Color := Color.cyan
  h2 : Color := Color.green
  h3 : Color := Color.yellow
  h4 : Color := Color.blue
  h5 : Color := Color.magenta
  h6 : Color := Color.red
  code : Color := Color.yellow
  quote : Color := Color.grey
  link : Color := Color.blue
  emphasis : Color := Color.green
  strong : Color := Color.red
  strikethrough : Color := Color.darkGrey
  border : Color := Color.grey
  list_marker : Color := Color.cyan
  table_header : Color := Color.cyan
  table_border : Color := Color.grey
  error : Color := Color.red
  warning : Color := Color.yellow
deriving Repr

/-- `theme.rs::create_style`: foreground color per element, plus bold for
Strong/H1, italic for Emphasis, strikethrough for Strikethrough. -/
def create_style (theme : Theme) (element : ThemeElement) : AnsiStyle :=
  let color :=
    match element with
    | ThemeElement.text => theme.text
    | ThemeElement.textLight => theme.text_light
    | ThemeElement.h1 => theme.h1
    | ThemeElement.h2 => theme.h2
    | ThemeElement.h3 => theme.h3
    | ThemeElement.h4 => theme.h4
    | ThemeElement.h5 => theme.h5
    | ThemeElement.h6 => theme.h6
    | ThemeElement.code => theme.code
    | ThemeElement.codeBlock => theme.text
    | ThemeElement.quote => theme.quote
    | ThemeElement.link => theme.link
    | ThemeElement.emphasis => theme.emphasis
    | ThemeElement.strong => theme.strong
    | ThemeElement.strikethrough => theme.strikethrough
    | ThemeElement.border => theme.border
    | ThemeElement.listMarker => theme.list_marker
    | ThemeElement.tableHeader => theme.table_header
    | ThemeElement.tableBorder => theme.table_border
    | ThemeElement.error => theme.error
    | ThemeElement.warning => theme.warning
  let style := AnsiStyle.fg {} color
  match element with
  | ThemeElement.strong => AnsiStyle.mkBold style
  | ThemeElement.h1 => AnsiStyle.mkBold style
  | ThemeElement.emphasis => AnsiStyle.mkItalic style
  | ThemeElement.strikethrough => AnsiStyle.mkStrikethrough style
  | _ => style

/-! ## cli.rs / config.rs: configuration -/

/-- `cli.rs::LinkStyle`. -/
inductive LinkStyle where
  | clickable | clickableForced | inline | inlineTable | hide
deriving DecidableEq, Repr

/-- `cli.rs::LinkTruncationStyle`. -/
inductive LinkTruncationStyle where
  | wrap | cut | none
deriving DecidableEq, Repr

/-- `cli.rs::TextWrapMode`. -/
inductive TextWrapMode where
  | char | word | none
deriving DecidableEq, Repr

/-- `cli.rs::TableWrapMode`. -/
inductive TableWrapMode where
  | fit | wrap | none
deriving DecidableEq, Repr

/-- `cli.rs::HeadingLayout`. -/
inductive HeadingLayout where
  | level | center | flat | none
deriving DecidableEq, Repr

/-- `cli.rs::CodeBlockStyle`. -/
inductive CodeBlockStyle where
  | simple | pretty
deriving DecidableEq, Repr

/-- `config.rs::Config` (the fields the rendering engine reads), together
with `terminal_size`, the width reported by the external
`crossterm::terminal::size()` query consulted by `get_terminal_width`. -/
structure Config where
  no_colors : Bool := false
  cols : Option Nat := none
  cols_from_cli : Bool := false
  terminal_size : Option Nat := none
  wrap : TextWrapMode := TextWrapMode.char
  heading_layout : HeadingLayout := HeadingLayout.level
  smart_indent : Bool := false
  show_empty_elements : Bool := false
  link_style : LinkStyle := LinkStyle.clickable
  link_truncation : LinkTruncationStyle := LinkTruncationStyle.wrap
  code_guessing : Bool := true
deriving Repr

/-- `config.rs::Config::text_wrap_mode`. -/
def Config.text_wrap_mode (c : Config) : WrapMode :=
  match c.wrap with
  | TextWrapMode.char => WrapMode.character
  | TextWrapMode.word => WrapMode.word
  | TextWrapMode.none => WrapMode.none

/-- `config.rs::Config::is_text_wrapping_enabled`. -/
def Config.is_text_wrapping_enabled (c : Config) : Bool :=
  c.wrap ≠ TextWrapMode.none

/-- `config.rs::Config::get_terminal_width`. -/
def Config.get_terminal_width (c : Config) : Nat :=
  if c.cols_from_cli && c.cols.isSome then c.cols.getD 80
  else
    match c.terminal_size with
    | some w => if w ≥ 20 then w else c.cols.getD 80
    | none => c.cols.getD 80

/-! ## table.rs: table width estimation and block splitting -/

/-- `pulldown_cmark::Alignment`. -/
inductive Alignment where
  | none | left | center | right
deriving DecidableEq, Repr

/-- Per-column maximum escape-stripped content width over the headers and all
rows (the loop shared by `estimate_table_width` and
`calculate_column_widths`). -/
def col_max_widths (headers : List Str) (rows : List (List Str)) : List Nat :=
  let base := headers.map (fun h => display_width (strip_ansi h))
  rows.foldl (fun acc row =>
    acc.mapIdx (fun i w =>
      match row[i]? with
      | some cell => max w (display_width (strip_ansi cell))
      | none => w)) base

/-- `table.rs::TableRenderer::estimate_table_width`. -/
def estimate_table_width (headers : List Str) (rows : List (List Str)) : Nat :=
  (col_max_widths headers rows).sum + headers.length * 3 + 1

/-- `table.rs::TableRenderer::calculate_column_widths`. -/
def calculate_column_widths (headers : List Str) (rows : List (List Str)) : List Nat :=
  (col_max_widths headers rows).map (fun w => max w 3)

/-- One column block produced by `split_table_into_blocks`. -/
structure TableBlock where
  headers : List Str
  rows : List (List Str)
  aligns : List Alignment
deriving Repr

/-- The inner `for` loop of `split_table_into_blocks`: how many additional
columns after the first fit into the current block (the loop breaks at the
first column that does not fit).  Fuel = `n - i`, never exhausted. -/
def block_extra_go (w : Nat) (widths : List Nat) (n : Nat) : Nat → Nat → Nat → Nat
  | 0, _, _ => 0
  | fuel + 1, i, cw =>
    if i < n then
      let aw := widths.getD i 0 + 3
      if cw + aw ≤ w then 1 + block_extra_go w widths n fuel (i + 1) (cw + aw)
      else 0
    else 0

/-- Entry point of the inner column-packing loop. -/
def block_extra (w : Nat) (widths : List Nat) (n i cw : Nat) : Nat :=
  block_extra_go w widths n (n - i) i cw

/-- `table.rs::TableRenderer::split_table_into_blocks` outer loop (fuel =
`n - start`, never exhausted: each block covers at least one column). -/
def split_blocks_go (w : Nat) (headers : List Str) (rows : List (List Str))
    (aligns : List Alignment) (widths : List Nat) (n : Nat) :
    Nat → Nat → List TableBlock
  | 0, _ => []
  | fuel + 1, start =>
    if start < n then
      -- border_overhead = 4; the first column is always included
      let cw0 := 4 + widths.getD start 0 + 3
      let e := start + 1 + block_extra w widths n (start + 1) cw0
      let block_headers := (headers.drop start).take (e - start)
      let block_rows := rows.map (fun row =>
        if row.length > start then
          let end_idx := min e row.length
          (row.drop start).take (end_idx - start)
        else List.replicate block_headers.length [])
      let block_aligns :=
        if aligns.length > start then
          let end_idx := min e aligns.length
          (aligns.drop start).take (end_idx - start)
        else List.replicate block_headers.length Alignment.left
      TableBlock.mk block_headers block_rows block_aligns ::
        split_blocks_go w headers rows aligns widths n fuel e
    else []

/-- Entry point of the outer block-splitting loop. -/
def split_blocks_loop (w : Nat) (headers : List Str) (rows : List (List Str))
    (aligns : List Alignment) (widths : List Nat) (n start : Nat) :
    List TableBlock :=
  split_blocks_go w headers rows aligns widths n (n - start) start

/-- `table.rs::TableRenderer::split_table_into_blocks` (entry point). -/
def split_table_into_blocks (w : Nat) (headers : List Str) (rows : List (List Str))
    (aligns : List Alignment) : List TableBlock :=
  let column_widths := calculate_column_widths headers rows
  split_blocks_loop w headers rows aligns column_widths headers.length 0

/-- The separator emitted before every block after the first by
`render_wrapped_table`'s loop. -/
def table_block_sep (theme : Theme) (no_colors : Bool) (w : Nat) (idx : Nat) : Str :=
  if idx > 0 then
    let separator_width := min w 80
    let inner_separator := str_repeat (str "═") (separator_width - 3)
    let full_separator_text := inner_separator
    let separator :=
      if no_colors then full_separator_text
      else (create_style theme ThemeElement.tableBorder).apply full_separator_text no_colors
    '\n' :: separator ++ ['\n']
  else []

/-- The per-block output of `render_wrapped_table`'s loop body.  `grid` stands
for the external `comfy-table` single-block renderer
(`render_single_table_block`). -/
def render_wrapped_loop (grid : List Str → List (List Str) → List Alignment → Str)
    (theme : Theme) (no_colors : Bool) (w : Nat) (total : Nat) :
    List TableBlock → Nat → Str
  | [], _ => []
  | b :: rest, idx =>
    let sep : Str := table_block_sep theme no_colors w idx
    let block_info :=
      (create_style theme ThemeElement.quote).apply
        (str "Block " ++ nat_str (idx + 1) ++ str " of " ++ nat_str total) no_colors
    sep ++ block_info ++ '\n' :: grid b.headers b.rows b.aligns ++
      render_wrapped_loop grid theme no_colors w total rest (idx + 1)

/-- `table.rs::TableRenderer::render_wrapped_table`. -/
def render_wrapped_table (grid : List Str → List (List Str) → List Alignment → Str)
    (theme : Theme) (no_colors : Bool) (w : Nat)
    (headers : List Str) (rows : List (List Str)) (aligns : List Alignment) : Str :=
  let blocks := split_table_into_blocks w headers rows aligns
  render_wrapped_loop grid theme no_colors w blocks.length blocks 0

/-- `table.rs::TableRenderer::render_table`.  `grid_nolimit` and `grid` stand
for the two external `comfy-table` renderers (`…_no_width_limit` and
`render_single_table_block`). -/
def render_table (grid_nolimit grid : List Str → List (List Str) → List Alignment → Str)
    (theme : Theme) (no_colors : Bool) (w : Nat) (table_wrap : TableWrapMode)
    (headers : List Str) (rows : List (List Str)) (aligns : List Alignment) : Str :=
  if headers.isEmpty then []
  else
    match table_wrap with
    | TableWrapMode.none => grid_nolimit headers rows aligns
    | TableWrapMode.wrap =>
      let estimated_width := estimate_table_width headers rows
      if estimated_width ≤ w then grid headers rows aligns
      else render_wrapped_table grid theme no_colors w headers rows aligns
    | TableWrapMode.fit => grid headers rows aligns

/-! ## code.rs: language hint resolution -/

/-- Model of Rust `char::to_ascii_lowercase` (also used to model the Unicode
`to_lowercase`, which the source only applies to ASCII language tokens). -/
def ascii_lower_char (c : Char) : Char :=
  if 'A' ≤ c && c ≤ 'Z' then Char.ofNat (c.toNat + 32) else c

/-- ASCII lowercase of a string. -/
def ascii_lower (s : Str) : Str := s.map ascii_lower_char

/-- Model of Rust `char::to_uppercase` on the first character of a language
token (ASCII titlecasing). -/
def ascii_upper_char (c : Char) : Char :=
  if 'a' ≤ c && c ≤ 'z' then Char.ofNat (c.toNat - 32) else c

/-- Rust `str::eq_ignore_ascii_case`. -/
def eq_ignore_ascii_case (a b : Str) : Bool := ascii_lower a = ascii_lower b

/-- `code.rs::EventRenderer::should_render_code_block_as_plaintext`. -/
def should_render_code_block_as_plaintext (depth : Nat) (language_hint : Option Str) : Bool :=
  if depth > 0 then false
  else
    match language_hint with
    | none => false
    | some raw =>
      let hint := trim raw
      if hint.isEmpty then false
      else
        let normalized := ascii_lower hint
        normalized = str "text" || normalized = str "plain" || normalized = str "plaintext" ||
        normalized = str "txt" || normalized = str "markdown" || normalized = str "md"

/-- `code.rs::LANGUAGE_SEPARATORS`. -/
def language_separators : List Char := [' ', '\t', ',', ';', '|']

/-- Rust `str::split` on a set of separator characters. -/
def split_on_any (seps : List Char) : Str → List Str
  | [] => [[]]
  | c :: rest =>
    match split_on_any seps rest with
    | [] => if seps.contains c then [[], [c]] else [[c]]
    | h :: t => if seps.contains c then [] :: h :: t else (c :: h) :: t

/-- Rust `str::split_once('=')`. -/
def split_once_eq (s : Str) : Option (Str × Str) :=
  match s.findIdx? (· = '=') with
  | none => none
  | some i => some (s.take i, s.drop (i + 1))

/-- Rust `str::trim_matches` with a character predicate. -/
def trim_matches (p : Char → Bool) (s : Str) : Str :=
  ((s.dropWhile p).reverse.dropWhile p).reverse

/-- The punctuation stripped by `split_language_hint`'s `trim_matches` call:
braces, double quote, single quote, backtick, dot and bang. -/
def hint_trim_char (c : Char) : Bool :=
  c = '\x7b' || c = '\x7d' || c = '"' || c = '\'' || c = Char.ofNat 0x60 ||
  c = '.' || c = '!'

/-- Rust `str::contains(char)` given a needle character. -/
def str_contains_char (s : Str) (c : Char) : Bool := s.contains c

/-- Whether a needle string occurs inside a haystack (Rust
`str::contains(&str)`). -/
def str_contains (hay needle : Str) : Bool :=
  (List.range (hay.length + 1)).any (fun i => needle.isPrefixOf (hay.drop i))

/-- Rust `str::starts_with(&str)` / `strip_prefix`. -/
def strip_pre (pre s : Str) : Str :=
  if pre.isPrefixOf s then s.drop pre.length else s

/-- `code.rs::EventRenderer::split_language_hint`. -/
def split_language_hint (hint : Str) : List Str :=
  let trimmed := trim hint
  if trimmed.isEmpty then []
  else
    (split_on_any language_separators trimmed).foldl (fun parts fragment =>
      let piece := trim fragment
      if piece.isEmpty then parts
      else
        let piece :=
          match split_once_eq piece with
          | some (_, value) => trim value
          | none => piece
        let piece :=
          if piece.headD ' ' = '\x7b' && piece.getLastD ' ' = '\x7d' && piece.length > 2 then
            (piece.drop 1).take (piece.length - 2)
          else piece
        let piece := trim_matches hint_trim_char (trim piece)
        if piece.isEmpty then parts
        else
          let piece := strip_pre (str "language-") piece
          let piece := if piece.headD ' ' = '.' then piece.drop 1 else piece
          let normalized := trim piece
          if normalized.isEmpty then parts
          else
            let normalized := ascii_lower normalized
            if parts.any (fun existing => eq_ignore_ascii_case existing normalized) then parts
            else parts ++ [normalized]) []

/-- `code.rs::EventRenderer::is_plain_language`. -/
def is_plain_language (token : Str) : Bool :=
  let t := ascii_lower token
  t = str "text" || t = str "plain" || t = str "plaintext" || t = str "plain_text" ||
  t = str "txt" || t = str "output" || t = str "nohighlight" || t = str "none"

/-- Model of Rust `char::is_ascii_alphabetic`. -/
def is_ascii_alpha (c : Char) : Bool :=
  ('a' ≤ c && c ≤ 'z') || ('A' ≤ c && c ≤ 'Z')

/-- The separator characters split by `humanize_language_token`. -/
def humanize_sep (c : Char) : Bool := c = '-' || c = '_' || c = '/' || c = '.'

/-- Base case of `humanize_language_token` (a token containing no separator):
tokens of up to three alphabetic characters are upper-cased, otherwise the
first character is title-cased. -/
def humanize_base (token : Str) : Str :=
  if token.isEmpty then []
  else if token.length ≤ 3 && token.all is_ascii_alpha then token.map ascii_upper_char
  else
    match token with
    | [] => []
    | c :: rest => ascii_upper_char c :: rest

/-- `code.rs::EventRenderer::humanize_language_token`.  The source recurses on
the separator-split pieces; since a piece never contains a separator, that
recursive call always lands in the non-separator branch, which is inlined
here as `humanize_base`. -/
def humanize_language_token (token : Str) : Str :=
  if token.isEmpty then []
  else if token.any humanize_sep then
    let parts := ((split_on_any ['-', '_', '/', '.'] token).filter
      (fun part => !part.isEmpty)).map humanize_base
    let parts := parts.filter (fun part => !part.isEmpty)
    if parts.isEmpty then [] else List.intercalate [' '] parts
  else humanize_base token

/-- `code.rs::CUSTOM_LANGUAGE_LABELS`. -/
def custom_language_labels : List (Str × Str) :=
  [(str "bash", str "Bash"), (str "shell", str "Shell"),
   (str "shell-session", str "Shell"), (str "console", str "Shell"),
   (str "sh", str "Shell"), (str "objective-c", str "Objective-C")]

/-- `code.rs::EventRenderer::lookup_custom_label`. -/
def lookup_custom_label (key : Str) : Option Str :=
  let normalized := ascii_lower (trim key)
  ((custom_language_labels).find? (fun p => eq_ignore_ascii_case p.1 normalized)).map (·.2)

/-- `code.rs::EventRenderer::custom_language_label`. -/
def custom_language_label (raw_hint : Str) (syntax_name_lower : Str) : Option Str :=
  match lookup_custom_label syntax_name_lower with
  | some label => some label
  | none =>
    (split_language_hint raw_hint).foldl (fun acc token =>
      match acc with
      | some l => some l
      | none => lookup_custom_label token) none

/-- `code.rs::EventRenderer::fallback_language_label`. -/
def fallback_language_label (raw_hint : Str) : Option Str :=
  (split_language_hint raw_hint).foldl (fun acc token =>
    match acc with
    | some l => some l
    | none =>
      if token.isEmpty then none
      else if is_plain_language token then some (str "Text")
      else
        let label := humanize_language_token token
        if !label.isEmpty then some label else none) none

/-- Model of a `syntect::parsing::SyntaxReference` (only its name matters to
the renderer). -/
structure SyntaxRef where
  name : Str
deriving DecidableEq, Repr

/-- Model of the external `syntect::parsing::SyntaxSet` catalog interface
consumed by `resolve_syntax` (spec §6: syntax-definition catalog keyed by
name/alias/extension with first-line guessing support). -/
structure SyntaxSetModel where
  find_by_token : Str → Option SyntaxRef
  find_by_name : Str → Option SyntaxRef
  find_by_extension : Str → Option SyntaxRef
  find_by_first_line : Str → Option SyntaxRef
  plain_text : SyntaxRef

/-- `code.rs::EventRenderer::lookup_syntax`. -/
def lookup_syntax (s : SyntaxSetModel) (token : Str) : Option SyntaxRef :=
  if token.isEmpty then none
  else
    match s.find_by_token token with
    | some hit => some hit
    | none =>
      match s.find_by_name token with
      | some hit => some hit
      | none => s.find_by_extension token

/-- `code.rs::EventRenderer::push_candidate`. -/
def push_candidate (target : List Str) (candidate : Str) : List Str :=
  if candidate.isEmpty then target
  else if target.any (fun existing => eq_ignore_ascii_case existing candidate) then target
  else target ++ [candidate]

/-- `code.rs::EventRenderer::expand_language_aliases`. -/
def expand_language_aliases (token : Str) : List Str :=
  let aliases := push_candidate [] token
  let lower := ascii_lower token
  let aliases := if lower ≠ token then push_candidate aliases lower else aliases
  let grp (more : List Str) : List Str := more.foldl push_candidate aliases
  if lower = str "rs" || lower = str "rust" then
    grp [str "rs", str "rust", str "Rust"]
  else if lower = str "py" || lower = str "python" then
    grp [str "py", str "python", str "Python"]
  else if lower = str "js" || lower = str "javascript" || lower = str "node" ||
          lower = str "nodejs" || lower = str "ecmascript" then
    grp [str "js", str "javascript", str "JavaScript", str "JavaScript (Babel)"]
  else if lower = str "jsx" then
    grp [str "jsx", str "JavaScript (Babel)"]
  else if lower = str "ts" || lower = str "typescript" then
    grp [str "ts", str "typescript", str "TypeScript"]
  else if lower = str "tsx" || lower = str "typescriptreact" then
    grp [str "tsx", str "TypeScriptReact", str "TypeScript"]
  else if lower = str "c" then grp [str "c", str "C"]
  else if lower = str "h" then grp [str "c", str "C"]
  else if lower = str "cpp" || lower = str "c++" || lower = str "cxx" || lower = str "hpp" then
    grp [str "cpp", str "c++", str "C++", str "cxx"]
  else if lower = str "objc" || lower = str "objective-c" || lower = str "objectivec" then
    grp [str "objc", str "Objective-C", str "Objectivec"]
  else if lower = str "objcpp" || lower = str "objective-c++" then
    grp [str "objective-c++", str "Objective-C++", str "objcpp"]
  else if lower = str "cs" || lower = str "csharp" || lower = str "c#" then
    grp [str "cs", str "csharp", str "C#"]
  else if lower = str "go" || lower = str "golang" then grp [str "go", str "Go"]
  else if lower = str "java" then grp [str "java", str "Java"]
  else if lower = str "kotlin" || lower = str "kt" then
    grp [str "kt", str "kotlin", str "Kotlin"]
  else if lower = str "swift" then grp [str "swift", str "Swift"]
  else if lower = str "scala" then grp [str "scala", str "Scala"]
  else if lower = str "php" then grp [str "php", str "PHP"]
  else if lower = str "rb" || lower = str "ruby" then
    grp [str "rb", str "ruby", str "Ruby"]
  else if lower = str "perl" || lower = str "pl" then grp [str "pl", str "Perl"]
  else if lower = str "lua" then grp [str "lua", str "Lua"]
  else if lower = str "r" then grp [str "r", str "R"]
  else if lower = str "dart" then grp [str "dart", str "Dart"]
  else if lower = str "haskell" || lower = str "hs" then grp [str "hs", str "Haskell"]
  else if lower = str "clj" || lower = str "clojure" then grp [str "clj", str "Clojure"]
  else if lower = str "elixir" then grp [str "elixir", str "Elixir"]
  else if lower = str "erlang" then grp [str "erlang", str "Erlang"]
  else if lower = str "fsharp" || lower = str "fs" || lower = str "f#" then
    grp [str "F#", str "FSharp", str "fs"]
  else if lower = str "sql" || lower = str "sqlite" || lower = str "postgres" ||
          lower = str "mysql" then
    grp [str "sql", str "SQL"]
  else if lower = str "yaml" || lower = str "yml" then
    grp [str "yaml", str "YAML", str "yml"]
  else if lower = str "json" || lower = str "jsonc" || lower = str "json5" then
    grp [str "json", str "JSON"]
  else if lower = str "toml" then grp [str "toml", str "TOML"]
  else if lower = str "ini" || lower = str "cfg" || lower = str "conf" then
    grp [str "ini", str "INI"]
  else if lower = str "md" || lower = str "markdown" then
    grp [str "md", str "markdown", str "Markdown"]
  else if lower = str "html" || lower = str "htm" || lower = str "xhtml" then
    grp [str "html", str "HTML"]
  else if lower = str "xml" then grp [str "xml", str "XML"]
  else if lower = str "css" then grp [str "css", str "CSS"]
  else if lower = str "scss" then grp [str "scss", str "SCSS"]
  else if lower = str "less" then grp [str "less", str "LESS"]
  else if lower = str "bash" || lower = str "sh" || lower = str "shell" ||
          lower = str "zsh" || lower = str "shell-session" || lower = str "console" then
    grp [str "bash", str "Bash", str "shell", str "Shell", str "Shell-Unix-Generic", str "sh"]
  else if lower = str "fish" then grp [str "fish", str "Fish"]
  else if lower = str "powershell" || lower = str "ps" || lower = str "ps1" then
    grp [str "powershell", str "PowerShell", str "ps1"]
  else if lower = str "cmd" || lower = str "batch" || lower = str "bat" then
    grp [str "Batchfile", str "batch", str "bat"]
  else if lower = str "make" || lower = str "makefile" then
    grp [str "make", str "Makefile"]
  else if lower = str "cmake" then grp [str "cmake", str "CMake"]
  else if lower = str "docker" || lower = str "dockerfile" then
    grp [str "docker", str "Dockerfile"]
  else if lower = str "graphql" || lower = str "gql" then
    grp [str "graphql", str "GraphQL"]
  else if lower = str "proto" || lower = str "protobuf" then
    grp [str "proto", str "Protocol Buffer"]
  else if lower = str "plantuml" || lower = str "uml" then
    grp [str "plantuml", str "PlantUML"]
  else if lower = str "mermaid" then grp [str "mermaid", str "Mermaid"]
  else if lower = str "diff" || lower = str "patch" || lower = str "gdiff" then
    grp [str "diff", str "Diff", str "patch"]
  else if lower = str "log" then grp [str "Log"]
  else if lower = str "latex" || lower = str "tex" then
    grp [str "latex", str "LaTeX", str "tex", str "TeX"]
  else if lower = str "rst" || lower = str "restructuredtext" then
    grp [str "rst", str "reStructuredText"]
  else if lower = str "adoc" || lower = str "asciidoc" then
    grp [str "adoc", str "AsciiDoc"]
  else if lower = str "matlab" || lower = str "octave" then
    grp [str "matlab", str "Matlab", str "Octave"]
  else if lower = str "vb" || lower = str "visualbasic" then
    grp [str "vb", str "Visual Basic", str "VB.NET"]
  else if lower = str "zig" then grp [str "zig", str "Zig"]
  else if lower = str "nim" then grp [str "nim", str "Nim"]
  else if lower = str "solidity" || lower = str "sol" then
    grp [str "solidity", str "Solidity"]
  else if lower = str "proto3" then grp [str "proto3", str "Protocol Buffer"]
  else if lower = str "assembly" || lower = str "asm" then
    grp [str "asm", str "Assembly"]
  else if lower = str "wasm" || lower = str "wat" then
    grp [str "wat", str "WebAssembly"]
  else aliases

/-- First alias of a token that the catalog resolves (the inner `for` of
`try_lookup`). -/
def first_alias_hit (s : SyntaxSetModel) : List Str → Option SyntaxRef
  | [] => none
  | candidate :: rest =>
    match lookup_syntax s candidate with
    | some syn => some syn
    | none => first_alias_hit s rest

/-- `code.rs::EventRenderer::try_lookup`.  Returns the hit (if any) together
with the updated `seen` list (the source threads `seen` by mutable
reference). -/
def try_lookup (s : SyntaxSetModel) : List Str → List Str → (Option SyntaxRef × List Str)
  | [], seen => (none, seen)
  | token :: rest, seen =>
    if token.isEmpty then try_lookup s rest seen
    else if seen.any (fun existing => eq_ignore_ascii_case existing token) then
      try_lookup s rest seen
    else
      let seen := seen ++ [token]
      if is_plain_language token then (some s.plain_text, seen)
      else
        match first_alias_hit s (expand_language_aliases token) with
        | some syn => (some syn, seen)
        | none => try_lookup s rest seen

/-- The guessing tail of `resolve_syntax` (first-line sniffing, then
content-based detection via the external `markdown.rs::detect_source_code`,
modelled by the `detect` parameter). -/
def resolve_syntax_guess (s : SyntaxSetModel) (detect : Str → Option Str)
    (code : Str) (seen : List Str) : SyntaxRef :=
  match s.find_by_first_line code with
  | some first_line_match => first_line_match
  | none =>
    match detect code with
    | some guessed =>
      match (try_lookup s [guessed] seen).1 with
      | some hit => hit
      | none => s.plain_text
    | none => s.plain_text

/-- `code.rs::EventRenderer::resolve_syntax`. -/
def resolve_syntax (s : SyntaxSetModel) (detect : Str → Option Str)
    (code_guessing : Bool) (language_hint : Option Str) (code : Str) : SyntaxRef :=
  match language_hint with
  | some lang =>
    let candidates := split_language_hint lang
    match try_lookup s candidates [] with
    | (some hit, _) => hit
    | (none, seen) =>
      if !code_guessing then s.plain_text
      else resolve_syntax_guess s detect code seen
  | none =>
    if !code_guessing then s.plain_text
    else resolve_syntax_guess s detect code []

/-- `code.rs::EventRenderer::resolve_language_label`. -/
def resolve_language_label (raw_hint : Str) (syn : SyntaxRef) : Str :=
  let syntax_name := trim syn.name
  let syntax_name_lower := ascii_lower syntax_name
  match custom_language_label raw_hint syntax_name_lower with
  | some label => label
  | none =>
    if str_contains syntax_name_lower (str "plain text") then
      (fallback_language_label raw_hint).getD (str "Text")
    else syntax_name

/-! ## renderer/event: the layout state machine (fragment)

The embedded fragment covers the events needed by the claims: text,
soft/hard breaks, paragraphs, headings, links (all five link styles) and the
inline formatting tags.  Code blocks, lists, block quotes, tables, images and
the remaining leaf events are not part of the embedded event type; the state
fields and branches that serve them are embedded faithfully (they are simply
never driven by an event).
-/

/-- `pulldown_cmark::HeadingLevel`. -/
inductive HeadingLevel where
  | h1 | h2 | h3 | h4 | h5 | h6
deriving DecidableEq, Repr

/-- `core.rs::EventRenderer::heading_level_to_number`. -/
def heading_level_to_number : HeadingLevel → Nat
  | HeadingLevel.h1 => 1
  | HeadingLevel.h2 => 2
  | HeadingLevel.h3 => 3
  | HeadingLevel.h4 => 4
  | HeadingLevel.h5 => 5
  | HeadingLevel.h6 => 6

/-- `core.rs::EventRenderer::number_to_heading_level`. -/
def number_to_heading_level : Nat → Option HeadingLevel
  | 1 => some HeadingLevel.h1
  | 2 => some HeadingLevel.h2
  | 3 => some HeadingLevel.h3
  | 4 => some HeadingLevel.h4
  | 5 => some HeadingLevel.h5
  | 6 => some HeadingLevel.h6
  | _ => none

/-- `core.rs::ListState`. -/
structure ListSt where
  is_ordered : Bool
  counter : Nat
  current_item_start : Option Nat
  current_item_marker_end : Option Nat
deriving Repr

/-- `core.rs::TableState`. -/
structure TableSt where
  alignments : List Alignment
  headers : List Str
  rows : List (List Str)
  in_header : Bool
  current_row : List Str
  current_cell : Str
  inline_references : List (Str × Str)
deriving Repr

/-- `core.rs::CapturedReferenceBlock`. -/
structure CapturedRefBlock where
  lines : List Str
  add_trailing_newline : Bool
  in_list : Bool
deriving Repr

/-- The renderer's event fragment (start/end tags flattened into single
constructors). -/
inductive Event where
  | text (s : Str)
  | softBreak
  | hardBreak
  | startParagraph
  | endParagraph
  | startHeading (level : HeadingLevel)
  | endHeading (level : HeadingLevel)
  | startLink (dest_url : Str)
  | endLink
  | startEmphasis
  | endEmphasis
  | startStrong
  | endStrong
  | startStrikethrough
  | endStrikethrough
deriving Repr

/-- `core.rs::EventRenderer` mutable state (`output` and the nesting/link/
code/heading trackers).  The configuration and theme are passed separately. -/
structure RState where
  output : Str := []
  current_indent : Nat := 0
  blockquote_level : Nat := 0
  blockquote_starts : List Nat := []
  list_stack : List ListSt := []
  table_state : Option TableSt := none
  link_references : List (Str × Str) := []
  link_counter : Nat := 0
  current_link_text : Str := []
  in_link : Bool := false
  paragraph_link_counter : Nat := 0
  paragraph_links : List (Str × Str) := []
  in_code_block : Bool := false
  code_block_content : Str := []
  code_block_language : Option Str := none
  plaintext_code_block_depth : Nat := 0
  captured_reference_blocks : List CapturedRefBlock := []
  last_header_level : HeadingLevel := HeadingLevel.h1
  formatting_stack : List ThemeElement := []
  current_heading_level : Option HeadingLevel := none
  current_heading_start : Option Nat := none
  pending_heading_placeholder : Option (Nat × Nat) := none
  heading_indent : Nat := 0
  content_indent : Nat := 0
  smart_level_indents : List (HeadingLevel × Nat) := []
deriving Repr

/-- Association-list model of the `HashMap` fields (`insert` shadows, `get`
takes the most recent binding). -/
def map_insert (m : List (Str × Str)) (k v : Str) : List (Str × Str) := (k, v) :: m

/-- Lookup in the association-list map model. -/
def map_get (m : List (Str × Str)) (k : Str) : Option Str :=
  (m.find? (fun p => p.1 = k)).map (·.2)

/-- Lookup in the `smart_level_indents` map. -/
def smart_lookup (m : List (HeadingLevel × Nat)) (lvl : HeadingLevel) : Option Nat :=
  (m.find? (fun p => p.1 = lvl)).map (·.2)

/-- Start offset of the last line of a string (the index just after the last
newline, `rfind('\n').map(|i| i + 1).unwrap_or(0)`). -/
def last_line_start (s : Str) : Nat :=
  match rfind_char '\n' s with
  | some idx => idx + 1
  | none => 0

/-- The text of the current (last) visual line,
`&output[output.rfind('\n').map_or(0, |i| i + 1)..]`. -/
def current_line_of (output : Str) : Str := output.drop (last_line_start output)

/-- `text.rs::EventRenderer::calculate_list_content_indent`. -/
def calculate_list_content_indent (st : RState) : Nat :=
  let total := st.content_indent + (st.list_stack.length - 1) * 2
  match st.list_stack.getLast? with
  | some list_state => total + (if list_state.is_ordered then 3 else 2)
  | none => total

/-- `formatting.rs::EventRenderer::render_blockquote_prefix` (the styled
`│ `-run marking quote nesting). -/
def render_blockquote_marker (config : Config) (theme : Theme) (st : RState) : Str :=
  if st.blockquote_level = 0 then []
  else
    let pfx := char_repeat '│' st.blockquote_level ++ [' ']
    if config.no_colors then pfx
    else (create_style theme ThemeElement.quote).apply pfx config.no_colors

/-- `formatting.rs::EventRenderer::current_line_prefix`: the contextual
indentation/prefix for a fresh visual line. -/
def current_line_ctx (config : Config) (theme : Theme) (st : RState) : Str :=
  if st.blockquote_level > 0 then
    (if st.content_indent > 0 then char_repeat ' ' st.content_indent else []) ++
    render_blockquote_marker config theme st ++
    (if !st.list_stack.isEmpty then
      let full_list_indent := calculate_list_content_indent st
      let additional := full_list_indent - st.content_indent
      if additional > 0 then char_repeat ' ' additional else []
    else [])
  else if !st.list_stack.isEmpty then
    char_repeat ' ' (calculate_list_content_indent st)
  else if st.content_indent > 0 then
    char_repeat ' ' st.content_indent
  else []

/-- `formatting.rs::EventRenderer::push_indent_for_line_start`. -/
def push_indent_for_line_start (config : Config) (theme : Theme) (st : RState) : RState :=
  { st with output := st.output ++ current_line_ctx config theme st }

/-- `formatting.rs::EventRenderer::push_newline_with_context` (a newline
followed by the same contextual prefix as `current_line_prefix`). -/
def push_newline_with_context (config : Config) (theme : Theme) (st : RState) : RState :=
  { st with output := st.output ++ '\n' :: current_line_ctx config theme st }

/-- `formatting.rs::EventRenderer::compute_line_start_context_width`. -/
def compute_line_start_context_width (st : RState) : Nat :=
  if st.blockquote_level > 0 then
    st.content_indent + st.blockquote_level + 1 +
    (if !st.list_stack.isEmpty then
      calculate_list_content_indent st - st.content_indent
    else 0)
  else if !st.list_stack.isEmpty then calculate_list_content_indent st
  else st.content_indent

/-- `formatting.rs::EventRenderer::trailing_blank_line_matches`. -/
def trailing_blank_line_matches (output pfx : Str) : Bool :=
  if output.isEmpty || !ends_with_char '\n' output then false
  else
    let without_last := output.take (output.length - 1)
    without_last.drop (last_line_start without_last) = pfx

/-- The newline-termination step of `ensure_contextual_blank_line` (append a
newline unless the buffer already ends with one). -/
def ensure_nl (output : Str) : Str :=
  if !ends_with_char '\n' output then output ++ ['\n'] else output

/-- `formatting.rs::EventRenderer::ensure_contextual_blank_line`, as a pure
function of the buffer and the contextual prefix. -/
def ensure_contextual_blank_line_on (output pfx : Str) : Str :=
  if output.isEmpty then output
  else
    if !trailing_blank_line_matches (ensure_nl output) pfx then
      ensure_nl output ++ pfx ++ ['\n']
    else ensure_nl output

/-- `formatting.rs::EventRenderer::ensure_contextual_blank_line`. -/
def ensure_contextual_blank_line (config : Config) (theme : Theme) (st : RState) : RState :=
  { st with output := ensure_contextual_blank_line_on st.output (current_line_ctx config theme st) }

/-- `formatting.rs::EventRenderer::has_trailing_blank_line`. -/
def has_trailing_blank_line (output : Str) : Bool :=
  if output.isEmpty || !ends_with_char '\n' output then false
  else
    let without_last := output.take (output.length - 1)
    let last_line := without_last.drop (last_line_start without_last)
    if last_line.isEmpty then true
    else (strip_ansi last_line).all (fun ch => rust_is_ws ch || ch = '│')

/-- `formatting.rs::EventRenderer::normalize_trailing_blank_line`. -/
def normalize_trailing_blank_line (output : Str) : Str :=
  if output.isEmpty || !ends_with_char '\n' output then output
  else
    let len := output.length
    let without_last := output.take (len - 1)
    let start := last_line_start without_last
    let last_line := without_last.drop start
    if last_line.isEmpty then output
    else if (strip_ansi last_line).all (fun ch => rust_is_ws ch || ch = '│') then
      output.take start ++ output.drop (len - 1)
    else output

/-- `formatting.rs::EventRenderer::trim_trailing_blank_lines` (fuel = buffer
length, never exhausted: each step removes at least the final newline). -/
def trim_trailing_blank_lines_go : Nat → Str → Str
  | 0, output => output
  | fuel + 1, output =>
    if ends_with_char '\n' output then
      let without_last := output.take (output.length - 1)
      let start := last_line_start without_last
      let last_line := without_last.drop start
      if last_line.isEmpty then trim_trailing_blank_lines_go fuel (output.take start)
      else if (trim (strip_ansi last_line)).isEmpty then
        trim_trailing_blank_lines_go fuel (output.take start)
      else output
    else output

/-- Entry point of `trim_trailing_blank_lines`. -/
def trim_trailing_blank_lines (output : Str) : Str :=
  trim_trailing_blank_lines_go output.length output

/-- `formatting.rs::EventRenderer::apply_formatting`. -/
def apply_formatting (config : Config) (theme : Theme) (st : RState) (text : Str) : Str :=
  if st.formatting_stack.isEmpty then text
  else
    let has_strong := st.formatting_stack.contains ThemeElement.strong
    let has_emphasis := st.formatting_stack.contains ThemeElement.emphasis
    let has_strike := st.formatting_stack.contains ThemeElement.strikethrough
    let base_element :=
      if has_strong then ThemeElement.strong
      else if has_emphasis then ThemeElement.emphasis
      else if has_strike then ThemeElement.strikethrough
      else ThemeElement.text
    let style := create_style theme base_element
    let style := if has_strong then AnsiStyle.mkBold style else style
    let style := if has_emphasis then AnsiStyle.mkItalic style else style
    let style := if has_strike then AnsiStyle.mkStrikethrough style else style
    style.apply text config.no_colors

/-- `formatting.rs::EventRenderer::take_prefix_by_width` loop. -/
def take_prefix_width_go (max_width : Nat) (width : Nat) : Str → (Str × Str)
  | [] => ([], [])
  | c :: t =>
    let ch_w := char_width c
    if width + ch_w > max_width then ([], c :: t)
    else
      let (a, b) := take_prefix_width_go max_width (width + ch_w) t
      (c :: a, b)

/-- `formatting.rs::EventRenderer::take_prefix_by_width`. -/
def take_prefix_by_width (s : Str) (max_width : Nat) : (Str × Str) :=
  if max_width = 0 || s.isEmpty then ([], s)
  else take_prefix_width_go max_width 0 s

/-- The word-mode "do not break before punctuation" test repeated at each
wrap decision in `text.rs` (`!unit.trim_start().starts_with(',') && …`);
character mode always breaks, no-wrap mode never breaks. -/
def unit_should_break (wrap_mode : WrapMode) (unit : Str) : Bool :=
  match wrap_mode with
  | WrapMode.word =>
    match trim_start unit with
    | [] => true
    | c :: _ =>
      !(c = ',' || c = '.' || c = ';' || c = ':' || c = '!' || c = '?' ||
        c = ')' || c = ']' || c = '\x7d')
  | WrapMode.character => true
  | WrapMode.none => false

/-- `text.rs::EventRenderer::split_text_into_words_styled` loop. -/
def split_words_styled_loop : Str → Str → Bool → List Str → List Str
  | [], current, _, words => if !current.isEmpty then words ++ [current] else words
  | c :: rest, current, in_ws, words =>
    if rust_is_ws c then
      if !in_ws && !current.isEmpty then
        split_words_styled_loop rest [c] true (words ++ [current])
      else split_words_styled_loop rest (current ++ [c]) true words
    else
      if in_ws && !current.isEmpty then
        split_words_styled_loop rest [c] false (words ++ [current])
      else split_words_styled_loop rest (current ++ [c]) false words

/-- `text.rs::EventRenderer::split_text_into_words_styled`. -/
def split_text_into_words_styled (text : Str) : List Str :=
  split_words_styled_loop text [] false []

/-- `text.rs::EventRenderer::split_text_into_characters_styled`. -/
def split_text_into_characters_styled (text : Str) : List Str :=
  text.map (fun c => [c])

/-- The unit-splitting match repeated in `text.rs` (`match wrap_mode { Word
=> …words…, Character => …characters…, None => vec![text] }`). -/
def split_units (wrap_mode : WrapMode) (text : Str) : List Str :=
  match wrap_mode with
  | WrapMode.word => split_text_into_words_styled text
  | WrapMode.character => split_text_into_characters_styled text
  | WrapMode.none => [text]

/-- The per-unit body shared verbatim by `process_styled_text_with_wrapping`
and `process_regular_text` (width check, optional break, optional
indentation, then append the formatted unit). -/
def process_text_unit (config : Config) (theme : Theme) (effective_width : Nat)
    (wrap_mode : WrapMode) (st : RState) (unit : Str) : RState :=
  let current_line_clean := strip_ansi (current_line_of st.output)
  let current_line_width := display_width current_line_clean
  let unit_width := display_width unit
  let additional_width :=
    if st.in_link && config.link_style = LinkStyle.inlineTable then
      display_width ('[' :: nat_str st.paragraph_link_counter ++ [']'])
    else 0
  let would_exceed := current_line_width + unit_width + additional_width > effective_width
  let st :=
    if would_exceed && current_line_width > 0 && !(trim current_line_clean).isEmpty then
      if unit_should_break wrap_mode unit then push_newline_with_context config theme st
      else st
    else st
  let formatted_unit := apply_formatting config theme st unit
  let should_add_indent :=
    (ends_with_char '\n' st.output || st.output.isEmpty) && !(trim formatted_unit).isEmpty
  let after_inline_content :=
    match rfind_char '\n' st.output with
    | some i => !(trim (st.output.drop (i + 1))).isEmpty
    | none => !(trim st.output).isEmpty
  let st :=
    if should_add_indent && !after_inline_content then
      push_indent_for_line_start config theme st
    else st
  { st with output := st.output ++ formatted_unit }

/-- `text.rs::EventRenderer::process_styled_text_with_wrapping`. -/
def process_styled_text_with_wrapping (config : Config) (theme : Theme)
    (st : RState) (text : Str) : RState :=
  let effective_width := config.get_terminal_width
  let wrap_mode := config.text_wrap_mode
  let units := split_units wrap_mode text
  units.enum.foldl (fun st p =>
    if (trim p.2).isEmpty && p.1 > 0 then { st with output := st.output ++ p.2 }
    else process_text_unit config theme effective_width wrap_mode st p.2) st

/-- `text.rs::EventRenderer::process_regular_text`. -/
def process_regular_text (config : Config) (theme : Theme) (st : RState)
    (text : Str) (should_wrap : Bool) : RState :=
  if should_wrap then
    let effective_width := config.get_terminal_width
    let wrap_mode := config.text_wrap_mode
    let units := split_units wrap_mode text
    units.foldl (fun st unit =>
      if (trim unit).isEmpty then
        let current_line_clean := strip_ansi (current_line_of st.output)
        let current_line_width := display_width current_line_clean
        let space_width := display_width unit
        if current_line_width + space_width > effective_width then
          push_newline_with_context config theme st
        else { st with output := st.output ++ unit }
      else process_text_unit config theme effective_width wrap_mode st unit) st
  else
    let final_text := apply_formatting config theme st text
    let st :=
      if (ends_with_char '\n' st.output || st.output.isEmpty) && !(trim final_text).isEmpty then
        let after_inline_content :=
          match rfind_char '\n' st.output with
          | some i => !(trim (st.output.drop (i + 1))).isEmpty
          | none => !(trim st.output).isEmpty
        if !after_inline_content then push_indent_for_line_start config theme st
        else st
      else st
    { st with output := st.output ++ final_text }

/-- The underlined-fragment flush of
`process_underlined_text_with_wrapping`: underline codes around the fragment
with its trailing spaces outside (`format!("\x1b[4m{}\x1b[0m{}", …)`). -/
def ul_fragment (no_colors : Bool) (fragment : Str) : Str :=
  if !no_colors then
    let fragment_to_format := trim_end fragment
    let trailing_spaces := fragment.drop fragment_to_format.length
    sgr_seq (str "4") ++ fragment_to_format ++ sgr_seq (str "0") ++ trailing_spaces
  else fragment

/-- Main loop of `text.rs::EventRenderer::process_underlined_text_with_wrapping`
(state: fragment being accumulated and the visible width already used at the
fragment's line start). -/
def process_underlined_loop (config : Config) (theme : Theme) (effective_width : Nat)
    (wrap_mode : WrapMode) :
    List (Nat × Str) → RState → Str → Nat → (RState × Str)
  | [], st, fragment, _ => (st, fragment)
  | (i, unit) :: rest, st, current_fragment, fragment_start_line_width =>
    let is_ws := (trim unit).isEmpty
    let unit_width := display_width unit
    let current_fragment_width := display_width current_fragment
    let would_exceed :=
      fragment_start_line_width + current_fragment_width + unit_width > effective_width
    if is_ws && i > 0 then
      if would_exceed && !(trim current_fragment).isEmpty then
        let st := { st with output := st.output ++ ul_fragment config.no_colors current_fragment }
        let st := push_newline_with_context config theme st
        process_underlined_loop config theme effective_width wrap_mode rest st []
          (compute_line_start_context_width st)
      else
        process_underlined_loop config theme effective_width wrap_mode rest st
          (current_fragment ++ unit) fragment_start_line_width
    else
      if would_exceed && !(trim current_fragment).isEmpty then
        let st := { st with output := st.output ++ ul_fragment config.no_colors current_fragment }
        let next :=
          if unit_should_break wrap_mode unit then
            let st := push_newline_with_context config theme st
            (st, compute_line_start_context_width st)
          else (st, fragment_start_line_width)
        process_underlined_loop config theme effective_width wrap_mode rest next.1 unit next.2
      else
        let next :=
          if would_exceed then
            let st := push_newline_with_context config theme st
            (st, compute_line_start_context_width st)
          else (st, fragment_start_line_width)
        process_underlined_loop config theme effective_width wrap_mode rest next.1
          (current_fragment ++ unit) next.2

/-- `text.rs::EventRenderer::process_underlined_text_with_wrapping`. -/
def process_underlined_text_with_wrapping (config : Config) (theme : Theme)
    (st : RState) (text : Str) : RState :=
  if !config.is_text_wrapping_enabled then
    let formatted_text :=
      if !config.no_colors then sgr_seq (str "4") ++ text ++ sgr_seq (str "0")
      else text
    { st with output := st.output ++ formatted_text }
  else
    let effective_width := config.get_terminal_width
    let wrap_mode := config.text_wrap_mode
    let units := split_units wrap_mode text
    let fragment_start_line_width :=
      display_width (strip_ansi (current_line_of st.output))
    let start :=
      if effective_width - fragment_start_line_width ≤ 1 && !(trim text).isEmpty then
        let st := push_newline_with_context config theme st
        (st, compute_line_start_context_width st)
      else (st, fragment_start_line_width)
    let res := process_underlined_loop config theme effective_width wrap_mode
      units.enum start.1 [] start.2
    if !res.2.isEmpty then
      { res.1 with output := res.1.output ++ ul_fragment config.no_colors res.2 }
    else res.1

/-- The strikethrough-fragment flush of
`process_strikethrough_text_with_wrapping`: the full formatting stack applied
to the fragment with its trailing spaces outside. -/
def strike_fragment (config : Config) (theme : Theme) (st : RState) (fragment : Str) : Str :=
  let fragment_to_format := trim_end fragment
  let trailing_spaces := fragment.drop fragment_to_format.length
  apply_formatting config theme st fragment_to_format ++ trailing_spaces

/-- Main loop of
`text.rs::EventRenderer::process_strikethrough_text_with_wrapping`. -/
def process_strike_loop (config : Config) (theme : Theme) (effective_width : Nat)
    (wrap_mode : WrapMode) :
    List (Nat × Str) → RState → Str → Nat → (RState × Str)
  | [], st, fragment, _ => (st, fragment)
  | (i, unit) :: rest, st, current_fragment, fragment_start_line_width =>
    let is_ws := (trim unit).isEmpty
    let unit_width := display_width unit
    let current_fragment_width := display_width current_fragment
    let would_exceed :=
      fragment_start_line_width + current_fragment_width + unit_width > effective_width
    if is_ws && i > 0 then
      if would_exceed && !(trim current_fragment).isEmpty then
        let st := { st with output := st.output ++ strike_fragment config theme st current_fragment }
        let st := push_newline_with_context config theme st
        process_strike_loop config theme effective_width wrap_mode rest st []
          (compute_line_start_context_width st)
      else
        process_strike_loop config theme effective_width wrap_mode rest st
          (current_fragment ++ unit) fragment_start_line_width
    else
      if would_exceed && !(trim current_fragment).isEmpty then
        let st := { st with output := st.output ++ strike_fragment config theme st current_fragment }
        let next :=
          if unit_should_break wrap_mode unit then
            let st := push_newline_with_context config theme st
            (st, compute_line_start_context_width st)
          else (st, fragment_start_line_width)
        process_strike_loop config theme effective_width wrap_mode rest next.1 unit next.2
      else
        let next :=
          if would_exceed then
            let st := push_newline_with_context config theme st
            (st, compute_line_start_context_width st)
          else (st, fragment_start_line_width)
        process_strike_loop config theme effective_width wrap_mode rest next.1
          (current_fragment ++ unit) next.2

/-- `text.rs::EventRenderer::process_strikethrough_text_with_wrapping`. -/
def process_strikethrough_text_with_wrapping (config : Config) (theme : Theme)
    (st : RState) (text : Str) : RState :=
  if !config.is_text_wrapping_enabled then
    { st with output := st.output ++ apply_formatting config theme st text }
  else
    let effective_width := config.get_terminal_width
    let wrap_mode := config.text_wrap_mode
    let units := split_units wrap_mode text
    let fragment_start_line_width :=
      display_width (strip_ansi (current_line_of st.output))
    let start :=
      if effective_width - fragment_start_line_width ≤ 1 && !(trim text).isEmpty then
        let st := push_newline_with_context config theme st
        (st, compute_line_start_context_width st)
      else (st, fragment_start_line_width)
    let res := process_strike_loop config theme effective_width wrap_mode
      units.enum start.1 [] start.2
    if !res.2.isEmpty then
      { res.1 with output := res.1.output ++ strike_fragment config theme res.1 res.2 }
    else res.1

/-- `headings.rs::EventRenderer::commit_pending_heading_placeholder_if_content`. -/
def commit_pending_heading_placeholder_if_content (st : RState) : RState :=
  match st.pending_heading_placeholder with
  | some (start, len) =>
    let e := start + len
    if e ≤ st.output.length then
      let slice := st.output.drop e
      if !(trim (strip_ansi slice)).isEmpty then
        { st with pending_heading_placeholder := none }
      else st
    else st
  | none => st

/-- `headings.rs::EventRenderer::finalize_pending_heading_placeholder`. -/
def finalize_pending_heading_placeholder (st : RState) : RState :=
  match st.pending_heading_placeholder with
  | some (start, len) =>
    let st := { st with pending_heading_placeholder := none }
    let e := min (start + len) st.output.length
    let slice := st.output.drop e
    if (trim (strip_ansi slice)).isEmpty then
      if start ≤ e then { st with output := st.output.take start ++ st.output.drop e }
      else st
    else st
  | none => st

/-- `text.rs::EventRenderer::process_text_with_wrapping_and_formatting`. -/
def process_text_with_wrapping_and_formatting (config : Config) (theme : Theme)
    (st : RState) (text : Str) : RState :=
  match st.table_state with
  | some table =>
    let formatted_text := apply_formatting config theme st text
    { st with table_state := some { table with current_cell := table.current_cell ++ formatted_text } }
  | none =>
    let st :=
      if st.blockquote_level > 0 then
        let after_newline := ends_with_char '\n' st.output
        let at_start := st.output.isEmpty
        let at_line_start :=
          match rfind_char '\n' st.output with
          | some i => (trim (st.output.drop (i + 1))).isEmpty
          | none => (trim st.output).isEmpty
        if after_newline || at_start || at_line_start then
          let st :=
            if st.content_indent > 0 then
              { st with output := st.output ++ char_repeat ' ' st.content_indent }
            else st
          { st with output := st.output ++ render_blockquote_marker config theme st }
        else st
      else st
    let should_wrap := config.is_text_wrapping_enabled
    if should_wrap && !st.formatting_stack.isEmpty then
      if st.formatting_stack.contains ThemeElement.strikethrough then
        process_strikethrough_text_with_wrapping config theme st text
      else process_styled_text_with_wrapping config theme st text
    else process_regular_text config theme st text should_wrap

/-- `text.rs::EventRenderer::handle_text`. -/
def handle_text (config : Config) (theme : Theme) (st : RState) (text : Str) : RState :=
  let st :=
    if st.in_code_block then
      { st with code_block_content := st.code_block_content ++ text }
    else if st.in_link then
      match config.link_style with
      | LinkStyle.clickable => { st with current_link_text := st.current_link_text ++ text }
      | LinkStyle.clickableForced => { st with current_link_text := st.current_link_text ++ text }
      | LinkStyle.inline => { st with current_link_text := st.current_link_text ++ text }
      | LinkStyle.inlineTable => { st with current_link_text := st.current_link_text ++ text }
      | LinkStyle.hide => st
    else process_text_with_wrapping_and_formatting config theme st text
  if !st.in_code_block && !st.in_link then
    commit_pending_heading_placeholder_if_content st
  else st

/-! ### headings.rs -/

/-- `headings.rs::EventRenderer::get_heading_indent`. -/
def get_heading_indent (config : Config) (level : HeadingLevel) : Nat :=
  match config.heading_layout with
  | HeadingLayout.level => heading_level_to_number level - 1
  | HeadingLayout.center => 0
  | HeadingLayout.flat => 0
  | HeadingLayout.none => 0

/-- `headings.rs::EventRenderer::get_content_indent`. -/
def get_content_indent (config : Config) (level : HeadingLevel) : Nat :=
  match config.heading_layout with
  | HeadingLayout.level => heading_level_to_number level
  | HeadingLayout.center => 0
  | HeadingLayout.flat => 1
  | HeadingLayout.none => 0

/-- `headings.rs::EventRenderer::handle_header_start`. -/
def handle_header_start (config : Config) (theme : Theme) (st : RState)
    (level : HeadingLevel) : RState :=
  let st := finalize_pending_heading_placeholder st
  let st :=
    if config.heading_layout = HeadingLayout.level && config.smart_indent then
      match smart_lookup st.smart_level_indents level with
      | some planned_indent =>
        { st with heading_indent := planned_indent, content_indent := planned_indent + 1 }
      | none =>
        { st with heading_indent := get_heading_indent config level,
                  content_indent := get_content_indent config level }
    else
      { st with heading_indent := get_heading_indent config level,
                content_indent := get_content_indent config level }
  let st := { st with current_heading_level := some level, last_header_level := level }
  let st := { st with output := trim_trailing_blank_lines st.output }
  let st := ensure_contextual_blank_line config theme st
  let st :=
    if has_trailing_blank_line st.output then
      { st with output := normalize_trailing_blank_line st.output }
    else st
  let st :=
    if st.heading_indent > 0 then
      { st with output := st.output ++ char_repeat ' ' st.heading_indent }
    else st
  { st with current_heading_start := some st.output.length }

/-- The heading theme element per level (the `match level` in
`handle_header_end`). -/
def heading_element : HeadingLevel → ThemeElement
  | HeadingLevel.h1 => ThemeElement.h1
  | HeadingLevel.h2 => ThemeElement.h2
  | HeadingLevel.h3 => ThemeElement.h3
  | HeadingLevel.h4 => ThemeElement.h4
  | HeadingLevel.h5 => ThemeElement.h5
  | HeadingLevel.h6 => ThemeElement.h6

/-- Rust `str::rfind("\n\n")`: start index of the last occurrence of two
consecutive newlines. -/
def rfind_nn (s : Str) : Option Nat :=
  ((List.range (s.length - 1)).filter
    (fun i => s.getD i 'x' = '\n' && s.getD (i + 1) 'x' = '\n')).getLast?

/-- `links.rs::EventRenderer::wrap_text_for_output`. -/
def wrap_text_for_output (config : Config) (st : RState) (text : Str) : Str :=
  if !config.is_text_wrapping_enabled then text
  else
    let terminal_width := config.get_terminal_width
    if terminal_width < 20 || (trim text).length < 10 then text
    else
      let effective_width := terminal_width
      let effective_width :=
        if st.content_indent > 0 then effective_width - st.content_indent
        else effective_width
      let effective_width :=
        if st.current_indent > 0 then effective_width - (st.blockquote_level + 1)
        else effective_width
      if effective_width < 10 then text
      else wrap_text_with_mode text effective_width config.text_wrap_mode

/-- The header styling block of `handle_header_end` (identical in its two
branches): strip the known indent, wrap, then style and re-indent (or center
under the Center layout). -/
def render_final_header (config : Config) (st : RState) (style : AnsiStyle)
    (indent_str : Str) (header_text : Str) : Str :=
  let clean_header_text :=
    if indent_str.isPrefixOf header_text then header_text.drop indent_str.length
    else header_text
  let wrapped_header :=
    if !config.is_text_wrapping_enabled then clean_header_text
    else wrap_text_for_output config st clean_header_text
  match config.heading_layout with
  | HeadingLayout.center =>
    let terminal_width := config.get_terminal_width
    List.intercalate ['\n'] ((rust_lines wrapped_header).map (fun line =>
      let clean := strip_ansi line
      let line_width := display_width clean
      let pad := if terminal_width > line_width then (terminal_width - line_width) / 2 else 0
      char_repeat ' ' pad ++ style.apply line config.no_colors))
  | _ =>
    let styled_header := style.apply wrapped_header config.no_colors
    if st.heading_indent > 0 then indent_str ++ styled_header else styled_header

/-- `headings.rs::EventRenderer::handle_header_end`. -/
def handle_header_end (config : Config) (theme : Theme) (st : RState)
    (level : HeadingLevel) : RState :=
  let element := heading_element level
  let st :=
    match st.current_heading_start with
    | some start =>
      let st := { st with current_heading_start := none }
      let slice := if start ≤ st.output.length then st.output.drop start else []
      let is_empty_heading := (trim (strip_ansi slice)).isEmpty
      if is_empty_heading then
        let marker_count := heading_level_to_number level
        let placeholder := char_repeat '#' marker_count
        let st :=
          if st.output.length = start then { st with output := st.output ++ placeholder }
          else { st with output := st.output.take start ++ placeholder ++ st.output.drop start }
        if config.show_empty_elements then { st with pending_heading_placeholder := none }
        else { st with pending_heading_placeholder := some (start, placeholder.length) }
      else { st with pending_heading_placeholder := none }
    | none => st
  let style := create_style theme element
  let indent_str := char_repeat ' ' st.heading_indent
  let st :=
    match rfind_nn st.output with
    | some last_newline_pos =>
      let before := st.output.take (last_newline_pos + 2)
      let after := st.output.drop (last_newline_pos + 2)
      let header_text := trim after
      if !header_text.isEmpty then
        { st with output := before ++ render_final_header config st style indent_str header_text }
      else st
    | none =>
      let header_text := trim st.output
      if !header_text.isEmpty then
        { st with output := render_final_header config st style indent_str header_text }
      else st
  let st := { st with output := st.output ++ ['\n'] }
  if config.heading_layout = HeadingLayout.center then
    { st with output := st.output ++ ['\n'] }
  else st

/-! ### links.rs -/

/-- OSC-8 hyperlink opener `\x1b]8;;URL\x1b\\`. -/
def osc8_open (url : Str) : Str := escCh :: str "]8;;" ++ url ++ [escCh, '\\']

/-- OSC-8 hyperlink closer `\x1b]8;;\x1b\\`. -/
def osc8_close : Str := escCh :: str "]8;;" ++ [escCh, '\\']

/-- `links.rs::EventRenderer::make_clickable_link`. -/
def make_clickable_link (config : Config) (text url : Str) : Str :=
  if config.no_colors then text
  else osc8_open url ++ text ++ osc8_close

/-- Character-consuming loop of `truncate_url_with_ellipsis`. -/
def trunc_url_go (max_url_width : Nat) (current_width : Nat) : Str → Str
  | [] => []
  | c :: t =>
    let char_w := char_width c
    if current_width + char_w > max_url_width then []
    else c :: trunc_url_go max_url_width (current_width + char_w) t

/-- `links.rs::EventRenderer::truncate_url_with_ellipsis`. -/
def truncate_url_with_ellipsis (url : Str) (available_width : Nat) : Str :=
  if available_width = 0 then []
  else if available_width ≤ 2 then char_repeat '.' available_width
  else
    let ellipsis := str "..."
    let ellipsis_width := 3
    if display_width url ≤ available_width then url
    else
      let max_url_width := available_width - ellipsis_width
      trunc_url_go max_url_width 0 url ++ ellipsis

/-- `links.rs::EventRenderer::handle_link_start`. -/
def handle_link_start (config : Config) (theme : Theme) (st : RState)
    (dest_url : Str) : RState :=
  let st :=
    if st.table_state.isNone then
      let line_start_idx := last_line_start st.output
      let current_line := st.output.drop line_start_idx
      if (trim current_line).isEmpty then
        push_indent_for_line_start config theme { st with output := st.output.take line_start_idx }
      else st
    else st
  match config.link_style with
  | LinkStyle.clickable =>
    let lc := st.link_counter + 1
    { st with link_counter := lc,
              link_references := map_insert st.link_references (str "current_" ++ nat_str lc) dest_url,
              current_link_text := [], in_link := true }
  | LinkStyle.clickableForced =>
    let lc := st.link_counter + 1
    { st with link_counter := lc,
              link_references := map_insert st.link_references (str "current_" ++ nat_str lc) dest_url,
              current_link_text := [], in_link := true }
  | LinkStyle.hide => st
  | LinkStyle.inline =>
    let lc := st.link_counter + 1
    { st with link_counter := lc,
              link_references := map_insert st.link_references (str "current_" ++ nat_str lc) dest_url,
              current_link_text := [], in_link := true }
  | LinkStyle.inlineTable =>
    let pc := st.paragraph_link_counter + 1
    { st with paragraph_link_counter := pc,
              paragraph_links := st.paragraph_links ++ [('[' :: nat_str pc ++ [']'], dest_url)],
              current_link_text := [], in_link := true }

/-- `links.rs::EventRenderer::find_url_break_point`. -/
def find_url_break_point (line : Str) (good_break_chars : List Char) : Option Nat :=
  match line.enum.reverse.find? (fun p => good_break_chars.contains p.2) with
  | some p => some (p.1 + 1)
  | none => none

/-- `links.rs` URL break characters. -/
def good_break_chars : List Char := ['/', '?', '&', '=', '-', '_', '.', ':', '#']

/-- Character loop of `wrap_url_with_reference`. -/
def wrap_url_ref_loop (first_line_width continuation_width reference_width : Nat)
    (continuation_indent : Str) :
    Str → Str → Str → Nat → Bool → Str
  | [], result, current_line, _, _ =>
    if !current_line.isEmpty then result ++ current_line else result
  | ch :: rest, result, current_line, current_width, is_first =>
    let char_w := char_width ch
    let max_width :=
      if is_first then first_line_width else continuation_width - reference_width
    if current_width + char_w > max_width && !current_line.isEmpty then
      match find_url_break_point current_line good_break_chars with
      | some break_pos =>
        let line_part := current_line.take break_pos
        let remaining := current_line.drop break_pos
        let result := result ++ line_part ++ ['\n'] ++ continuation_indent
        let current_line := remaining ++ [ch]
        wrap_url_ref_loop first_line_width continuation_width reference_width
          continuation_indent rest result current_line (display_width current_line) false
      | none =>
        let result := result ++ current_line ++ ['\n'] ++ continuation_indent
        wrap_url_ref_loop first_line_width continuation_width reference_width
          continuation_indent rest result [ch] (display_width [ch]) false
    else
      wrap_url_ref_loop first_line_width continuation_width reference_width
        continuation_indent rest result (current_line ++ [ch]) (current_width + char_w) is_first

/-- `links.rs::EventRenderer::wrap_url_with_reference`. -/
def wrap_url_with_reference (url : Str)
    (first_line_width continuation_width reference_width : Nat) : Str :=
  if display_width url ≤ first_line_width then url
  else
    let continuation_indent := char_repeat ' ' reference_width
    wrap_url_ref_loop first_line_width continuation_width reference_width
      continuation_indent url [] [] 0 true

/-- `links.rs::EventRenderer::wrap_link_line`. -/
def wrap_link_line (config : Config) (st : RState) (link_line : Str) : Str :=
  let terminal_width := config.get_terminal_width
  let effective_width := terminal_width - st.content_indent
  if effective_width < 20 then link_line
  else if display_width link_line ≤ effective_width then link_line
  else
    match link_line.findIdx? (· = ' ') with
    | some space_pos =>
      let reference := link_line.take space_pos
      let url := link_line.drop (space_pos + 1)
      let reference_width := display_width reference + 1
      let available_width := effective_width - reference_width
      if display_width url ≤ available_width then link_line
      else
        let truncated : Option Str :=
          if config.link_style = LinkStyle.inlineTable then
            match config.link_truncation with
            | LinkTruncationStyle.cut =>
              some (reference ++ ' ' :: truncate_url_with_ellipsis url available_width)
            | LinkTruncationStyle.none => some link_line
            | LinkTruncationStyle.wrap => none
          else none
        match truncated with
        | some result => result
        | none =>
          reference ++ ' ' ::
            wrap_url_with_reference url available_width effective_width reference_width
    | none => wrap_text_with_mode link_line terminal_width config.text_wrap_mode

/-- Continuation-line indent of `wrap_url_with_indentation` (content indent,
then raw unstyled quote pipes, then list alignment). -/
def wrap_url_indent (st : RState) : Str :=
  if st.blockquote_level > 0 then
    (if st.content_indent > 0 then char_repeat ' ' st.content_indent else []) ++
    char_repeat '│' st.blockquote_level ++ [' '] ++
    (if !st.list_stack.isEmpty then
      let full_list_indent := calculate_list_content_indent st
      let additional := full_list_indent - st.content_indent
      if additional > 0 then char_repeat ' ' additional else []
    else [])
  else if !st.list_stack.isEmpty then
    char_repeat ' ' (calculate_list_content_indent st)
  else if st.content_indent > 0 then char_repeat ' ' st.content_indent
  else []

/-- `links.rs::EventRenderer::wrap_url_with_indentation`. -/
def wrap_url_with_indentation (config : Config) (st : RState) (text : Str) : Str :=
  let wrapped := wrap_text_for_output config st text
  if !(wrapped.contains '\n') then wrapped
  else
    match split_on '\n' wrapped with
    | [] => []
    | first :: rest =>
      first ++ (rest.map (fun line => '\n' :: wrap_url_indent st ++ line)).flatten

/-- `links.rs::EventRenderer::make_clickable_wrapped_url`. -/
def make_clickable_wrapped_url (config : Config) (theme : Theme)
    (original_url styled_wrapped_url : Str) : Str :=
  if config.no_colors then styled_wrapped_url
  else
    List.intercalate ['\n'] ((split_on '\n' styled_wrapped_url).map (fun line =>
      let clean_line := strip_ansi line
      if !(trim clean_line).isEmpty then
        let styled_clean_line :=
          (create_style theme ThemeElement.link).apply clean_line config.no_colors
        make_clickable_link config styled_clean_line original_url
      else line))

/-- `links.rs::EventRenderer::enforce_width_on_current_line`.  The
continuation indent the source builds inline is the same construction as
`current_line_prefix`. -/
def enforce_width_on_current_line (config : Config) (theme : Theme) (st : RState) : RState :=
  let terminal_width := config.get_terminal_width
  let start := last_line_start st.output
  let current_line_raw := st.output.drop start
  let clean := strip_ansi current_line_raw
  let width := display_width clean
  if width ≤ terminal_width then st
  else
    match rfind_char ' ' current_line_raw with
    | some space_rel_idx =>
      if space_rel_idx = 0 then st
      else
        let insert := '\n' :: current_line_ctx config theme st
        let abs_idx := start + space_rel_idx
        { st with output := st.output.take abs_idx ++ insert ++ st.output.drop (abs_idx + 1) }
    | none => st

/-- `links.rs::EventRenderer::add_paragraph_link_references_with_trailing_newline`. -/
def add_paragraph_link_references_with (config : Config) (theme : Theme) (st : RState)
    (add_trailing_newline in_list in_table : Bool) : RState :=
  if st.paragraph_links.isEmpty then st
  else
    let style := create_style theme ThemeElement.link
    let styled_blocks : List (List Str) := st.paragraph_links.map (fun p =>
      let link_line := p.1 ++ ' ' :: p.2
      let wrapped_link :=
        if config.is_text_wrapping_enabled then wrap_link_line config st link_line
        else link_line
      (rust_lines wrapped_link).map (fun line =>
        style.apply (make_clickable_link config line p.2) config.no_colors))
    if st.plaintext_code_block_depth > 0 then
      { st with
        captured_reference_blocks := st.captured_reference_blocks ++
          [CapturedRefBlock.mk styled_blocks.flatten add_trailing_newline in_list],
        paragraph_links := [] }
    else
      let st :=
        { st with output := st.output ++
            (if ends_with_char '\n' st.output then ['\n'] else str "\n\n") }
      let nblocks := styled_blocks.length
      let body := (styled_blocks.enum.map (fun bp =>
        let nlines := bp.2.length
        (bp.2.enum.map (fun lp =>
          (if st.content_indent > 0 && !in_table then char_repeat ' ' st.content_indent
           else []) ++
          lp.2 ++
          (if lp.1 < nlines - 1 || bp.1 < nblocks - 1 then ['\n'] else []))).flatten)).flatten
      let st := { st with output := st.output ++ body }
      let st :=
        if add_trailing_newline then
          let st := { st with output := st.output ++ ['\n'] }
          if in_list then { st with output := st.output ++ ['\n'] } else st
        else st
      { st with paragraph_links := [] }

/-- `links.rs::EventRenderer::add_paragraph_link_references`. -/
def add_paragraph_link_references (config : Config) (theme : Theme) (st : RState) : RState :=
  add_paragraph_link_references_with config theme st true (!st.list_stack.isEmpty) false

/-- The `LinkTruncationStyle::Cut` arm of `handle_link_end` for inline links
with wrapping enabled: fit the parenthesized URL into the space remaining on
the current line, truncating with an ellipsis, breaking to a new line only
when at most two columns remain. -/
def cut_append_url_part (config : Config) (theme : Theme) (st : RState) (url : Str) : RState :=
  let url_part := '(' :: url ++ [')']
  let terminal_width := config.get_terminal_width
  let current_line_clean := strip_ansi (current_line_of st.output)
  let current_line_width := display_width current_line_clean
  let url_part_width := display_width url_part
  let available_width := terminal_width - current_line_width
  let style := create_style theme ThemeElement.link
  if available_width ≥ url_part_width then
    let styled_url := style.apply url_part config.no_colors
    let clickable_url := make_clickable_link config styled_url url
    enforce_width_on_current_line config theme
      { st with output := st.output ++ clickable_url }
  else if available_width > 2 then
    let available_for_url := available_width - 2
    let truncated_display := truncate_url_with_ellipsis url available_for_url
    let truncated_url_part := '(' :: truncated_display ++ [')']
    let styled_truncated := style.apply truncated_url_part config.no_colors
    let clickable_truncated := make_clickable_link config styled_truncated url
    { st with output := st.output ++ clickable_truncated }
  else
    let st := { st with output := st.output ++ ['\n'] }
    let st :=
      if st.content_indent > 0 then
        { st with output := st.output ++ char_repeat ' ' st.content_indent }
      else st
    let st :=
      if st.blockquote_level > 0 then
        { st with output := st.output ++ render_blockquote_marker config theme st }
      else st
    let effective_width_for_url := terminal_width
    let effective_width_for_url :=
      if st.content_indent > 0 then effective_width_for_url - st.content_indent
      else effective_width_for_url
    let effective_width_for_url :=
      if st.blockquote_level > 0 then effective_width_for_url - (st.blockquote_level + 1)
      else effective_width_for_url
    let available_for_url := effective_width_for_url - 2
    let truncated_display := truncate_url_with_ellipsis url available_for_url
    let truncated_url_part := '(' :: truncated_display ++ [')']
    let styled_truncated := style.apply truncated_url_part config.no_colors
    let clickable_truncated := make_clickable_link config styled_truncated url
    { st with output := st.output ++ clickable_truncated }

/-- The taken/remaining split of the `LinkTruncationStyle::Wrap` arm:
characters whose running width fits the remaining space go to the first
component, the rest to the second. -/
def wrap_split_chars (limit : Nat) (s : Str) : (Str × Str) :=
  let r := s.foldl (fun (acc : Str × Str × Nat) ch =>
    let w := char_width ch
    if acc.2.2 + w ≤ limit then (acc.1 ++ [ch], acc.2.1, acc.2.2 + w)
    else (acc.1, acc.2.1 ++ [ch], acc.2.2)) ([], [], 0)
  (r.1, r.2.1)

/-- The step closure of `wrap_split_chars`, hoisted to a named function. -/
def wsc_step (limit : Nat) (acc : Str × Str × Nat) (ch : Char) : Str × Str × Nat :=
  if acc.2.2 + char_width ch ≤ limit then (acc.1 ++ [ch], acc.2.1, acc.2.2 + char_width ch)
  else (acc.1, acc.2.1 ++ [ch], acc.2.2)

/-- `handle_link_end`, `LinkStyle::Clickable` / `ClickableForced` arms. -/
def handle_link_end_clickable (config : Config) (theme : Theme) (st : RState)
    (forced : Bool) : RState :=
  let link_text := st.current_link_text
  let formatted_text := apply_formatting config theme st link_text
  let st :=
    match st.table_state with
    | some table =>
      let underlined_text :=
        if !config.no_colors then
          sgr_seq (str "4") ++ formatted_text ++ sgr_seq (str "0")
        else formatted_text
      let table := { table with current_cell := table.current_cell ++ underlined_text }
      { st with table_state := some table }
    | none =>
      match map_get st.link_references (str "current_" ++ nat_str st.link_counter) with
      | some url =>
        let final_link :=
          if !config.no_colors then
            if forced then
              sgr_seq (str "4") ++ osc8_open url ++ formatted_text ++ osc8_close ++
                sgr_seq (str "0")
            else osc8_open url ++ formatted_text ++ osc8_close
          else formatted_text
        let st :=
          if config.is_text_wrapping_enabled then
            let current_line_clean := strip_ansi (current_line_of st.output)
            let terminal_width := config.get_terminal_width
            let current_line_width := display_width current_line_clean
            let link_width := display_width link_text
            let would_exceed := current_line_width + link_width > terminal_width
            if would_exceed && current_line_width > 0 &&
                !(trim current_line_clean).isEmpty then
              { st with output := st.output ++ ['\n'] }
            else st
          else st
        { st with output := st.output ++ final_link }
      | none => st
  { st with in_link := false, current_link_text := [] }

/-- `handle_link_end`, `LinkStyle::Inline` arm. -/
def handle_link_end_inline (config : Config) (theme : Theme) (st : RState) : RState :=
  let current_link_text := st.current_link_text
  let url? := map_get st.link_references (str "current_" ++ nat_str st.link_counter)
  let st :=
    match url? with
    | some url =>
      (match st.table_state with
      | some table =>
        let formatted_link_text :=
          if !config.no_colors then
            sgr_seq (str "4") ++ current_link_text ++ sgr_seq (str "0")
          else current_link_text
        let url_part := '(' :: url ++ [')']
        let style := create_style theme ThemeElement.link
        let styled_url := style.apply url_part config.no_colors
        let table := { table with
          inline_references := table.inline_references ++ [(url_part, styled_url)],
          current_cell := table.current_cell ++ formatted_link_text ++ url_part }
        { st with table_state := some table }
      | none =>
        let st := process_underlined_text_with_wrapping config theme st current_link_text
        let st := enforce_width_on_current_line config theme st
        let url_part := '(' :: url ++ [')']
        if config.is_text_wrapping_enabled then
          let terminal_width := config.get_terminal_width
          let current_line_clean := strip_ansi (current_line_of st.output)
          let current_line_width := display_width current_line_clean
          let url_part_width := display_width url_part
          match config.link_truncation with
          | LinkTruncationStyle.cut => cut_append_url_part config theme st url
          | LinkTruncationStyle.none =>
            let style := create_style theme ThemeElement.link
            let styled_url := style.apply url_part config.no_colors
            let clickable_url := make_clickable_link config styled_url url
            { st with output := st.output ++ clickable_url }
          | LinkTruncationStyle.wrap =>
            if current_line_width + url_part_width ≤ terminal_width then
              let style := create_style theme ThemeElement.link
              let styled_url := style.apply url_part config.no_colors
              let clickable_url := make_clickable_link config styled_url url
              { st with output := st.output ++ clickable_url }
            else
              let tr := wrap_split_chars (terminal_width - current_line_width) url_part
              let st :=
                if !tr.1.isEmpty then
                  let style := create_style theme ThemeElement.link
                  let styled_taken := style.apply tr.1 config.no_colors
                  let clickable_taken := make_clickable_link config styled_taken url
                  { st with output := st.output ++ clickable_taken }
                else st
              if !tr.2.isEmpty then
                let st := push_newline_with_context config theme st
                let style := create_style theme ThemeElement.link
                let styled_remaining := style.apply tr.2 config.no_colors
                let wrapped_url := wrap_url_with_indentation config st styled_remaining
                let clickable_wrapped := make_clickable_wrapped_url config theme url wrapped_url
                enforce_width_on_current_line config theme
                  { st with output := st.output ++ clickable_wrapped }
              else st
        else
          match config.link_truncation with
          | LinkTruncationStyle.cut =>
            let terminal_width := config.get_terminal_width
            let current_line_clean := strip_ansi (current_line_of st.output)
            let current_line_width := display_width current_line_clean
            let available_width := terminal_width - current_line_width
            let url_part_width := display_width url_part
            if available_width ≥ url_part_width then
              let style := create_style theme ThemeElement.link
              let styled_url := style.apply url_part config.no_colors
              let clickable_url := make_clickable_link config styled_url url
              enforce_width_on_current_line config theme
                { st with output := st.output ++ clickable_url }
            else if available_width > 2 then
              let available_for_url := available_width - 2
              let truncated_display := truncate_url_with_ellipsis url available_for_url
              let truncated_url_part := '(' :: truncated_display ++ [')']
              let style := create_style theme ThemeElement.link
              let styled_truncated := style.apply truncated_url_part config.no_colors
              let clickable_truncated := make_clickable_link config styled_truncated url
              enforce_width_on_current_line config theme
                { st with output := st.output ++ clickable_truncated }
            else
              if available_width > 0 then
                let style := create_style theme ThemeElement.link
                let marker := style.apply (str "…") config.no_colors
                let clickable_marker := make_clickable_link config marker url
                { st with output := st.output ++ clickable_marker }
              else st
          | _ =>
            let style := create_style theme ThemeElement.link
            let styled_url := style.apply url_part config.no_colors
            let clickable_url := make_clickable_link config styled_url url
            enforce_width_on_current_line config theme
              { st with output := st.output ++ clickable_url })
    | none => st
  { st with in_link := false, current_link_text := [] }

/-- `handle_link_end`, `LinkStyle::InlineTable` arm. -/
def handle_link_end_inline_table (config : Config) (theme : Theme) (st : RState) : RState :=
  let st :=
    match st.table_state with
    | some table =>
      let reference_text := '[' :: nat_str st.paragraph_link_counter ++ [']']
      let style := create_style theme ThemeElement.link
      let styled_reference := style.apply reference_text config.no_colors
      let formatted_link_text :=
        if !config.no_colors then
          sgr_seq (str "4") ++ st.current_link_text ++ sgr_seq (str "0")
        else st.current_link_text
      let table := { table with
        inline_references := table.inline_references ++ [(reference_text, styled_reference)],
        current_cell := table.current_cell ++ formatted_link_text ++ reference_text }
      { st with table_state := some table }
    | none =>
      let link_text := st.current_link_text
      let st := process_underlined_text_with_wrapping config theme st link_text
      let reference_text := '[' :: nat_str st.paragraph_link_counter ++ [']']
      let style := create_style theme ThemeElement.link
      let styled_reference := style.apply reference_text config.no_colors
      let current_line_clean := strip_ansi (current_line_of st.output)
      let terminal_width := config.get_terminal_width
      let current_line_width := display_width current_line_clean
      let reference_width := display_width reference_text
      let st :=
        if config.is_text_wrapping_enabled &&
            current_line_width + reference_width > terminal_width then
          push_newline_with_context config theme st
        else st
      { st with output := st.output ++ styled_reference }
  { st with in_link := false, current_link_text := [] }

/-- `links.rs::EventRenderer::handle_link_end`. -/
def handle_link_end (config : Config) (theme : Theme) (st : RState) : RState :=
  let st :=
    match config.link_style with
    | LinkStyle.clickable => handle_link_end_clickable config theme st false
    | LinkStyle.clickableForced => handle_link_end_clickable config theme st true
    | LinkStyle.hide => st
    | LinkStyle.inline => handle_link_end_inline config theme st
    | LinkStyle.inlineTable => handle_link_end_inline_table config theme st
  commit_pending_heading_placeholder_if_content st

/-! ### core.rs: event dispatch and the render loop -/

/-- The accumulator step of `prepare_smart_heading_indents`'s presence scan:
mark the level of a heading-start event in the 6-entry presence array. -/
def mark_present (p : List Bool) (e : Event) : List Bool :=
  match e with
  | Event.startHeading level => p.set (heading_level_to_number level - 1) true
  | _ => p

/-- `core.rs::EventRenderer::prepare_smart_heading_indents`: the per-level
indent map computed in a single pre-pass from the distinct heading levels
present in the event stream. -/
def prepare_smart_heading_indents (events : List Event) : List (HeadingLevel × Nat) :=
  let present : List Bool := events.foldl mark_present (List.replicate 6 false)
  match present.findIdx? (· = true) with
  | none => []
  | some min_idx =>
    ((List.range 6).filterMap (fun idx =>
      if present.getD idx false then
        let missing_between :=
          ((List.range' (min_idx + 1) (idx - (min_idx + 1))).filter
            (fun gap_idx => !(present.getD gap_idx false))).length
        let planned_indent := idx - missing_between - min_idx
        match number_to_heading_level (idx + 1) with
        | some level => some (level, planned_indent)
        | none => none
      else none))

/-- `core.rs::EventRenderer::handle_start_tag` for the embedded fragment. -/
def handle_start_tag (config : Config) (theme : Theme) (st : RState) : Event → RState
  | Event.startParagraph =>
    let st :=
      if config.link_style = LinkStyle.inlineTable then
        { st with paragraph_link_counter := 0, paragraph_links := [] }
      else st
    let st :=
      if st.list_stack.isEmpty && !st.output.isEmpty && !ends_with_char '\n' st.output then
        { st with output := st.output ++ ['\n'] }
      else st
    if st.content_indent > 0 && st.table_state.isNone && st.list_stack.isEmpty &&
        st.blockquote_level = 0 then
      if ends_with_char '\n' st.output || st.output.isEmpty then
        { st with output := st.output ++ char_repeat ' ' st.content_indent }
      else st
    else st
  | Event.startHeading level => handle_header_start config theme st level
  | Event.startLink dest_url => handle_link_start config theme st dest_url
  | Event.startEmphasis =>
    { st with formatting_stack := st.formatting_stack ++ [ThemeElement.emphasis] }
  | Event.startStrong =>
    { st with formatting_stack := st.formatting_stack ++ [ThemeElement.strong] }
  | Event.startStrikethrough =>
    { st with formatting_stack := st.formatting_stack ++ [ThemeElement.strikethrough] }
  | _ => st

/-- `core.rs::EventRenderer::handle_end_tag` for the embedded fragment. -/
def handle_end_tag (config : Config) (theme : Theme) (st : RState) : Event → RState
  | Event.endParagraph =>
    let st :=
      if config.link_style = LinkStyle.inlineTable && !st.paragraph_links.isEmpty then
        add_paragraph_link_references config theme st
      else st
    if st.list_stack.isEmpty then { st with output := st.output ++ ['\n'] }
    else st
  | Event.endHeading level => handle_header_end config theme st level
  | Event.endLink => handle_link_end config theme st
  | Event.endEmphasis =>
    { st with formatting_stack := st.formatting_stack.filter (· ≠ ThemeElement.emphasis) }
  | Event.endStrong =>
    { st with formatting_stack := st.formatting_stack.filter (· ≠ ThemeElement.strong) }
  | Event.endStrikethrough =>
    { st with formatting_stack := st.formatting_stack.filter (· ≠ ThemeElement.strikethrough) }
  | _ => st

/-- `core.rs::EventRenderer::process_event` for the embedded fragment. -/
def process_event (config : Config) (theme : Theme) (st : RState) : Event → RState
  | Event.text s => handle_text config theme st s
  | Event.softBreak => { st with output := st.output ++ ['\n'] }
  | Event.hardBreak => { st with output := st.output ++ str "\n\n" }
  | Event.startParagraph => handle_start_tag config theme st Event.startParagraph
  | Event.startHeading level => handle_start_tag config theme st (Event.startHeading level)
  | Event.startLink url => handle_start_tag config theme st (Event.startLink url)
  | Event.startEmphasis => handle_start_tag config theme st Event.startEmphasis
  | Event.startStrong => handle_start_tag config theme st Event.startStrong
  | Event.startStrikethrough => handle_start_tag config theme st Event.startStrikethrough
  | Event.endParagraph => handle_end_tag config theme st Event.endParagraph
  | Event.endHeading level => handle_end_tag config theme st (Event.endHeading level)
  | Event.endLink => handle_end_tag config theme st Event.endLink
  | Event.endEmphasis => handle_end_tag config theme st Event.endEmphasis
  | Event.endStrong => handle_end_tag config theme st Event.endStrong
  | Event.endStrikethrough => handle_end_tag config theme st Event.endStrikethrough

/-- `core.rs::EventRenderer::render_events`: optional smart-indent pre-pass,
sequential event processing, placeholder finalization, and trailing-newline
normalization. -/
def render_events (config : Config) (theme : Theme) (events : List Event) : Str :=
  let st : RState := {}
  let st :=
    if config.heading_layout = HeadingLayout.level && config.smart_indent then
      { st with smart_level_indents := prepare_smart_heading_indents events }
    else { st with smart_level_indents := [] }
  let st := events.foldl (fun st e => process_event config theme st e) st
  let st := finalize_pending_heading_placeholder st
  let result := trim_end st.output
  if !result.isEmpty then result ++ ['\n'] else result

/-! ## Claim-support definitions -/

/-- A string is escape-free (contains no 0x1B byte). -/
def no_esc (s : Str) : Prop := escCh ∉ s

instance (s : Str) : Decidable (no_esc s) := by
  unfold no_esc
  infer_instance

/-- All escape-relevant renderer state is escape-free: the output buffer,
the pending link text, the stored link URLs, and the pending paragraph link
references. -/
def GoodSt (st : RState) : Prop :=
  no_esc st.output ∧ no_esc st.current_link_text ∧
  (∀ p ∈ st.link_references, no_esc p.2) ∧
  (∀ p ∈ st.paragraph_links, no_esc p.1 ∧ no_esc p.2)

instance (st : RState) : Decidable (GoodSt st) := by
  unfold GoodSt
  infer_instance

/-- An event carries no escape byte in its payload. -/
def event_payload_ok : Event → Prop
  | Event.text s => no_esc s
  | Event.startLink u => no_esc u
  | _ => True

instance (e : Event) : Decidable (event_payload_ok e) := by
  cases e <;> (unfold event_payload_ok; infer_instance)

/-- A line is blank when its escape-stripped text is empty or
whitespace-only. -/
def is_blank_line (l : Str) : Bool := (trim (strip_ansi l)).isEmpty

/-- The lines of an output string (newline-separated segments). -/
def output_lines (s : Str) : List Str := split_on '\n' s

/-- Whether two consecutive lines of the output are both blank. -/
def has_two_consecutive_blank_lines (s : Str) : Bool :=
  go (output_lines s)
where
  go : List Str → Bool
  | a :: b :: t => (is_blank_line a && is_blank_line b) || go (b :: t)
  | _ => false

/-- A line consisting of optional leading whitespace followed by one single
character — the shape on which character wrapping has no usable internal
break point (splitting it would create a whitespace-only line). -/
def lone_unit_line (l : Str) : Bool := (l.dropWhile rust_is_ws).length = 1

/-- Visible (escape-stripped) display width of the last line of a buffer. -/
def last_line_visible_width (s : Str) : Nat :=
  display_width (strip_ansi (current_line_of s))

/-- The cumulative width of a block of columns in the sense of
`split_table_into_blocks`: border overhead 4, plus each column's width plus
3. -/
def table_block_width (widths : List Nat) : Nat := 4 + (widths.map (· + 3)).sum

/-- The block boundary indices produced by `split_table_into_blocks`'s greedy
loop: each range `(start, e)` covers the columns of one block (fuel =
`n - start`, never exhausted). -/
def block_ranges_go (w : Nat) (widths : List Nat) (n : Nat) : Nat → Nat → List (Nat × Nat)
  | 0, _ => []
  | fuel + 1, start =>
    if start < n then
      let e := start + 1 + block_extra w widths n (start + 1) (4 + widths.getD start 0 + 3)
      (start, e) :: block_ranges_go w widths n fuel e
    else []

/-- Entry point of the block-range enumeration. -/
def block_ranges (w : Nat) (widths : List Nat) (n start : Nat) : List (Nat × Nat) :=
  block_ranges_go w widths n (n - start) start

/-- The block built from a column range (the slice construction inside
`split_table_into_blocks`). -/
def block_of_range (headers : List Str) (rows : List (List Str))
    (aligns : List Alignment) (r : Nat × Nat) : TableBlock :=
  let block_headers := (headers.drop r.1).take (r.2 - r.1)
  let block_rows := rows.map (fun row =>
    if row.length > r.1 then
      let end_idx := min r.2 row.length
      (row.drop r.1).take (end_idx - r.1)
    else List.replicate block_headers.length [])
  let block_aligns :=
    if aligns.length > r.1 then
      let end_idx := min r.2 aligns.length
      (aligns.drop r.1).take (end_idx - r.1)
    else List.replicate block_headers.length Alignment.left
  TableBlock.mk block_headers block_rows block_aligns

/-- The `Block i of N` marker text. -/
def block_marker (i n : Nat) : Str := str "Block " ++ nat_str i ++ str " of " ++ nat_str n

/-- The horizontal-rule text separating table blocks. -/
def block_rule_text (w : Nat) : Str := str_repeat (str "═") (min w 80 - 3)

/-- Whether a language hint's normalized form is in the plaintext set
(`text, plain, plaintext, txt, markdown, md`). -/
def is_plaintext_hint (raw : Str) : Bool :=
  let hint := trim raw
  if hint.isEmpty then false
  else
    let normalized := ascii_lower hint
    normalized = str "text" || normalized = str "plain" || normalized = str "plaintext" ||
    normalized = str "txt" || normalized = str "markdown" || normalized = str "md"

/-- Word-wrap configuration with a 5-column terminal and colors disabled. -/
def cfg_word5 : Config :=
  { no_colors := true, cols := some 5, cols_from_cli := true, wrap := TextWrapMode.word }

/-- Character-wrap configuration with an 80-column terminal and colors
disabled. -/
def cfg_char80 : Config :=
  { no_colors := true, cols := some 80, cols_from_cli := true }

/-- Inline links with `cut` truncation on a 1-column terminal, colors
disabled. -/
def cfg_inline_cut1 : Config :=
  { no_colors := true, cols := some 1, cols_from_cli := true,
    link_style := LinkStyle.inline, link_truncation := LinkTruncationStyle.cut }

/-- A default theme value used by the concrete renders. -/
def theme0 : Theme := {}

/-- Whether some heading-start event in the stream has the (0-based) level
index `idx`. -/
def level_present (events : List Event) (idx : Nat) : Bool :=
  events.any (fun e =>
    match e with
    | Event.startHeading l => heading_level_to_number l - 1 = idx
    | _ => false)

/-- The 0-based rank of a (0-based) level index among the level indices
present in the stream: the number of smaller present indices. -/
def present_rank (events : List Event) (idx : Nat) : Nat :=
  ((List.range idx).filter (level_present events)).length

/-- A well-formed SGR body: only digits and semicolons. -/
abbrev SgrOk (body : Str) : Prop := ∀ c ∈ body, is_digit c = true ∨ c = ';'

/-! # Theorems -/

/-! ## Fuel elimination: the structural scanners do not depend on the fuel
as long as it is at least the natural termination measure, which recovers the
direct recursive unfolding equations of the source functions. -/

theorem strip_sgr_go_fuel (fuel : Nat) : ∀ (s : Str), s.length ≤ fuel →
    strip_sgr_go fuel s = strip_sgr_go s.length s := by
  induction fuel using Nat.strong_induction_on with
  | _ fuel ih =>
    intro s h
    cases s with
    | nil => cases fuel <;> rfl
    | cons c rest =>
      cases fuel with
      | zero => simp at h
      | succ fuel =>
        have hr : rest.length ≤ fuel := by simpa using h
        simp only [List.length_cons]
        show strip_sgr_go (fuel + 1) (c :: rest) = strip_sgr_go (rest.length + 1) (c :: rest)
        simp only [strip_sgr_go]
        by_cases hc : c = escCh
        · simp only [if_pos hc]
          cases hp : parse_sgr rest with
          | none => simp only [hp]; rw [ih fuel (by omega) rest hr]
          | some n =>
            simp only [hp]
            rw [ih fuel (by omega) (rest.drop n) (by simp; omega),
              ih rest.length (by omega) (rest.drop n) (by simp)]
        · simp only [if_neg hc]
          rw [ih fuel (by omega) rest hr]

theorem strip_sgr_nil : strip_sgr [] = [] := rfl

theorem strip_sgr_cons (c : Char) (rest : Str) :
    strip_sgr (c :: rest) =
      if c = escCh then
        match parse_sgr rest with
        | some n => strip_sgr (rest.drop n)
        | none => c :: strip_sgr rest
      else c :: strip_sgr rest := by
  simp only [strip_sgr, List.length_cons, strip_sgr_go]
  by_cases hc : c = escCh
  · simp only [if_pos hc]
    cases hp : parse_sgr rest with
    | none => simp only [hp]
    | some n =>
      simp only [hp]
      exact strip_sgr_go_fuel rest.length (rest.drop n) (by simp)
  · simp only [if_neg hc]

theorem strip_osc8_start_go_fuel (fuel : Nat) : ∀ (s : Str), s.length ≤ fuel →
    strip_osc8_start_go fuel s = strip_osc8_start_go s.length s := by
  induction fuel using Nat.strong_induction_on with
  | _ fuel ih =>
    intro s h
    cases s with
    | nil => cases fuel <;> rfl
    | cons c rest =>
      cases fuel with
      | zero => simp at h
      | succ fuel =>
        have hr : rest.length ≤ fuel := by simpa using h
        simp only [List.length_cons]
        show strip_osc8_start_go (fuel + 1) (c :: rest)
          = strip_osc8_start_go (rest.length + 1) (c :: rest)
        simp only [strip_osc8_start_go]
        by_cases hc : c = escCh
        · simp only [if_pos hc]
          cases hp : parse_osc8_start rest with
          | none => simp only [hp]; rw [ih fuel (by omega) rest hr]
          | some n =>
            simp only [hp]
            rw [ih fuel (by omega) (rest.drop n) (by simp; omega),
              ih rest.length (by omega) (rest.drop n) (by simp)]
        · simp only [if_neg hc]
          rw [ih fuel (by omega) rest hr]

theorem strip_osc8_start_nil : strip_osc8_start [] = [] := rfl

theorem strip_osc8_start_cons (c : Char) (rest : Str) :
    strip_osc8_start (c :: rest) =
      if c = escCh then
        match parse_osc8_start rest with
        | some n => strip_osc8_start (rest.drop n)
        | none => c :: strip_osc8_start rest
      else c :: strip_osc8_start rest := by
  simp only [strip_osc8_start, List.length_cons, strip_osc8_start_go]
  by_cases hc : c = escCh
  · simp only [if_pos hc]
    cases hp : parse_osc8_start rest with
    | none => simp only [hp]
    | some n =>
      simp only [hp]
      exact strip_osc8_start_go_fuel rest.length (rest.drop n) (by simp)
  · simp only [if_neg hc]

theorem strip_osc8_end_go_fuel (fuel : Nat) : ∀ (s : Str), s.length ≤ fuel →
    strip_osc8_end_go fuel s = strip_osc8_end_go s.length s := by
  induction fuel using Nat.strong_induction_on with
  | _ fuel ih =>
    intro s h
    cases s with
    | nil => cases fuel <;> rfl
    | cons c rest =>
      cases fuel with
      | zero => simp at h
      | succ fuel =>
        have hr : rest.length ≤ fuel := by simpa using h
        simp only [List.length_cons]
        show strip_osc8_end_go (fuel + 1) (c :: rest)
          = strip_osc8_end_go (rest.length + 1) (c :: rest)
        simp only [strip_osc8_end_go]
        by_cases hc : c = escCh
        · simp only [if_pos hc]
          cases hp : parse_osc8_end rest with
          | none => simp only [hp]; rw [ih fuel (by omega) rest hr]
          | some n =>
            simp only [hp]
            rw [ih fuel (by omega) (rest.drop n) (by simp; omega),
              ih rest.length (by omega) (rest.drop n) (by simp)]
        · simp only [if_neg hc]
          rw [ih fuel (by omega) rest hr]

theorem strip_osc8_end_nil : strip_osc8_end [] = [] := rfl

theorem strip_osc8_end_cons (c : Char) (rest : Str) :
    strip_osc8_end (c :: rest) =
      if c = escCh then
        match parse_osc8_end rest with
        | some n => strip_osc8_end (rest.drop n)
        | none => c :: strip_osc8_end rest
      else c :: strip_osc8_end rest := by
  simp only [strip_osc8_end, List.length_cons, strip_osc8_end_go]
  by_cases hc : c = escCh
  · simp only [if_pos hc]
    cases hp : parse_osc8_end rest with
    | none => simp only [hp]
    | some n =>
      simp only [hp]
      exact strip_osc8_end_go_fuel rest.length (rest.drop n) (by simp)
  · simp only [if_neg hc]

theorem nat_str_go_fuel (fuel : Nat) : ∀ n, n ≤ fuel →
    nat_str_go fuel n = nat_str_go n n := by
  induction fuel using Nat.strong_induction_on with
  | _ fuel ih =>
    intro n h
    cases fuel with
    | zero =>
      have : n = 0 := by omega
      subst this
      rfl
    | succ fuel =>
      by_cases h10 : n < 10
      · cases n with
        | zero => simp [nat_str_go]
        | succ m => simp only [nat_str_go, if_pos h10]
      · obtain ⟨m, rfl⟩ : ∃ m, n = m + 1 := ⟨n - 1, by omega⟩
        simp only [nat_str_go, if_neg h10]
        have hdiv : (m + 1) / 10 ≤ m := by
          have := Nat.div_lt_self (show 0 < m + 1 by omega) (show (1:Nat) < 10 by omega)
          omega
        rw [ih fuel (by omega) ((m + 1) / 10) (by omega),
          ih m (by omega) ((m + 1) / 10) hdiv]

theorem nat_str_eq (n : Nat) :
    nat_str n =
      if n < 10 then [Char.ofNat (48 + n)]
      else nat_str (n / 10) ++ [Char.ofNat (48 + n % 10)] := by
  by_cases h10 : n < 10
  · cases n with
    | zero => simp [nat_str, nat_str_go]
    | succ m => simp only [nat_str, nat_str_go, if_pos h10]
  · obtain ⟨m, rfl⟩ : ∃ m, n = m + 1 := ⟨n - 1, by omega⟩
    simp only [nat_str, nat_str_go, if_neg h10]
    have hdiv : (m + 1) / 10 ≤ m := by
      have := Nat.div_lt_self (show 0 < m + 1 by omega) (show (1:Nat) < 10 by omega)
      omega
    rw [nat_str_go_fuel m ((m + 1) / 10) hdiv]

/-! ## Escape-stripping toolkit -/

theorem no_esc_append {a b : Str} : no_esc (a ++ b) ↔ no_esc a ∧ no_esc b := by
  simp [no_esc, not_or]

theorem no_esc_cons {c : Char} {s : Str} : no_esc (c :: s) ↔ c ≠ escCh ∧ no_esc s := by
  simp [no_esc, not_or]
  tauto

theorem strip_sgr_noesc (s : Str) (h : no_esc s) : strip_sgr s = s := by
  induction s with
  | nil => rfl
  | cons c rest ih =>
    rw [no_esc_cons] at h
    rw [strip_sgr_cons]
    simp [h.1, ih h.2]

theorem strip_osc8_start_noesc (s : Str) (h : no_esc s) : strip_osc8_start s = s := by
  induction s with
  | nil => rfl
  | cons c rest ih =>
    rw [no_esc_cons] at h
    rw [strip_osc8_start_cons]
    simp [h.1, ih h.2]

theorem strip_osc8_end_noesc (s : Str) (h : no_esc s) : strip_osc8_end s = s := by
  induction s with
  | nil => rfl
  | cons c rest ih =>
    rw [no_esc_cons] at h
    rw [strip_osc8_end_cons]
    simp [h.1, ih h.2]

theorem strip_ansi_noesc (s : Str) (h : no_esc s) : strip_ansi s = s := by
  rw [strip_ansi, strip_sgr_noesc s h, strip_osc8_start_noesc s h, strip_osc8_end_noesc s h]

theorem strip_sgr_append_noesc (a b : Str) (h : no_esc a) :
    strip_sgr (a ++ b) = a ++ strip_sgr b := by
  induction a with
  | nil => simp
  | cons c rest ih =>
    rw [no_esc_cons] at h
    rw [List.cons_append, strip_sgr_cons]
    simp [h.1, ih h.2]

theorem strip_osc8_start_append_noesc (a b : Str) (h : no_esc a) :
    strip_osc8_start (a ++ b) = a ++ strip_osc8_start b := by
  induction a with
  | nil => simp
  | cons c rest ih =>
    rw [no_esc_cons] at h
    rw [List.cons_append, strip_osc8_start_cons]
    simp [h.1, ih h.2]

theorem strip_osc8_end_append_noesc (a b : Str) (h : no_esc a) :
    strip_osc8_end (a ++ b) = a ++ strip_osc8_end b := by
  induction a with
  | nil => simp
  | cons c rest ih =>
    rw [no_esc_cons] at h
    rw [List.cons_append, strip_osc8_end_cons]
    simp [h.1, ih h.2]

theorem sgr_body_len_spec (body : Str) (r : Str) (h : SgrOk body) :
    sgr_body_len (body ++ 'm' :: r) = some (body.length + 1) := by
  induction body with
  | nil => simp [sgr_body_len]
  | cons c t ih =>
    have hc := h c (by simp)
    have hcm : c ≠ 'm' := by
      rcases hc with hd | hs
      · intro he; subst he; simp [is_digit] at hd
      · intro he; subst he; simp at hs
    have ht : SgrOk t := fun x hx => h x (by simp [hx])
    rw [List.cons_append, sgr_body_len]
    have hcd : (is_digit c || c = ';') = true := by
      rcases hc with hd | hs
      · simp [hd]
      · simp [hs]
    simp [hcm, hcd, ih ht]

theorem strip_sgr_sgr_seq (body r : Str) (h : SgrOk body) :
    strip_sgr (sgr_seq body ++ r) = strip_sgr r := by
  rw [sgr_seq]
  have h0 : (escCh :: '[' :: body ++ ['m']) ++ r = escCh :: '[' :: (body ++ 'm' :: r) := by
    simp
  rw [h0, strip_sgr_cons]
  have hp : parse_sgr ('[' :: (body ++ 'm' :: r)) = some (body.length + 2) := by
    rw [parse_sgr]
    simp [sgr_body_len_spec body r h]
  have hdrop : ('[' :: (body ++ 'm' :: r)).drop (body.length + 2) = r := by
    have h2 : '[' :: (body ++ 'm' :: r) = ('[' :: body ++ ['m']) ++ r := by simp
    have h3 : ('[' :: body ++ ['m']).length = body.length + 2 := by simp
    rw [h2, ← h3, List.drop_left]
  simp [hp, hdrop]

theorem nat_str_digits (n : Nat) : ∀ c ∈ nat_str n, is_digit c = true := by
  induction n using Nat.strong_induction_on with
  | _ n ih =>
    intro c hc
    rw [nat_str_eq] at hc
    by_cases h : n < 10
    · rw [if_pos h] at hc
      simp at hc
      subst hc
      interval_cases n <;> decide
    · rw [if_neg h] at hc
      simp at hc
      rcases hc with hc | hc
      · exact ih (n / 10) (Nat.div_lt_self (by omega) (by omega)) c hc
      · subst hc
        have hm : n % 10 < 10 := Nat.mod_lt _ (by omega)
        set m := n % 10 with hmdef
        clear_value m
        interval_cases m <;> decide

theorem sgr_ok_nat_str (n : Nat) : SgrOk (nat_str n) :=
  fun c hc => Or.inl (nat_str_digits n c hc)

theorem sgr_ok_append {a b : Str} (ha : SgrOk a) (hb : SgrOk b) : SgrOk (a ++ b) := by
  intro c hc
  rcases List.mem_append.mp hc with h | h
  · exact ha c h
  · exact hb c h

theorem fg_seq_ok (oc : Option Color) :
    fg_seq oc = [] ∨ ∃ body, fg_seq oc = sgr_seq body ∧ SgrOk body := by
  rcases oc with _ | c
  · left; rfl
  · right
    cases c <;>
      first
      | exact ⟨_, rfl, sgr_ok_append (by decide) (sgr_ok_nat_str _)⟩
      | exact ⟨_, rfl,
          sgr_ok_append
            (sgr_ok_append
              (sgr_ok_append
                (sgr_ok_append (sgr_ok_append (by decide) (sgr_ok_nat_str _)) (by decide))
                (sgr_ok_nat_str _))
              (by decide))
            (sgr_ok_nat_str _)⟩
      | exact ⟨_, rfl, sgr_ok_nat_str _⟩

theorem bg_seq_ok (oc : Option Color) :
    bg_seq oc = [] ∨ ∃ body, bg_seq oc = sgr_seq body ∧ SgrOk body := by
  rcases oc with _ | c
  · left; rfl
  · right
    cases c <;>
      first
      | exact ⟨_, rfl, sgr_ok_append (by decide) (sgr_ok_nat_str _)⟩
      | exact ⟨_, rfl,
          sgr_ok_append
            (sgr_ok_append
              (sgr_ok_append
                (sgr_ok_append (sgr_ok_append (by decide) (sgr_ok_nat_str _)) (by decide))
                (sgr_ok_nat_str _))
              (by decide))
            (sgr_ok_nat_str _)⟩
      | exact ⟨_, rfl, sgr_ok_nat_str _⟩

theorem strip_sgr_fg_seq (oc : Option Color) (r : Str) :
    strip_sgr (fg_seq oc ++ r) = strip_sgr r := by
  rcases fg_seq_ok oc with h | ⟨body, hb, hok⟩
  · simp [h]
  · rw [hb, strip_sgr_sgr_seq body r hok]

theorem strip_sgr_bg_seq (oc : Option Color) (r : Str) :
    strip_sgr (bg_seq oc ++ r) = strip_sgr r := by
  rcases bg_seq_ok oc with h | ⟨body, hb, hok⟩
  · simp [h]
  · rw [hb, strip_sgr_sgr_seq body r hok]

theorem strip_sgr_attr_seq (style : AnsiStyle) (r : Str) :
    strip_sgr (attr_seq style ++ r) = strip_sgr r := by
  rw [attr_seq]
  rcases style.bold <;> rcases style.italic <;> rcases style.underline <;>
    rcases style.strikethrough <;>
    simp only [Bool.false_eq_true, Bool.true_eq_false, if_false, if_true,
      eq_self_iff_true, List.append_assoc, List.nil_append] <;>
    (repeat rw [strip_sgr_sgr_seq _ _ (by decide)])

theorem strip_sgr_apply (style : AnsiStyle) (s r : Str) (h : no_esc s) :
    strip_sgr (style.apply s false ++ r) = s ++ strip_sgr r := by
  rw [AnsiStyle.apply]
  simp only [Bool.false_eq_true, if_false, List.append_assoc]
  rw [strip_sgr_fg_seq, strip_sgr_bg_seq, strip_sgr_attr_seq,
    strip_sgr_append_noesc _ _ h]
  congr 1
  have h0 : sgr_seq (str "0") ++ r = sgr_seq (str "0") ++ r := rfl
  rw [strip_sgr_sgr_seq _ r (by decide)]

theorem apply_strip_identity (style : AnsiStyle) (s : Str) (h : no_esc s) :
    strip_ansi (style.apply s false) = s := by
  rw [strip_ansi]
  have h1 : strip_sgr (style.apply s false) = s := by
    have h2 := strip_sgr_apply style s [] h
    rw [List.append_nil] at h2
    simpa [strip_sgr_nil] using h2
  rw [h1, strip_osc8_start_noesc s h, strip_osc8_end_noesc s h]

/-- C10 — Style-then-strip identity: stripping escape sequences from the
result of `AnsiStyle::apply` on an escape-free string returns exactly that
string, so the display width measured on styled text equals the display
width of the underlying plain text. -/
theorem claim_C10_style_strip_identity (style : AnsiStyle) (s : Str) (h : no_esc s) :
    strip_ansi (style.apply s false) = s ∧
    display_width (strip_ansi (style.apply s false)) = display_width s := by
  have h1 := apply_strip_identity style s h
  exact ⟨h1, by rw [h1]⟩

/-- Witness for C10 at a concrete style and string. -/
theorem claim_C10_witness :
    no_esc (str "abc") ∧
    (strip_ansi ((AnsiStyle.mkBold (AnsiStyle.fg {} Color.red)).apply (str "abc") false) =
        str "abc" ∧
      display_width (strip_ansi ((AnsiStyle.mkBold (AnsiStyle.fg {} Color.red)).apply
          (str "abc") false)) = display_width (str "abc")) :=
  ⟨by decide, claim_C10_style_strip_identity (AnsiStyle.mkBold (AnsiStyle.fg {} Color.red))
    (str "abc") (by decide)⟩

theorem mark_present_fold_spec (events : List Event) :
    ∀ acc : List Bool, acc.length = 6 →
      (events.foldl mark_present acc).length = 6 ∧
      ∀ idx, idx < 6 →
        (events.foldl mark_present acc).getD idx false =
          (acc.getD idx false || level_present events idx) := by
  induction events with
  | nil =>
    intro acc hlen
    refine ⟨hlen, ?_⟩
    intro idx _
    simp [level_present]
  | cons e rest ih =>
    intro acc hlen
    have hlen' : (mark_present acc e).length = 6 := by
      cases e <;> simp [mark_present, hlen]
    refine ⟨(ih _ hlen').1, ?_⟩
    intro idx hidx
    rw [List.foldl_cons, (ih _ hlen').2 idx hidx]
    cases e with
    | startHeading l =>
      have hl : heading_level_to_number l - 1 < acc.length := by
        cases l <;> simp [heading_level_to_number, hlen]
      by_cases hji : heading_level_to_number l - 1 = idx
      · subst hji
        have : (acc.set (heading_level_to_number l - 1) true).getD
            (heading_level_to_number l - 1) false = true := by
          rw [List.getD_eq_getElem?_getD, List.getElem?_set_self (by omega)]
          rfl
        simp only [mark_present]
        rw [this]
        simp [level_present]
      · have : (acc.set (heading_level_to_number l - 1) true).getD idx false =
            acc.getD idx false := by
          rw [List.getD_eq_getElem?_getD, List.getElem?_set_ne hji, ← List.getD_eq_getElem?_getD]
        simp only [mark_present]
        rw [this]
        simp [level_present, hji]
    | text s =>
      simp [mark_present, level_present]
    | softBreak => simp [mark_present, level_present]
    | hardBreak => simp [mark_present, level_present]
    | startParagraph => simp [mark_present, level_present]
    | endParagraph => simp [mark_present, level_present]
    | endHeading l => simp [mark_present, level_present]
    | startLink u => simp [mark_present, level_present]
    | endLink => simp [mark_present, level_present]
    | startEmphasis => simp [mark_present, level_present]
    | endEmphasis => simp [mark_present, level_present]
    | startStrong => simp [mark_present, level_present]
    | endStrong => simp [mark_present, level_present]
    | startStrikethrough => simp [mark_present, level_present]
    | endStrikethrough => simp [mark_present, level_present]

/-- C4 — Smart heading indent compression: under the level layout with
smart-indent enabled, `render_events` computes `smart_level_indents` once,
before any event is processed, by `prepare_smart_heading_indents`; this
theorem shows that for every event stream the resulting map assigns to each
present heading level exactly its 0-based rank among the present levels
(and nothing to absent levels), i.e. the lowest present level maps to 0 and
each presence transition adds exactly one step, for all documents including
those that skip levels non-monotonically. -/
theorem claim_C4_smart_indent_rank (events : List Event) (lvl : HeadingLevel) :
    smart_lookup (prepare_smart_heading_indents events) lvl =
      (if level_present events (heading_level_to_number lvl - 1) then
        some (present_rank events (heading_level_to_number lvl - 1))
      else none) := by
  obtain ⟨hlen, hidx⟩ :=
    mark_present_fold_spec events (List.replicate 6 false) (by simp)
  set p := events.foldl mark_present (List.replicate 6 false) with hp
  have hgetd : ∀ idx, idx < 6 → p.getD idx false = level_present events idx := by
    intro idx hi
    rw [hidx idx hi]
    have hrep : (List.replicate 6 false).getD idx false = false := by
      interval_cases idx <;> rfl
    rw [hrep]
    simp
  have hlvl6 : heading_level_to_number lvl - 1 < 6 := by
    cases lvl <;> simp [heading_level_to_number]
  have hrank : present_rank events (heading_level_to_number lvl - 1) =
      ((List.range (heading_level_to_number lvl - 1)).filter
        (fun j => p.getD j false)).length := by
    unfold present_rank
    congr 1
    apply List.filter_congr
    intro j hj
    rw [List.mem_range] at hj
    rw [hgetd j (by omega)]
  rw [hrank, ← hgetd _ hlvl6, prepare_smart_heading_indents, ← hp]
  have h6 : ∃ b0 b1 b2 b3 b4 b5, p = [b0, b1, b2, b3, b4, b5] := by
    rcases p with _ | ⟨b0, _ | ⟨b1, _ | ⟨b2, _ | ⟨b3, _ | ⟨b4, _ | ⟨b5, _ | ⟨b6, t⟩⟩⟩⟩⟩⟩⟩ <;>
      first
      | exact ⟨_, _, _, _, _, _, rfl⟩
      | (exfalso; simp at hlen)
  obtain ⟨b0, b1, b2, b3, b4, b5, hpeq⟩ := h6
  rw [hpeq]
  clear hp hpeq hgetd hrank hidx hlen
  cases lvl <;> (revert b0 b1 b2 b3 b4 b5; decide)

/-- C6 — Plaintext-bypass recursion bound: a code block is rendered as a
nested document (the plaintext bypass) exactly when the current plaintext
nesting depth is 0 and the trimmed, lowercased language hint is in the
plaintext set (text, plain, plaintext, txt, markdown, md); since the nested
render carries depth + 1 (`render_plaintext_code_block` sets
`plaintext_code_block_depth + 1`), the bypass is disabled at every positive
depth, so a plaintext block nested inside another plaintext block is
highlighted literally and recursion depth never exceeds 1. -/
theorem claim_C6_plaintext_depth_bound (depth : Nat) (hint : Option Str) :
    (should_render_code_block_as_plaintext depth hint = true ↔
      depth = 0 ∧ ∃ raw, hint = some raw ∧ is_plaintext_hint raw = true) ∧
    should_render_code_block_as_plaintext (depth + 1) hint = false := by
  constructor
  · constructor
    · intro h
      unfold should_render_code_block_as_plaintext at h
      by_cases hd : depth > 0
      · simp [hd] at h
      · have hd0 : depth = 0 := by omega
        subst hd0
        cases hint with
        | none => simp at h
        | some raw =>
          refine ⟨rfl, raw, rfl, ?_⟩
          simpa [is_plaintext_hint] using h
    · rintro ⟨hd, raw, rfl, hr⟩
      subst hd
      unfold should_render_code_block_as_plaintext
      simpa [is_plaintext_hint] using hr
  · unfold should_render_code_block_as_plaintext
    simp

/-- C7 — Syntax resolution with guessing disabled: when `code_guessing` is
false and the hint's literal tokens (after separator splitting,
quote/brace stripping and alias expansion, i.e. `try_lookup` over
`split_language_hint`) match nothing in the catalog, `resolve_syntax`
returns the plain-text syntax, independently of the code content and of the
content-based guesser; and the unrecognized hint "dasdasdas" against the
plain-text syntax yields the Titlecased label "Dasdasdas". -/
theorem claim_C7_no_guessing_plaintext (S : SyntaxSetModel)
    (detect detect' : Str → Option Str) (hint : Str) (code code' : Str)
    (hmiss : (try_lookup S (split_language_hint hint) []).1 = none) :
    resolve_syntax S detect false (some hint) code = S.plain_text ∧
    resolve_syntax S detect false (some hint) code =
      resolve_syntax S detect' false (some hint) code' ∧
    resolve_language_label (str "dasdasdas") (SyntaxRef.mk (str "Plain Text")) =
      str "Dasdasdas" := by
  have hres : ∀ (d : Str → Option Str) (c : Str),
      resolve_syntax S d false (some hint) c = S.plain_text := by
    intro d c
    unfold resolve_syntax
    rcases htl : try_lookup S (split_language_hint hint) [] with ⟨o, seen⟩
    rw [htl] at hmiss
    simp at hmiss
    subst hmiss
    simp [htl]
  refine ⟨hres detect code, ?_, ?_⟩
  · rw [hres detect code, hres detect' code']
  · decide

/-- Witness for C7: an empty catalog, the hint "dasdasdas", concrete code. -/
theorem claim_C7_witness :
    ((try_lookup
        (SyntaxSetModel.mk (fun _ => none) (fun _ => none) (fun _ => none) (fun _ => none)
          (SyntaxRef.mk (str "Plain Text")))
        (split_language_hint (str "dasdasdas")) []).1 = none) ∧
    ( resolve_syntax
        (SyntaxSetModel.mk (fun _ => none) (fun _ => none) (fun _ => none) (fun _ => none)
          (SyntaxRef.mk (str "Plain Text")))
        (fun _ => some (str "rust")) false (some (str "dasdasdas")) (str "fn main() (x)") =
      SyntaxRef.mk (str "Plain Text")) := by
  constructor
  · decide
  · exact (claim_C7_no_guessing_plaintext _ _ (fun _ => none) _ _ (str "x") (by decide)).1

/-! ## C2: blank-line handling -/

theorem ends_with_append_nl (a : Str) : ends_with_char '\n' (a ++ ['\n']) = true := by
  simp [ends_with_char]

theorem findIdx_none_of_not {p : Char → Bool} (l : Str) (h : ∀ x ∈ l, ¬ p x) :
    l.findIdx? p = none := by
  rw [List.findIdx?_eq_none_iff]
  intro x hx
  simpa using h x hx

theorem last_line_start_append (a b : Str) (ha : ends_with_char '\n' a = true)
    (hb : '\n' ∉ b) : last_line_start (a ++ b) = a.length := by
  obtain ⟨a', rfl⟩ : ∃ a', a = a' ++ ['\n'] := by
    rcases hr : a.reverse with _ | ⟨c, t⟩
    · simp [ends_with_char, hr] at ha
    · rw [ends_with_char, hr] at ha
      simp at ha
      refine ⟨t.reverse, ?_⟩
      have := congrArg List.reverse hr
      simpa [ha] using this
  rw [last_line_start, rfind_char]
  have hrev : ((a' ++ ['\n']) ++ b).reverse = b.reverse ++ '\n' :: a'.reverse := by
    simp
  rw [hrev]
  have hfb : b.reverse.findIdx? (· = '\n') = none := by
    apply findIdx_none_of_not
    intro x hx
    simp at hx
    intro hxe
    have hx' : x = '\n' := by simpa using hxe
    subst hx'
    exact hb hx
  rw [List.findIdx?_append, hfb]
  simp only [Option.none_or]
  have : ('\n' :: a'.reverse).findIdx? (· = '\n') = some 0 := by
    rw [List.findIdx?_cons]
    simp
  rw [this]
  simp

theorem take_pre_of_append_single (x : Str) (c : Char) :
    ((x ++ [c]).take ((x ++ [c]).length - 1)) = x := by
  have h : (x ++ [c]).length - 1 = x.length := by simp
  rw [h, List.take_left]

theorem ensure_nl_ends (output : Str) : ends_with_char '\n' (ensure_nl output) = true := by
  rw [ensure_nl]
  by_cases he : ends_with_char '\n' output = true
  · simp [he]
  · simp only [he, Bool.not_false, if_pos]
    exact ends_with_append_nl output

theorem ensure_nl_ne (output : Str) (h0 : output.isEmpty = false) :
    (ensure_nl output).isEmpty = false := by
  rw [ensure_nl]
  by_cases he : ends_with_char '\n' output = true
  · simpa [he] using h0
  · simp [he]

/-- C2 (counterexample) — the full renderer can emit two consecutive blank
lines: two consecutive hard breaks produce them, refuting the claim that the
rendered output never contains two consecutive blank lines. -/
theorem claim_C2_counterexample :
    render_events cfg_char80 theme0
      [Event.text (str "a"), Event.hardBreak, Event.hardBreak, Event.text (str "b")]
      = str "a\n\n\n\nb\n" ∧
    has_two_consecutive_blank_lines (str "a\n\n\n\nb\n") = true := by
  constructor
  · decide
  · decide

/-- C2 (amended) — idempotence of the blank-line normalization step: applying
`ensure_contextual_blank_line` a second time (with a newline-free contextual
prefix, as every real prefix is) leaves the buffer unchanged, so the
normalization itself never stacks a second separator blank line. -/
theorem claim_C2_blank_line_normalization_idem (output pfx : Str) (hp : '\n' ∉ pfx) :
    ensure_contextual_blank_line_on (ensure_contextual_blank_line_on output pfx) pfx =
      ensure_contextual_blank_line_on output pfx := by
  by_cases h0 : output.isEmpty = true
  · simp [ensure_contextual_blank_line_on, h0]
  · have h0' : output.isEmpty = false := by simpa using h0
    generalize hr : ensure_contextual_blank_line_on output pfx = r
    rw [ensure_contextual_blank_line_on, if_neg h0] at hr
    by_cases hm : trailing_blank_line_matches (ensure_nl output) pfx = true
    · rw [if_neg (by simp [hm])] at hr
      subst hr
      rw [ensure_contextual_blank_line_on,
        if_neg (by simp [ensure_nl_ne output h0']),
        show ensure_nl (ensure_nl output) = ensure_nl output by
          rw [ensure_nl, ensure_nl_ends output]; simp,
        if_neg (by simp [hm])]
    · rw [if_pos (by simp [hm])] at hr
      subst hr
      have hrnl : ends_with_char '\n' (ensure_nl output ++ pfx ++ ['\n']) = true :=
        ends_with_append_nl (ensure_nl output ++ pfx)
      have hrne : (ensure_nl output ++ pfx ++ ['\n']).isEmpty = false := by simp
      have hfix : ensure_nl (ensure_nl output ++ pfx ++ ['\n']) =
          ensure_nl output ++ pfx ++ ['\n'] := by
        rw [ensure_nl, hrnl]
        simp
      have hmatches : trailing_blank_line_matches (ensure_nl output ++ pfx ++ ['\n']) pfx
          = true := by
        rw [trailing_blank_line_matches,
          if_neg (by
            simp only [hrne, hrnl, Bool.not_true, Bool.or_self]
            exact Bool.false_ne_true)]
        have h1 : (ensure_nl output ++ pfx ++ ['\n']).take
            ((ensure_nl output ++ pfx ++ ['\n']).length - 1) = ensure_nl output ++ pfx := by
          exact take_pre_of_append_single (ensure_nl output ++ pfx) '\n'
        rw [h1]
        simp only [last_line_start_append (ensure_nl output) pfx (ensure_nl_ends output) hp,
          List.drop_left, decide_eq_true_eq]
      rw [ensure_contextual_blank_line_on, if_neg (by simp [hrne]), hfix,
        if_neg (by simp only [hmatches, Bool.not_true]; exact Bool.false_ne_true)]

/-- Witness for C2's amended idempotence theorem at a concrete buffer and
prefix. -/
theorem claim_C2_witness :
    ('\n' ∉ str "> ") ∧
    ensure_contextual_blank_line_on (ensure_contextual_blank_line_on (str "a") (str "> "))
        (str "> ") = ensure_contextual_blank_line_on (str "a") (str "> ") :=
  ⟨by decide, claim_C2_blank_line_normalization_idem (str "a") (str "> ") (by decide)⟩

/-! ## C1: character-wrap width invariant -/

theorem mem_trim_end {x : Char} {l : Str} (h : x ∈ trim_end l) : x ∈ l := by
  rw [trim_end] at h
  simp only [List.mem_reverse] at h
  have := List.Sublist.mem h (List.dropWhile_sublist rust_is_ws)
  simpa using this

theorem no_esc_trim_end {l : Str} (h : no_esc l) : no_esc (trim_end l) := by
  intro hx
  exact h (mem_trim_end hx)

theorem display_width_reverse (l : Str) : display_width l.reverse = display_width l := by
  rw [display_width, display_width, List.map_reverse, List.sum_reverse]

theorem display_width_trim_end_le (l : Str) : display_width (trim_end l) ≤ display_width l := by
  rw [trim_end, display_width_reverse, ← display_width_reverse l]
  rw [display_width, display_width]
  exact List.Sublist.sum_le_sum
    (List.Sublist.map char_width (List.dropWhile_sublist rust_is_ws)) (by intro x hx; omega)

theorem display_width_append (a b : Str) :
    display_width (a ++ b) = display_width a + display_width b := by
  simp [display_width]

theorem all_ws_of_trim_eq_nil {l : Str} (h : trim l = []) :
    ∀ c ∈ l, rust_is_ws c = true := by
  rw [trim, trim_start] at h
  rcases hd : l.dropWhile rust_is_ws with _ | ⟨x, t⟩
  · exact fun c hc => by
      have := List.dropWhile_eq_nil_iff.mp hd
      simpa using this c hc
  · exfalso
    have hx : rust_is_ws x = false := by
      have := List.head?_dropWhile_not rust_is_ws l
      rw [hd] at this
      simpa using this
    rw [hd, trim_end] at h
    have h2 : List.dropWhile rust_is_ws ((x :: t).reverse) = [] := by
      simpa using congrArg List.reverse h
    have := List.dropWhile_eq_nil_iff.mp h2 x (by simp)
    simp [hx] at this

theorem trim_eq_nil_of_all_ws {l : Str} (h : ∀ c ∈ l, rust_is_ws c = true) :
    trim l = [] := by
  rw [trim, trim_start, List.dropWhile_eq_nil_iff.mpr (by simpa using h)]
  rfl

theorem lone_unit_append_nonws {l : Str} {x : Char} (h : ∀ c ∈ l, rust_is_ws c = true)
    (hx : rust_is_ws x = false) : lone_unit_line (l ++ [x]) = true := by
  rw [lone_unit_line]
  rw [List.dropWhile_append]
  simp [List.dropWhile_eq_nil_iff.mpr (by simpa using h), hx]

theorem lone_unit_decomp {l : Str} (h : lone_unit_line l = true) :
    ∃ p x, l = p ++ [x] ∧ (∀ c ∈ p, rust_is_ws c = true) ∧ rust_is_ws x = false := by
  rw [lone_unit_line] at h
  rcases hd : l.dropWhile rust_is_ws with _ | ⟨x, t⟩
  · rw [hd] at h; simp at h
  · rw [hd] at h
    simp at h
    subst h
    refine ⟨l.takeWhile rust_is_ws, x, ?_, ?_, ?_⟩
    · rw [← hd, List.takeWhile_append_dropWhile]
    · intro c hc
      exact List.mem_takeWhile_imp hc
    · have := List.head?_dropWhile_not rust_is_ws l
      rw [hd] at this
      simpa using this

theorem trim_end_lone_unit {l : Str} (h : lone_unit_line l = true) : trim_end l = l := by
  obtain ⟨p, x, rfl, hp, hx⟩ := lone_unit_decomp h
  rw [trim_end]
  rw [List.reverse_append]
  simp only [List.reverse_cons, List.reverse_nil, List.nil_append, List.singleton_append]
  rw [List.dropWhile_cons_of_neg (by simp [hx])]
  simp

theorem trim_end_lone_unit_keeps {l : Str} (h : lone_unit_line l = true) :
    lone_unit_line (trim_end l) = true := by
  rw [trim_end_lone_unit h]; exact h

theorem no_esc_nil : no_esc ([] : Str) := by simp [no_esc]

theorem lone_unit_single {c : Char} (hc : rust_is_ws c = false) :
    lone_unit_line [c] = true := by
  simp [lone_unit_line, hc]

theorem no_esc_single {c : Char} (h : ¬ c = escCh) : no_esc [c] := by
  simp [no_esc]
  exact fun he => h he.symm

theorem wrap_char_go_inv (w : Nat) (fuel : Nat) :
    ∀ (s : Str) (st : WrapSt),
      no_esc s →
      (∀ c ∈ s, rust_is_ws c = true → char_width c ≤ 1) →
      (∀ l ∈ st.result, no_esc l ∧ (display_width l ≤ w ∨ lone_unit_line l = true)) →
      no_esc st.current_line →
      display_width st.current_line ≤ st.current_width →
      (st.current_width ≤ w ∨ lone_unit_line st.current_line = true ∨
        trim st.current_line = []) →
      st.ansi_stack = [] →
      (∀ l ∈ (wrap_line_char_loop_go w fuel s st).result,
          no_esc l ∧ (display_width l ≤ w ∨ lone_unit_line l = true)) ∧
        no_esc (wrap_line_char_loop_go w fuel s st).current_line ∧
        display_width (wrap_line_char_loop_go w fuel s st).current_line ≤
          (wrap_line_char_loop_go w fuel s st).current_width ∧
        ((wrap_line_char_loop_go w fuel s st).current_width ≤ w ∨
          lone_unit_line (wrap_line_char_loop_go w fuel s st).current_line = true ∨
          trim (wrap_line_char_loop_go w fuel s st).current_line = []) ∧
        (wrap_line_char_loop_go w fuel s st).ansi_stack = [] := by
  induction fuel with
  | zero =>
    intro s st hesc hws hres hcur hdw hexc hstack
    cases s with
    | nil => exact ⟨hres, hcur, hdw, hexc, hstack⟩
    | cons c rest => exact ⟨hres, hcur, hdw, hexc, hstack⟩
  | succ fuel ih =>
    intro s st hesc hws hres hcur hdw hexc hstack
    cases s with
    | nil => exact ⟨hres, hcur, hdw, hexc, hstack⟩
    | cons c rest =>
      rw [no_esc_cons] at hesc
      obtain ⟨hc_ne, hesc_rest⟩ := hesc
      have hws_rest : ∀ x ∈ rest, rust_is_ws x = true → char_width x ≤ 1 :=
        fun x hx => hws x (by simp [hx])
      rw [wrap_line_char_loop_go]
      rw [if_neg hc_ne]
      by_cases hwc : rust_is_ws c = true
      · rw [if_pos hwc]
        have hiff : (decide (st.current_width + (if c = '\t' then 4 else 1) > w) &&
            !(trim st.current_line).isEmpty) = true ↔
            (w < st.current_width + (if c = '\t' then 4 else 1) ∧
              trim st.current_line ≠ []) := by
          simp [List.isEmpty_eq_false]
        by_cases hcond : w < st.current_width + (if c = '\t' then 4 else 1) ∧
            trim st.current_line ≠ []
        · rw [if_pos (hiff.mpr hcond)]
          obtain ⟨hgt, htrne⟩ := hcond
          refine ih rest _ hesc_rest hws_rest ?_ ?_ ?_ ?_ ?_
          · intro l hl
            simp only [List.mem_append, List.mem_singleton] at hl
            rcases hl with hl | hl
            · exact hres l hl
            · subst hl
              refine ⟨no_esc_trim_end hcur, ?_⟩
              rcases hexc with hle | hlu | htr
              · exact Or.inl (le_trans (display_width_trim_end_le _) (le_trans hdw hle))
              · exact Or.inr (trim_end_lone_unit_keeps hlu)
              · exact absurd htr htrne
          · simp only [hstack]
            exact no_esc_nil
          · simp [hstack, display_width]
          · simp
          · simp [hstack]
        · rw [if_neg (fun hh => hcond (hiff.mp hh))]
          refine ih rest _ hesc_rest hws_rest hres ?_ ?_ ?_ hstack
          · simp only
            exact no_esc_append.mpr ⟨hcur, no_esc_single hc_ne⟩
          · simp only [display_width_append]
            have hcc : char_width c ≤ (if c = '\t' then 4 else 1) := by
              by_cases ht : c = '\t'
              · subst ht; simp [char_width]
              · rw [if_neg ht]
                exact hws c (by simp) hwc
            have h1 : display_width [c] = char_width c := by simp [display_width]
            rw [h1]
            omega
          · by_cases hle : st.current_width + (if c = '\t' then 4 else 1) ≤ w
            · exact Or.inl hle
            · rcases not_and_or.mp hcond with h | h
              · omega
              · have htr : trim st.current_line = [] := not_ne_iff.mp h
                refine Or.inr (Or.inr ?_)
                refine trim_eq_nil_of_all_ws ?_
                intro x hx
                simp only [List.mem_append, List.mem_singleton] at hx
                rcases hx with hx | hx
                · exact all_ws_of_trim_eq_nil htr x hx
                · subst hx; exact hwc
      · rw [if_neg (by simp [hwc])]
        have hwcf : rust_is_ws c = false := by simpa using hwc
        have hiff : (decide (st.current_width + char_width c > w) &&
            !(trim st.current_line).isEmpty) = true ↔
            (w < st.current_width + char_width c ∧ trim st.current_line ≠ []) := by
          simp [List.isEmpty_eq_false]
        by_cases hcond : w < st.current_width + char_width c ∧ trim st.current_line ≠ []
        · rw [if_pos (hiff.mpr hcond)]
          obtain ⟨hgt, htrne⟩ := hcond
          refine ih rest _ hesc_rest hws_rest ?_ ?_ ?_ ?_ ?_
          · intro l hl
            simp only [List.mem_append, List.mem_singleton] at hl
            rcases hl with hl | hl
            · exact hres l hl
            · subst hl
              refine ⟨hcur, ?_⟩
              rcases hexc with hle | hlu | htr
              · exact Or.inl (le_trans hdw hle)
              · exact Or.inr hlu
              · exact absurd htr htrne
          · simp only [hstack, List.nil_append]
            exact no_esc_single hc_ne
          · simp [hstack, display_width]
          · refine Or.inr (Or.inl ?_)
            simp only [hstack, List.nil_append]
            exact lone_unit_single hwcf
          · simp [hstack]
        · rw [if_neg (fun hh => hcond (hiff.mp hh))]
          refine ih rest _ hesc_rest hws_rest hres ?_ ?_ ?_ hstack
          · simp only
            exact no_esc_append.mpr ⟨hcur, no_esc_single hc_ne⟩
          · simp only [display_width_append]
            have h1 : display_width [c] = char_width c := by simp [display_width]
            rw [h1]
            omega
          · by_cases hle : st.current_width + char_width c ≤ w
            · exact Or.inl hle
            · rcases not_and_or.mp hcond with h | h
              · omega
              · have htr : trim st.current_line = [] := not_ne_iff.mp h
                refine Or.inr (Or.inl ?_)
                exact lone_unit_append_nonws (all_ws_of_trim_eq_nil htr) hwcf

theorem strip_ansi_nil : strip_ansi [] = [] := rfl

/-- C1 (amended) — character-mode width invariant: for a positive width,
an escape-free line whose whitespace characters are single-column (tab
included), every line produced by `wrap_line_character` either has
escape-stripped display width at most the width, or consists of leading
whitespace plus one single character (no internal break point). -/
theorem claim_C1_char_wrap_width (line : Str) (w : Nat) (h0 : 0 < w)
    (hesc : no_esc line)
    (hws : ∀ c ∈ line, rust_is_ws c = true → char_width c ≤ 1) :
    ∀ l ∈ wrap_line_character line w,
      display_width (strip_ansi l) ≤ w ∨ lone_unit_line l = true := by
  intro l hl
  rw [wrap_line_character] at hl
  rw [if_neg (by omega)] at hl
  by_cases hfit : display_width (strip_ansi line) ≤ w
  · rw [if_pos hfit] at hl
    simp only [List.mem_singleton] at hl
    subst hl
    exact Or.inl hfit
  · rw [if_neg hfit] at hl
    rw [wrap_line_char_loop] at hl
    obtain ⟨hres, hcur, hdw, hexc, hstack⟩ :=
      wrap_char_go_inv w line.length line ⟨[], [], 0, []⟩ hesc hws
        (by intro x hx; simp at hx) no_esc_nil (by simp [display_width])
        (Or.inl (Nat.zero_le w)) rfl
    set ST := wrap_line_char_loop_go w line.length line ⟨[], [], 0, []⟩ with hST
    by_cases htr : (trim ST.current_line).isEmpty = true
    · simp only [htr, Bool.not_true, Bool.false_eq_true, if_false] at hl
      by_cases hre : ST.result.isEmpty = true
      · rw [if_pos hre] at hl
        simp only [List.mem_singleton] at hl
        subst hl
        exact Or.inl (by simp [strip_ansi_nil, display_width])
      · rw [if_neg hre] at hl
        obtain ⟨hne, hok⟩ := hres l hl
        rw [strip_ansi_noesc l hne]
        exact hok
    · have htr' : (trim ST.current_line).isEmpty = false := by simpa using htr
      simp only [htr', Bool.not_false, if_true] at hl
      rw [if_neg (by simp)] at hl
      rcases List.mem_append.mp hl with hl | hl
      · obtain ⟨hne, hok⟩ := hres l hl
        rw [strip_ansi_noesc l hne]
        exact hok
      · simp only [List.mem_singleton] at hl
        subst hl
        rw [strip_ansi_noesc _ hcur]
        rcases hexc with hle | hlu | htr0
        · exact Or.inl (le_trans hdw hle)
        · exact Or.inr hlu
        · rw [htr0] at htr'
          simp at htr'

/-- C1 (counterexample) — the width invariant fails for the full renderer:
in word mode a punctuation run is glued to the previous word, producing the
9-wide line `aaaa ,,,,` on a 5-column terminal although the line has an
internal break point; and in character mode an ideographic space (U+3000,
display width 2) is counted as width 1, so `a` + U+3000 survives unwrapped
at width 2. -/
theorem claim_C1_counterexample :
    (cfg_word5.is_text_wrapping_enabled = true ∧
     cfg_word5.get_terminal_width = 5 ∧
     (output_lines (render_events cfg_word5 theme0 [Event.text (str "aaaa ,,,,")])).any
        (fun l => decide (5 < display_width (strip_ansi l)) && !lone_unit_line l) = true) ∧
    (wrap_line_character (str "a　") 2 = [str "a　"] ∧
     display_width (strip_ansi (str "a　")) = 3 ∧
     lone_unit_line (str "a　") = false) := by
  exact ⟨⟨by decide, by decide, by decide⟩, by decide, by decide, by decide⟩

/-- Witness for C1's amended width theorem at a concrete line and width. -/
theorem claim_C1_witness :
    (0 < 3 ∧ no_esc (str "aa bb") ∧
      (∀ c ∈ str "aa bb", rust_is_ws c = true → char_width c ≤ 1)) ∧
    (∀ l ∈ wrap_line_character (str "aa bb") 3,
      display_width (strip_ansi l) ≤ 3 ∨ lone_unit_line l = true) :=
  ⟨⟨by decide, by decide, by decide⟩,
    claim_C1_char_wrap_width (str "aa bb") 3 (by decide) (by decide) (by decide)⟩

/-! ## C3: empty-heading placeholder handling -/

/-- C3 (counterexample) — the commit-or-revert claim is backwards: the
`#`-run placeholder of an empty heading is permanently kept exactly when
non-blank content follows it (here the paragraph `hi`), and it is deleted
when nothing follows, contradicting "kept if and only if no subsequent
content is ever written". -/
theorem claim_C3_counterexample :
    render_events cfg_char80 theme0
      [Event.startHeading HeadingLevel.h1, Event.endHeading HeadingLevel.h1,
       Event.startParagraph, Event.text (str "hi"), Event.endParagraph]
      = str "#\n hi\n" ∧
    render_events cfg_char80 theme0
      [Event.startHeading HeadingLevel.h1, Event.endHeading HeadingLevel.h1]
      = str "" :=
  ⟨by decide, by decide⟩

/-- C3 (amended) — placeholder commit-or-delete: with a pending placeholder
recorded at `(start, len)`, the next non-blank emission clears the pending
marker and leaves the buffer (hence the placeholder) unchanged, a blank tail
leaves both the marker and the buffer untouched; at finalization a blank
tail deletes the placeholder from the buffer while a non-blank tail keeps it
and only clears the marker. -/
theorem claim_C3_placeholder_commit_or_delete (st : RState) (start len : Nat)
    (hp : st.pending_heading_placeholder = some (start, len)) :
    ((start + len ≤ st.output.length →
      (trim (strip_ansi (st.output.drop (start + len)))).isEmpty = false →
      commit_pending_heading_placeholder_if_content st =
        { st with pending_heading_placeholder := none }) ∧
     (start + len ≤ st.output.length →
      (trim (strip_ansi (st.output.drop (start + len)))).isEmpty = true →
      commit_pending_heading_placeholder_if_content st = st)) ∧
    (((trim (strip_ansi (st.output.drop (min (start + len) st.output.length)))).isEmpty
        = true →
      start ≤ min (start + len) st.output.length →
      finalize_pending_heading_placeholder st =
        { st with pending_heading_placeholder := none,
                  output := st.output.take start ++
                    st.output.drop (min (start + len) st.output.length) }) ∧
     ((trim (strip_ansi (st.output.drop (min (start + len) st.output.length)))).isEmpty
        = false →
      finalize_pending_heading_placeholder st =
        { st with pending_heading_placeholder := none })) := by
  refine ⟨⟨?_, ?_⟩, ?_, ?_⟩
  · intro hle hnb
    rw [commit_pending_heading_placeholder_if_content, hp]
    simp [hle, hnb]
  · intro hle hbl
    rw [commit_pending_heading_placeholder_if_content, hp]
    simp [hle, hbl]
  · intro hbl hse
    rw [finalize_pending_heading_placeholder, hp]
    simp [hbl, hse]
  · intro hnb
    rw [finalize_pending_heading_placeholder, hp]
    simp [hnb]

/-- Witness for C3's amended theorem at a concrete renderer state. -/
theorem claim_C3_witness :
    (({ output := str "# x", pending_heading_placeholder := some (0, 1) }
        : RState).pending_heading_placeholder = some (0, 1)) ∧
    (0 + 1 ≤ (str "# x").length ∧
      (trim (strip_ansi ((str "# x").drop (0 + 1)))).isEmpty = false) ∧
    commit_pending_heading_placeholder_if_content
        { output := str "# x", pending_heading_placeholder := some (0, 1) } =
      { ({ output := str "# x", pending_heading_placeholder := some (0, 1) }
          : RState) with pending_heading_placeholder := none } :=
  ⟨rfl, ⟨by decide, by decide⟩,
    (claim_C3_placeholder_commit_or_delete { output := str "# x", pending_heading_placeholder := some (0, 1) }
      0 1 rfl).1.1 (by decide) (by decide)⟩

/-! ## C8: inline-link cut truncation -/

theorem no_esc_drop (s : Str) (n : Nat) (h : no_esc s) : no_esc (s.drop n) :=
  fun hx => h (List.mem_of_mem_drop hx)

theorem no_esc_current_line (s : Str) (h : no_esc s) : no_esc (current_line_of s) :=
  no_esc_drop s _ h

theorem osc8_close_eq : osc8_close = osc8_open [] := by
  simp [osc8_close, osc8_open]

theorem osc8_url_len_spec (url : Str) (r : Str) (hu : no_esc url) :
    osc8_url_len (url ++ escCh :: '\\' :: r) = some (url.length + 2) := by
  induction url with
  | nil => rw [List.nil_append, osc8_url_len, if_pos rfl]; simp
  | cons c t ih =>
    rw [no_esc_cons] at hu
    rw [List.cons_append, osc8_url_len]
    rw [if_neg hu.1]
    rw [ih hu.2]
    rfl

theorem strip_sgr_osc8_open (url r : Str) (hu : no_esc url) :
    strip_sgr (osc8_open url ++ r) = osc8_open url ++ strip_sgr r := by
  have hshape : osc8_open url ++ r =
      escCh :: (']' :: '8' :: ';' :: ';' :: url) ++ (escCh :: '\\' :: r) := by
    simp [osc8_open, str]
  rw [hshape, List.cons_append, strip_sgr_cons]
  rw [if_pos rfl]
  have hp : parse_sgr ((']' :: '8' :: ';' :: ';' :: url) ++ escCh :: '\\' :: r) = none := by
    rw [List.cons_append, parse_sgr]
    simp
  rw [hp]
  have hpre : no_esc (']' :: '8' :: ';' :: ';' :: url) := by
    rw [no_esc_cons, no_esc_cons, no_esc_cons, no_esc_cons]
    exact ⟨by decide, by decide, by decide, by decide, hu⟩
  rw [strip_sgr_append_noesc _ _ hpre]
  rw [strip_sgr_cons, if_pos rfl]
  have hp2 : parse_sgr ('\\' :: r) = none := by
    rw [parse_sgr]
    simp
  rw [hp2]
  rw [strip_sgr_cons, if_neg (by decide)]
  simp [osc8_open, str]

theorem strip_sgr_osc8_close (r : Str) :
    strip_sgr (osc8_close ++ r) = osc8_close ++ strip_sgr r := by
  rw [osc8_close_eq]
  exact strip_sgr_osc8_open [] r (by simp [no_esc])

theorem strip_osc8_start_removes (url r : Str) (hu : no_esc url) :
    strip_osc8_start (osc8_open url ++ r) = strip_osc8_start r := by
  have hshape : osc8_open url ++ r =
      escCh :: (']' :: '8' :: ';' :: ';' :: (url ++ escCh :: '\\' :: r)) := by
    simp [osc8_open, str]
  rw [hshape, strip_osc8_start_cons, if_pos rfl]
  have hp : parse_osc8_start (']' :: '8' :: ';' :: ';' :: (url ++ escCh :: '\\' :: r)) =
      some (url.length + 2 + 4) := by
    rw [parse_osc8_start, osc8_url_len_spec url r hu]
    simp
  rw [hp]
  have hd : (']' :: '8' :: ';' :: ';' :: (url ++ escCh :: '\\' :: r)).drop
      (url.length + 2 + 4) = r := by
    have h1 : ']' :: '8' :: ';' :: ';' :: (url ++ escCh :: '\\' :: r) =
        (']' :: '8' :: ';' :: ';' :: url ++ [escCh, '\\']) ++ r := by simp
    have h2 : (']' :: '8' :: ';' :: ';' :: url ++ [escCh, '\\']).length =
        url.length + 2 + 4 := by simp
    rw [h1, ← h2, List.drop_left]
  exact congrArg strip_osc8_start hd

theorem mem_sgr_seq {c : Char} {body : Str} (h : c ∈ sgr_seq body) :
    c = escCh ∨ c = '[' ∨ c = 'm' ∨ c ∈ body := by
  rw [sgr_seq] at h
  simp at h
  tauto

theorem no_nl_sgr_ok {body : Str} (hb : SgrOk body) : '\n' ∉ sgr_seq body := by
  intro h
  rcases mem_sgr_seq h with h | h | h | h
  · exact absurd h (by decide)
  · exact absurd h (by decide)
  · exact absurd h (by decide)
  · rcases hb '\n' h with hd | hs
    · exact absurd hd (by decide)
    · exact absurd hs (by decide)

theorem no_nl_fg (oc : Option Color) : '\n' ∉ fg_seq oc := by
  rcases fg_seq_ok oc with h | ⟨body, hb, hok⟩
  · rw [h]; simp
  · rw [hb]; exact no_nl_sgr_ok hok

theorem no_nl_bg (oc : Option Color) : '\n' ∉ bg_seq oc := by
  rcases bg_seq_ok oc with h | ⟨body, hb, hok⟩
  · rw [h]; simp
  · rw [hb]; exact no_nl_sgr_ok hok

theorem no_nl_attr (style : AnsiStyle) : '\n' ∉ attr_seq style := by
  rw [attr_seq]
  intro h
  simp only [List.mem_append] at h
  rcases h with ((h | h) | h) | h
  all_goals
    revert h
    split
    · intro h; exact no_nl_sgr_ok (by decide) h
    · intro h; simp at h

theorem no_nl_apply (style : AnsiStyle) (text : Str) (nc : Bool) (ht : '\n' ∉ text) :
    '\n' ∉ style.apply text nc := by
  rw [AnsiStyle.apply]
  split
  · exact ht
  · intro h
    simp only [List.mem_append] at h
    rcases h with (((h | h) | h) | h) | h
    · exact no_nl_fg _ h
    · exact no_nl_bg _ h
    · exact no_nl_attr _ h
    · exact ht h
    · exact no_nl_sgr_ok (by decide) h

theorem no_nl_osc8_open (url : Str) (hu : '\n' ∉ url) : '\n' ∉ osc8_open url := by
  rw [osc8_open]
  intro h
  simp [str] at h
  rcases h with h | h | h <;>
    first
      | exact absurd h (by decide)
      | exact hu h

theorem no_nl_clickable (config : Config) (text url : Str) (ht : '\n' ∉ text)
    (hu : '\n' ∉ url) : '\n' ∉ make_clickable_link config text url := by
  rw [make_clickable_link]
  split
  · exact ht
  · intro h
    simp only [List.mem_append] at h
    rcases h with (h | h) | h
    · exact no_nl_osc8_open url hu h
    · exact ht h
    · rw [osc8_close_eq] at h
      exact no_nl_osc8_open [] (by simp) h

theorem current_line_of_append (a b : Str) (hb : '\n' ∉ b) :
    current_line_of (a ++ b) = current_line_of a ++ b := by
  rw [current_line_of, current_line_of, last_line_start, last_line_start,
    rfind_char, rfind_char]
  have hrev : (a ++ b).reverse = b.reverse ++ a.reverse := by simp
  rw [hrev]
  have hfb : b.reverse.findIdx? (· = '\n') = none := by
    apply findIdx_none_of_not
    intro x hx hxe
    have hx' : x = '\n' := by simpa using hxe
    subst hx'
    exact hb (by simpa using hx)
  rw [List.findIdx?_append, hfb]
  simp only [Option.none_or]
  rcases hfa : a.reverse.findIdx? (· = '\n') with _ | j
  · simp
  · have hj : j < a.length := by
      have := List.findIdx?_eq_some_iff_findIdx_eq.mp hfa
      have h2 := this.1
      simpa using h2
    simp only [Option.map_some']
    have hlen : (a ++ b).length - 1 - (j + b.reverse.length)
        = a.length - 1 - j := by
      simp
      omega
    rw [hlen]
    have hle : a.length - 1 - j + 1 ≤ a.length := by omega
    rw [List.drop_append_of_le_length hle]

theorem strip_ansi_noesc_append_clickable (config : Config) (style : AnsiStyle)
    (a text url : Str) (ha : no_esc a) (ht : no_esc text) (hu : no_esc url) :
    strip_ansi (a ++ make_clickable_link config (style.apply text config.no_colors) url)
      = a ++ text := by
  rw [make_clickable_link]
  by_cases hnc : config.no_colors = true
  · rw [if_pos hnc, hnc, AnsiStyle.apply, if_pos rfl]
    exact strip_ansi_noesc _ (no_esc_append.mpr ⟨ha, ht⟩)
  · have hnc' : config.no_colors = false := by simpa using hnc
    rw [if_neg (by simp [hnc'])]
    rw [hnc']
    rw [strip_ansi]
    have hshape : a ++ (osc8_open url ++ style.apply text false ++ osc8_close) =
        a ++ (osc8_open url ++ (style.apply text false ++ (osc8_close ++ []))) := by
      simp
    rw [hshape]
    rw [strip_sgr_append_noesc _ _ ha, strip_sgr_osc8_open _ _ hu,
      strip_sgr_apply _ _ _ ht, strip_sgr_osc8_close, strip_sgr_nil, List.append_nil]
    rw [strip_osc8_start_append_noesc _ _ ha, strip_osc8_start_removes _ _ hu,
      strip_osc8_start_append_noesc _ _ ht, osc8_close_eq]
    have h2 : strip_osc8_start (osc8_open []) = [] := by
      have := strip_osc8_start_removes [] [] (by simp [no_esc])
      simpa using this
    rw [h2, List.append_nil]
    exact strip_osc8_end_noesc _ (no_esc_append.mpr ⟨ha, ht⟩)

theorem display_width_cons (c : Char) (l : Str) :
    display_width (c :: l) = char_width c + display_width l := by
  simp [display_width]

theorem trunc_url_go_width (maxw : Nat) :
    ∀ (s : Str) (cw : Nat), cw ≤ maxw →
      display_width (trunc_url_go maxw cw s) + cw ≤ maxw := by
  intro s
  induction s with
  | nil => intro cw h; simpa [trunc_url_go, display_width] using h
  | cons c t ih =>
    intro cw h
    rw [trunc_url_go]
    by_cases hgt : cw + char_width c > maxw
    · rw [if_pos hgt]
      simpa [display_width] using h
    · rw [if_neg hgt]
      rw [display_width_cons]
      have := ih (cw + char_width c) (by omega)
      omega

theorem truncate_width_le (url : Str) (m : Nat) :
    display_width (truncate_url_with_ellipsis url m) ≤ m := by
  rw [truncate_url_with_ellipsis]
  by_cases h0 : m = 0
  · rw [if_pos h0]; simp [display_width, h0]
  · rw [if_neg h0]
    by_cases h2 : m ≤ 2
    · rw [if_pos h2]
      have : display_width (char_repeat '.' m) = m := by
        simp [char_repeat, display_width]
        induction m with
        | zero => simp
        | succ k ihk => simp [List.replicate_succ, ihk]; rfl
      omega
    · rw [if_neg h2]
      by_cases hfit : display_width url ≤ m
      · rw [if_pos hfit]; exact hfit
      · rw [if_neg hfit]
        rw [display_width_append]
        have h3 : display_width (str "...") = 3 := by decide
        have := trunc_url_go_width (m - 3) url 0 (by omega)
        omega

theorem mem_trunc_url_go {c : Char} (maxw : Nat) :
    ∀ (s : Str) (cw : Nat), c ∈ trunc_url_go maxw cw s → c ∈ s := by
  intro s
  induction s with
  | nil => intro cw h; simp [trunc_url_go] at h
  | cons x t ih =>
    intro cw h
    rw [trunc_url_go] at h
    by_cases hgt : cw + char_width x > maxw
    · rw [if_pos hgt] at h; simp at h
    · rw [if_neg hgt] at h
      rcases List.mem_cons.mp h with h | h
      · simp [h]
      · exact List.mem_cons_of_mem x (ih _ h)

theorem mem_truncate {c : Char} (url : Str) (m : Nat)
    (h : c ∈ truncate_url_with_ellipsis url m) : c ∈ url ∨ c = '.' := by
  rw [truncate_url_with_ellipsis] at h
  by_cases h0 : m = 0
  · rw [if_pos h0] at h; simp at h
  · rw [if_neg h0] at h
    by_cases h2 : m ≤ 2
    · rw [if_pos h2] at h
      right
      rw [char_repeat] at h
      exact List.eq_of_mem_replicate h
    · rw [if_neg h2] at h
      by_cases hfit : display_width url ≤ m
      · rw [if_pos hfit] at h; exact Or.inl h
      · rw [if_neg hfit] at h
        rcases List.mem_append.mp h with h | h
        · exact Or.inl (mem_trunc_url_go _ _ _ h)
        · right
          have h3 : str "..." = ['.', '.', '.'] := by decide
          rw [h3] at h
          simp at h
          exact h

theorem enforce_width_id (config : Config) (theme : Theme) (st : RState)
    (h : display_width (strip_ansi (current_line_of st.output)) ≤
      config.get_terminal_width) :
    enforce_width_on_current_line config theme st = st := by
  rw [enforce_width_on_current_line]
  rw [if_pos (by simpa [current_line_of] using h)]

/-- C8 (amended) — inline-link cut truncation: with an escape-free current
line and URL, when the parenthesized URL fits the remaining columns it is
appended in full; when it does not fit but more than two columns remain it
is cut with a three-character ellipsis so that the line's visible width
stays within the terminal width and no line break is added; the URL moves
to a new line only when at most two columns remain (and there, as the
counterexample shows, the width bound can fail on very narrow terminals). -/
theorem claim_C8_cut_truncation (config : Config) (theme : Theme) (st : RState) (url : Str)
    (hline : no_esc (current_line_of st.output))
    (hu : no_esc url) (hnl : '\n' ∉ url) :
    (2 + display_width url ≤
        config.get_terminal_width -
          display_width (strip_ansi (current_line_of st.output)) →
      (cut_append_url_part config theme st url).output =
        st.output ++ make_clickable_link config
          ((create_style theme ThemeElement.link).apply ('(' :: url ++ [')'])
            config.no_colors) url ∧
      last_line_visible_width (cut_append_url_part config theme st url).output ≤
        config.get_terminal_width) ∧
    (¬ 2 + display_width url ≤
        config.get_terminal_width -
          display_width (strip_ansi (current_line_of st.output)) →
      2 < config.get_terminal_width -
          display_width (strip_ansi (current_line_of st.output)) →
      (cut_append_url_part config theme st url).output =
        st.output ++ make_clickable_link config
          ((create_style theme ThemeElement.link).apply
            ('(' :: truncate_url_with_ellipsis url
              (config.get_terminal_width -
                display_width (strip_ansi (current_line_of st.output)) - 2) ++ [')'])
            config.no_colors) url ∧
      last_line_visible_width (cut_append_url_part config theme st url).output ≤
        config.get_terminal_width) ∧
    (¬ 2 + display_width url ≤
        config.get_terminal_width -
          display_width (strip_ansi (current_line_of st.output)) →
      ¬ 2 < config.get_terminal_width -
          display_width (strip_ansi (current_line_of st.output)) →
      ∃ tail, (cut_append_url_part config theme st url).output =
        st.output ++ '\n' :: tail) := by
  have hupw : display_width ('(' :: url ++ [')']) = 2 + display_width url := by
    rw [display_width_append, display_width_cons]
    have h1 : char_width '(' = 1 := by decide
    have h2 : display_width [')'] = 1 := by decide
    omega
  have hnlup : '\n' ∉ ('(' :: url ++ [')']) := by
    intro h
    rcases List.mem_append.mp h with h | h
    · rcases List.mem_cons.mp h with h | h
      · exact absurd h (by decide)
      · exact hnl h
    · exact absurd h (by decide)
  have hneup : no_esc ('(' :: url ++ [')']) := by
    refine no_esc_append.mpr ⟨?_, by decide⟩
    rw [no_esc_cons]
    exact ⟨by decide, hu⟩
  rw [cut_append_url_part]
  by_cases h1 : config.get_terminal_width -
      display_width (strip_ansi (current_line_of st.output)) ≥
      display_width ('(' :: url ++ [')'])
  case pos
  · rw [if_pos h1]
    -- fits entirely
    have hw1 : display_width (strip_ansi (current_line_of (st.output ++
        make_clickable_link config
          ((create_style theme ThemeElement.link).apply ('(' :: url ++ [')'])
            config.no_colors) url))) =
        display_width (strip_ansi (current_line_of st.output)) +
          (2 + display_width url) := by
      rw [current_line_of_append _ _ (no_nl_clickable _ _ _
          (no_nl_apply _ _ _ hnlup) hnl),
        strip_ansi_noesc_append_clickable _ _ _ _ _ hline hneup hu,
        display_width_append, strip_ansi_noesc _ hline, hupw]
    refine ⟨?_, ?_, ?_⟩
    · intro hfits
      have hLW : display_width (strip_ansi (current_line_of st.output)) +
          (2 + display_width url) ≤ config.get_terminal_width := by omega
      have hid := enforce_width_id config theme
        { st with output := (st.output ++ make_clickable_link config
            ((create_style theme ThemeElement.link).apply ('(' :: url ++ [')'])
              config.no_colors) url) }
        (by
          show display_width (strip_ansi (current_line_of (st.output ++
            make_clickable_link config
              ((create_style theme ThemeElement.link).apply ('(' :: url ++ [')'])
                config.no_colors) url))) ≤ config.get_terminal_width
          rw [hw1]
          exact hLW)
      rw [hid]
      refine ⟨rfl, ?_⟩
      show display_width (strip_ansi (current_line_of (st.output ++
        make_clickable_link config
          ((create_style theme ThemeElement.link).apply ('(' :: url ++ [')'])
            config.no_colors) url))) ≤ config.get_terminal_width
      rw [hw1]
      exact hLW
    · intro hnf _
      exfalso
      rw [hupw] at h1
      omega
    · intro hnf _
      exfalso
      rw [hupw] at h1
      omega
  case neg
  · rw [if_neg h1]
    by_cases h2 : config.get_terminal_width -
        display_width (strip_ansi (current_line_of st.output)) > 2
    case pos
    · rw [if_pos h2]
      -- truncated, ≥ 3 columns remain
      refine ⟨?_, ?_, ?_⟩
      · intro hfits
        exfalso
        rw [hupw] at h1
        omega
      · intro hnf h3
        have hnet : no_esc ('(' :: truncate_url_with_ellipsis url
            (config.get_terminal_width -
              display_width (strip_ansi (current_line_of st.output)) - 2) ++ [')']) := by
          refine no_esc_append.mpr ⟨?_, by decide⟩
          rw [no_esc_cons]
          refine ⟨by decide, ?_⟩
          intro h
          rcases mem_truncate _ _ h with h | h
          · exact hu h
          · exact absurd h (by decide)
        have hnlt : '\n' ∉ ('(' :: truncate_url_with_ellipsis url
            (config.get_terminal_width -
              display_width (strip_ansi (current_line_of st.output)) - 2) ++ [')']) := by
          intro h
          rcases List.mem_append.mp h with h | h
          · rcases List.mem_cons.mp h with h | h
            · exact absurd h (by decide)
            · rcases mem_truncate _ _ h with h | h
              · exact hnl h
              · exact absurd h (by decide)
          · exact absurd h (by decide)
        constructor
        · rfl
        · rw [last_line_visible_width]
          rw [current_line_of_append _ _ (no_nl_clickable _ _ _
              (no_nl_apply _ _ _ hnlt) hnl),
            strip_ansi_noesc_append_clickable _ _ _ _ _ hline hnet hu,
            display_width_append]
          rw [display_width_append, display_width_cons]
          have hdp : char_width '(' = 1 := by decide
          have hdc : display_width [')'] = 1 := by decide
          have htw := truncate_width_le url
            (config.get_terminal_width -
              display_width (strip_ansi (current_line_of st.output)) - 2)
          have heq := congrArg display_width (strip_ansi_noesc _ hline)
          omega
      · intro hnf h3
        exfalso
        omega
    case neg
    · rw [if_neg h2]
      -- fewer than 3 columns: break to a new line
      refine ⟨?_, ?_, ?_⟩
      · intro hfits
        exfalso
        rw [hupw] at h1
        omega
      · intro hnf h3
        exfalso
        omega
      · intro _ _
        by_cases hci : st.content_indent > 0 <;> by_cases hbq : st.blockquote_level > 0
        all_goals
          exact ⟨_, by
            simp only [hci, hbq, if_true, if_false, ite_true, ite_false,
              List.append_assoc, List.cons_append, List.singleton_append,
              List.nil_append]
            rfl⟩

/-- C8 (counterexample) — on a 1-column terminal an inline link under cut
truncation renders the line `()` of visible width 2, exceeding the terminal
width, so the claimed universal width bound is false. -/
theorem claim_C8_counterexample :
    cfg_inline_cut1.get_terminal_width = 1 ∧
    cfg_inline_cut1.link_style = LinkStyle.inline ∧
    cfg_inline_cut1.link_truncation = LinkTruncationStyle.cut ∧
    cfg_inline_cut1.is_text_wrapping_enabled = true ∧
    render_events cfg_inline_cut1 theme0
      [Event.startLink (str "u"), Event.text (str "x"), Event.endLink]
      = str "\nx\n()\n" ∧
    (output_lines (str "\nx\n()\n")).any
      (fun l => decide (1 < display_width (strip_ansi l))) = true :=
  ⟨by decide, by decide, by decide, by decide, by decide, by decide⟩

/-- Witness for C8's amended theorem at a concrete state, URL and config. -/
theorem claim_C8_witness :
    (no_esc (current_line_of ({ output := str "ab" } : RState).output) ∧
      no_esc (str "u") ∧ '\n' ∉ str "u" ∧
      2 + display_width (str "u") ≤
        cfg_char80.get_terminal_width -
          display_width (strip_ansi (current_line_of
            ({ output := str "ab" } : RState).output))) ∧
    ((cut_append_url_part cfg_char80 theme0 { output := str "ab" } (str "u")).output =
        ({ output := str "ab" } : RState).output ++ make_clickable_link cfg_char80
          ((create_style theme0 ThemeElement.link).apply ('(' :: str "u" ++ [')'])
            cfg_char80.no_colors) (str "u") ∧
      last_line_visible_width (cut_append_url_part cfg_char80 theme0
          { output := str "ab" } (str "u")).output ≤ cfg_char80.get_terminal_width) :=
  ⟨⟨by decide, by decide, by decide, by decide⟩,
    (claim_C8_cut_truncation cfg_char80 theme0 { output := str "ab" } (str "u")
      (by decide) (by decide) (by decide)).1 (by decide)⟩

/-! ## C5: table wrap-mode block splitting -/

theorem split_blocks_go_eq_ranges (w : Nat) (headers : List Str)
    (rows : List (List Str)) (aligns : List Alignment) (widths : List Nat) (n : Nat) :
    ∀ (fuel start : Nat),
      split_blocks_go w headers rows aligns widths n fuel start =
        (block_ranges_go w widths n fuel start).map
          (block_of_range headers rows aligns) := by
  intro fuel
  induction fuel with
  | zero => intro start; rfl
  | succ fuel ih =>
    intro start
    rw [split_blocks_go, block_ranges_go]
    by_cases h : start < n
    · rw [if_pos h, if_pos h]
      simp only [List.map_cons]
      rw [ih]
      rfl
    · rw [if_neg h, if_neg h]
      rfl

theorem block_extra_spec (w : Nat) (widths : List Nat) (n : Nat)
    (hw : widths.length = n) :
    ∀ (fuel i cw : Nat), n - i ≤ fuel → i ≤ n →
      i + block_extra_go w widths n fuel i cw ≤ n ∧
      (block_extra_go w widths n fuel i cw = 0 ∨
        cw + (((widths.drop i).take (block_extra_go w widths n fuel i cw)).map
          (· + 3)).sum ≤ w) ∧
      (i + block_extra_go w widths n fuel i cw < n →
        cw + (((widths.drop i).take (block_extra_go w widths n fuel i cw)).map
          (· + 3)).sum + (widths.getD (i + block_extra_go w widths n fuel i cw) 0 + 3)
          > w) := by
  intro fuel
  induction fuel with
  | zero =>
    intro i cw hf hi
    have : i = n := by omega
    subst this
    rw [block_extra_go]
    refine ⟨by omega, Or.inl rfl, by omega⟩
  | succ fuel ih =>
    intro i cw hf hi
    rw [block_extra_go]
    by_cases h : i < n
    · rw [if_pos h]
      by_cases hfits : cw + (widths.getD i 0 + 3) ≤ w
      · rw [if_pos hfits]
        obtain ⟨ih1, ih2, ih3⟩ := ih (i + 1) (cw + (widths.getD i 0 + 3))
          (by omega) (by omega)
        set k := block_extra_go w widths n fuel (i + 1) (cw + (widths.getD i 0 + 3))
          with hk
        have hiw : i < widths.length := by omega
        have hslice : (widths.drop i).take (1 + k) =
            widths.getD i 0 :: (widths.drop (i + 1)).take k := by
          rw [List.drop_eq_getElem_cons hiw, Nat.add_comm 1 k, List.take_succ_cons]
          congr 1
          simp [List.getD_eq_getElem?_getD, List.getElem?_eq_getElem hiw]
        refine ⟨by omega, ?_, ?_⟩
        · right
          rw [hslice]
          simp only [List.map_cons, List.sum_cons]
          rcases ih2 with h0 | hle
          · rw [h0]
            simp only [List.take_zero, List.map_nil, List.sum_nil, Nat.add_zero]
            omega
          · omega
        · intro hlt
          rw [hslice]
          simp only [List.map_cons, List.sum_cons]
          have := ih3 (by omega)
          have harr : i + (1 + k) = i + 1 + k := by omega
          rw [harr]
          omega
      · rw [if_neg hfits]
        refine ⟨by omega, Or.inl rfl, ?_⟩
        intro _
        simp only [List.take_zero, List.map_nil, List.sum_nil, Nat.add_zero]
        omega
    · rw [if_neg h]
      refine ⟨by omega, Or.inl rfl, by omega⟩

theorem block_ranges_spec (w : Nat) (widths : List Nat) (n : Nat)
    (hw : widths.length = n) :
    ∀ (fuel start : Nat), n - start ≤ fuel →
      (∀ p ∈ block_ranges_go w widths n fuel start,
        start ≤ p.1 ∧ p.1 < p.2 ∧ p.2 ≤ n ∧
        (p.2 = p.1 + 1 ∨
          table_block_width ((widths.drop p.1).take (p.2 - p.1)) ≤ w) ∧
        (p.2 < n →
          table_block_width ((widths.drop p.1).take (p.2 - p.1)) +
            (widths.getD p.2 0 + 3) > w)) ∧
      ((block_ranges_go w widths n fuel start).map (fun p => p.2 - p.1)).sum =
        n - start := by
  intro fuel
  induction fuel with
  | zero =>
    intro start hf
    rw [block_ranges_go]
    refine ⟨by intro p hp; simp at hp, by simp; omega⟩
  | succ fuel ih =>
    intro start hf
    rw [block_ranges_go]
    by_cases h : start < n
    · rw [if_pos h]
      obtain ⟨he1, he2, he3⟩ := block_extra_spec w widths n hw (n - (start + 1))
        (start + 1) (4 + widths.getD start 0 + 3) (by omega) (by omega)
      set k := block_extra_go w widths n (n - (start + 1)) (start + 1)
        (4 + widths.getD start 0 + 3) with hk
      have hkdef : block_extra w widths n (start + 1) (4 + widths.getD start 0 + 3)
          = k := rfl
      have he : start + 1 + k ≤ n := by omega
      have hsw : start < widths.length := by omega
      have hslice : (widths.drop start).take (start + 1 + k - start) =
          widths.getD start 0 :: (widths.drop (start + 1)).take k := by
        have harith : start + 1 + k - start = k + 1 := by omega
        rw [harith, List.drop_eq_getElem_cons hsw, List.take_succ_cons]
        congr 1
        simp [List.getD_eq_getElem?_getD, List.getElem?_eq_getElem hsw]
      have hbw : table_block_width ((widths.drop start).take (start + 1 + k - start)) =
          4 + (widths.getD start 0 + 3) +
            (((widths.drop (start + 1)).take k).map (· + 3)).sum := by
        rw [hslice, table_block_width]
        simp only [List.map_cons, List.sum_cons]
        omega
      obtain ⟨ihv, ihs⟩ := ih (start + 1 + k) (by omega)
      constructor
      · intro p hp
        rcases List.mem_cons.mp hp with hp | hp
        · subst hp
          simp only [hkdef]
          refine ⟨by omega, by omega, by omega, ?_, ?_⟩
          · rcases he2 with h0 | hle
            · left; omega
            · right
              rw [hbw]
              omega
          · intro hlt
            rw [hbw]
            have := he3 (by omega)
            omega
        · obtain ⟨v1, v2, v3, v4, v5⟩ := ihv p hp
          exact ⟨by omega, v2, v3, v4, v5⟩
      · simp only [hkdef, List.map_cons, List.sum_cons, ihs]
        omega
    · rw [if_neg h]
      refine ⟨by intro p hp; simp at hp, by simp; omega⟩

theorem col_max_widths_length (headers : List Str) (rows : List (List Str)) :
    (col_max_widths headers rows).length = headers.length := by
  rw [col_max_widths]
  have : ∀ (rs : List (List Str)) (acc : List Nat),
      (rs.foldl (fun acc row =>
        acc.mapIdx (fun i w =>
          match row[i]? with
          | some cell => max w (display_width (strip_ansi cell))
          | none => w)) acc).length = acc.length := by
    intro rs
    induction rs with
    | nil => intro acc; rfl
    | cons r t ih =>
      intro acc
      rw [List.foldl_cons, ih]
      simp
  rw [this]
  simp

theorem calculate_column_widths_length (headers : List Str) (rows : List (List Str)) :
    (calculate_column_widths headers rows).length = headers.length := by
  rw [calculate_column_widths]
  simp [col_max_widths_length]

theorem apply_infix (style : AnsiStyle) (s : Str) (nc : Bool) :
    ∃ a b, style.apply s nc = a ++ s ++ b := by
  rw [AnsiStyle.apply]
  by_cases h : nc = true
  · rw [if_pos h]
    exact ⟨[], [], by simp⟩
  · rw [if_neg h]
    exact ⟨fg_seq style.fg_color ++ bg_seq style.bg_color ++ attr_seq style,
      sgr_seq (str "0"), by simp⟩

theorem table_block_sep_rule (theme : Theme) (nc : Bool) (w idx : Nat)
    (hidx : 0 < idx) :
    ∃ s1 s2, table_block_sep theme nc w idx = s1 ++ block_rule_text w ++ s2 := by
  rw [table_block_sep, if_pos hidx]
  show ∃ s1 s2,
    ('\n' :: (if nc = true then str_repeat (str "═") (min w 80 - 3)
      else (create_style theme ThemeElement.tableBorder).apply
        (str_repeat (str "═") (min w 80 - 3)) nc) ++ ['\n']) =
      s1 ++ block_rule_text w ++ s2
  by_cases hnc : nc = true
  · rw [if_pos hnc]
    exact ⟨['\n'], ['\n'], by rw [block_rule_text]; simp⟩
  · rw [if_neg hnc]
    obtain ⟨a, b, hab⟩ := apply_infix (create_style theme ThemeElement.tableBorder)
      (str_repeat (str "═") (min w 80 - 3)) nc
    exact ⟨'\n' :: a, b ++ ['\n'], by rw [hab, block_rule_text]; simp⟩

theorem render_loop_marker (grid : List Str → List (List Str) → List Alignment → Str)
    (theme : Theme) (nc : Bool) (w total : Nat) :
    ∀ (blocks : List TableBlock) (idx j : Nat), j < blocks.length →
      ∃ pre post,
        render_wrapped_loop grid theme nc w total blocks idx =
          pre ++ block_marker (idx + j + 1) total ++ post ∧
        (0 < idx + j → ∃ pre2 mid, pre = pre2 ++ block_rule_text w ++ mid) := by
  intro blocks
  induction blocks with
  | nil => intro idx j hj; simp at hj
  | cons b rest ih =>
    intro idx j hj
    rw [render_wrapped_loop]
    cases j with
    | zero =>
      obtain ⟨a, bb, hab⟩ := apply_infix (create_style theme ThemeElement.quote)
        (str "Block " ++ nat_str (idx + 1) ++ str " of " ++ nat_str total) nc
      refine ⟨table_block_sep theme nc w idx ++ a, bb ++
        ('\n' :: grid b.headers b.rows b.aligns ++
          render_wrapped_loop grid theme nc w total rest (idx + 1)), ?_, ?_⟩
      · rw [hab, block_marker]
        simp
      · intro hpos
        obtain ⟨s1, s2, hs⟩ := table_block_sep_rule theme nc w idx (by omega)
        exact ⟨s1, s2 ++ a, by rw [hs]; simp⟩
    | succ j =>
      obtain ⟨pre, post, hmain, hrule⟩ := ih (idx + 1) j (by simpa using hj)
      refine ⟨table_block_sep theme nc w idx ++
        (create_style theme ThemeElement.quote).apply
          (str "Block " ++ nat_str (idx + 1) ++ str " of " ++ nat_str total) nc ++
        ('\n' :: grid b.headers b.rows b.aligns) ++ pre, post, ?_, ?_⟩
      · rw [hmain]
        have harith : idx + 1 + j + 1 = idx + (j + 1) + 1 := by omega
        rw [harith]
        simp
      · intro _
        obtain ⟨pre2, mid, hp2⟩ := hrule (by omega)
        exact ⟨table_block_sep theme nc w idx ++
          (create_style theme ThemeElement.quote).apply
            (str "Block " ++ nat_str (idx + 1) ++ str " of " ++ nat_str total) nc ++
          ('\n' :: grid b.headers b.rows b.aligns) ++ pre2,
          mid, by rw [hp2]; simp⟩

/-- C5 — table wrap-mode block splitting: the estimated width is the sum of
per-column maxima plus 3 per column plus 1; a fitting table renders as one
grid and an overflowing one as wrapped blocks; the greedy ranges cover all
columns (per-block counts sum to the column count), each block either is a
single column or fits the cumulative width bound, each stopped block would
overflow with its next column, every block's output is preceded by its
`Block i of N` marker, and blocks after the first are preceded by the
horizontal rule. -/
theorem claim_C5_table_wrap_blocks (grid_nolimit grid : List Str → List (List Str) → List Alignment → Str)
    (theme : Theme) (nc : Bool) (w : Nat)
    (headers : List Str) (rows : List (List Str)) (aligns : List Alignment)
    (hne : headers ≠ []) :
    estimate_table_width headers rows =
      (col_max_widths headers rows).sum + headers.length * 3 + 1 ∧
    (estimate_table_width headers rows ≤ w →
      render_table grid_nolimit grid theme nc w TableWrapMode.wrap headers rows aligns =
        grid headers rows aligns) ∧
    (¬ estimate_table_width headers rows ≤ w →
      render_table grid_nolimit grid theme nc w TableWrapMode.wrap headers rows aligns =
        render_wrapped_table grid theme nc w headers rows aligns) ∧
    (((split_table_into_blocks w headers rows aligns).map
        (fun b => b.headers.length)).sum = headers.length) ∧
    (split_table_into_blocks w headers rows aligns =
      (block_ranges w (calculate_column_widths headers rows) headers.length 0).map
        (block_of_range headers rows aligns)) ∧
    (∀ p ∈ block_ranges w (calculate_column_widths headers rows) headers.length 0,
      p.1 < p.2 ∧ p.2 ≤ headers.length ∧
      (p.2 = p.1 + 1 ∨
        table_block_width (((calculate_column_widths headers rows).drop p.1).take
          (p.2 - p.1)) ≤ w) ∧
      (p.2 < headers.length →
        table_block_width (((calculate_column_widths headers rows).drop p.1).take
          (p.2 - p.1)) +
          ((calculate_column_widths headers rows).getD p.2 0 + 3) > w)) ∧
    (∀ j < (split_table_into_blocks w headers rows aligns).length,
      ∃ pre post,
        render_wrapped_table grid theme nc w headers rows aligns =
          pre ++ block_marker (j + 1)
            (split_table_into_blocks w headers rows aligns).length ++ post ∧
        (0 < j → ∃ pre2 mid, pre = pre2 ++ block_rule_text w ++ mid)) := by
  have hwl := calculate_column_widths_length headers rows
  obtain ⟨hval, hsum⟩ := block_ranges_spec w (calculate_column_widths headers rows)
    headers.length hwl (headers.length - 0) 0 (by omega)
  have hblocks : split_table_into_blocks w headers rows aligns =
      (block_ranges w (calculate_column_widths headers rows) headers.length 0).map
        (block_of_range headers rows aligns) := by
    rw [split_table_into_blocks, split_blocks_loop, block_ranges,
      split_blocks_go_eq_ranges]
  have hnemp : ¬ headers.isEmpty = true := by simpa using hne
  refine ⟨rfl, ?_, ?_, ?_, hblocks, ?_, ?_⟩
  · intro hfit
    rw [render_table, if_neg hnemp]
    show (if estimate_table_width headers rows ≤ w then grid headers rows aligns
      else render_wrapped_table grid theme nc w headers rows aligns) = _
    rw [if_pos hfit]
  · intro hnofit
    rw [render_table, if_neg hnemp]
    show (if estimate_table_width headers rows ≤ w then grid headers rows aligns
      else render_wrapped_table grid theme nc w headers rows aligns) = _
    rw [if_neg hnofit]
  · rw [hblocks, List.map_map]
    have hcong : ∀ p ∈ block_ranges w (calculate_column_widths headers rows)
        headers.length 0,
        ((fun b => b.headers.length) ∘ block_of_range headers rows aligns) p =
          (fun p : Nat × Nat => p.2 - p.1) p := by
      intro p hp
      obtain ⟨_, v2, v3, _, _⟩ := hval p hp
      simp only [Function.comp, block_of_range]
      simp only [List.length_take, List.length_drop]
      omega
    rw [List.map_congr_left hcong]
    have hbr : block_ranges w (calculate_column_widths headers rows) headers.length 0 =
        block_ranges_go w (calculate_column_widths headers rows) headers.length
          (headers.length - 0) 0 := rfl
    rw [hbr]
    omega
  · intro p hp
    obtain ⟨_, v2, v3, v4, v5⟩ := hval p hp
    exact ⟨v2, v3, v4, v5⟩
  · intro j hj
    rw [render_wrapped_table]
    have hlen : (split_table_into_blocks w headers rows aligns).length =
        (split_table_into_blocks w headers rows aligns).length := rfl
    obtain ⟨pre, post, hm, hr⟩ := render_loop_marker grid theme nc w
      (split_table_into_blocks w headers rows aligns).length
      (split_table_into_blocks w headers rows aligns) 0 j hj
    refine ⟨pre, post, ?_, ?_⟩
    · rw [hm]
      have : 0 + j + 1 = j + 1 := by omega
      rw [this]
    · intro hjpos
      exact hr (by omega)

/-- Witness for C5 at a concrete table and grid renderers. -/
theorem claim_C5_witness :
    (([str "aa"] : List Str) ≠ []) ∧
    (estimate_table_width [str "aa"] [] ≤ 80 ∧
      render_table (fun _ _ _ => []) (fun _ _ _ => str "GRID") theme0 true 80
        TableWrapMode.wrap [str "aa"] [] [] = str "GRID") :=
  ⟨by decide,
    by decide,
    (claim_C5_table_wrap_blocks (fun _ _ _ => []) (fun _ _ _ => str "GRID") theme0 true 80
      [str "aa"] [] [] (by decide)).2.1 (by decide)⟩

/-! ## C9: no-colors purity

The invariant is proved by tracking, across every event handler, that the
four escape-relevant pieces of renderer state (`GoodSt`) stay escape-free
when colors are disabled and the event payloads are escape-free. -/
theorem no_esc_of_subset {a b : Str} (hs : ∀ x ∈ a, x ∈ b) (hb : no_esc b) :
    no_esc a := fun hx => hb (hs escCh hx)

theorem no_esc_char_repeat {c : Char} (n : Nat) (hc : ¬ c = escCh) :
    no_esc (char_repeat c n) := by
  intro hx
  rw [char_repeat] at hx
  exact hc (List.eq_of_mem_replicate hx).symm

theorem no_esc_take {s : Str} (n : Nat) (h : no_esc s) : no_esc (s.take n) :=
  fun hx => h (List.mem_of_mem_take hx)

theorem no_esc_trim_start {s : Str} (h : no_esc s) : no_esc (trim_start s) :=
  no_esc_of_subset (fun _x hx => (List.dropWhile_sublist rust_is_ws).mem hx) h

theorem no_esc_trim {s : Str} (h : no_esc s) : no_esc (trim s) :=
  no_esc_trim_end (no_esc_trim_start h)

theorem apply_nc (style : AnsiStyle) (s : Str) : style.apply s true = s := by
  rw [AnsiStyle.apply, if_pos rfl]

theorem apply_formatting_nc (config : Config) (theme : Theme) (st : RState) (text : Str)
    (hnc : config.no_colors = true) :
    apply_formatting config theme st text = text := by
  rw [apply_formatting]
  by_cases h : st.formatting_stack.isEmpty = true
  · rw [if_pos h]
  · rw [if_neg h]
    simp [hnc, apply_nc]

theorem make_clickable_nc (config : Config) (text url : Str)
    (hnc : config.no_colors = true) :
    make_clickable_link config text url = text := by
  rw [make_clickable_link, if_pos hnc]

theorem ul_fragment_nc (fragment : Str) : ul_fragment true fragment = fragment := by
  rw [ul_fragment]
  simp

theorem trim_end_append_drop (l : Str) :
    trim_end l ++ l.drop (trim_end l).length = l := by
  have hsfx : (l.reverse.dropWhile rust_is_ws) <:+ l.reverse := List.dropWhile_suffix _
  obtain ⟨t, ht⟩ := hsfx
  have hpre : trim_end l ++ t.reverse = l := by
    rw [trim_end]
    have := congrArg List.reverse ht
    simpa using this
  have hdrop : l.drop (trim_end l).length = t.reverse := by
    have h2 : l.drop (trim_end l).length =
        (trim_end l ++ t.reverse).drop (trim_end l).length := by
      rw [hpre]
    rw [h2, List.drop_left]
  rw [hdrop]
  exact hpre

theorem strike_fragment_nc (config : Config) (theme : Theme) (st : RState)
    (fragment : Str) (hnc : config.no_colors = true) :
    strike_fragment config theme st fragment = fragment := by
  rw [strike_fragment]
  rw [apply_formatting_nc _ _ _ _ hnc]
  exact trim_end_append_drop fragment

theorem render_bq_marker_noesc (config : Config) (theme : Theme) (st : RState)
    (hnc : config.no_colors = true) :
    no_esc (render_blockquote_marker config theme st) := by
  rw [render_blockquote_marker]
  by_cases h : st.blockquote_level = 0
  · rw [if_pos h]
    simp [no_esc]
  · rw [if_neg h, if_pos hnc]
    refine no_esc_append.mpr ⟨no_esc_char_repeat _ (by decide), by decide⟩

theorem current_line_ctx_noesc (config : Config) (theme : Theme) (st : RState)
    (hnc : config.no_colors = true) :
    no_esc (current_line_ctx config theme st) := by
  rw [current_line_ctx]
  by_cases h1 : st.blockquote_level > 0
  · rw [if_pos h1]
    refine no_esc_append.mpr ⟨no_esc_append.mpr ⟨?_, render_bq_marker_noesc _ _ _ hnc⟩, ?_⟩
    · split
      · exact no_esc_char_repeat _ (by decide)
      · simp [no_esc]
    · split
      · show no_esc (if calculate_list_content_indent st - st.content_indent > 0
          then char_repeat ' ' (calculate_list_content_indent st - st.content_indent)
          else [])
        split
        · exact no_esc_char_repeat _ (by decide)
        · simp [no_esc]
      · simp [no_esc]
  · rw [if_neg h1]
    split
    · exact no_esc_char_repeat _ (by decide)
    · split
      · exact no_esc_char_repeat _ (by decide)
      · simp [no_esc]

theorem nat_str_noesc (n : Nat) : no_esc (nat_str n) := by
  intro hx
  have := nat_str_digits n escCh hx
  simp [is_digit, escCh] at this

theorem mem_split_on {c : Char} {x : Char} :
    ∀ {s : Str} {l : Str}, l ∈ split_on c s → x ∈ l → x ∈ s := by
  intro s
  induction s with
  | nil =>
    intro l hl hx
    rw [split_on] at hl
    simp at hl
    subst hl
    simp at hx
  | cons a t ih =>
    intro l hl hx
    by_cases hac : a = c
    · subst hac
      rcases hsp : split_on a t with _ | ⟨h0, t0⟩
      · simp [split_on, hsp] at hl
        rcases hl with hl | hl <;> subst hl
        · simp at hx
        · simp at hx
          simp [hx]
      · simp [split_on, hsp] at hl
        rcases hl with hl | hl
        · subst hl; simp at hx
        · right
          exact ih (by rw [hsp]; exact List.mem_cons.mpr hl) hx
    · rcases hsp : split_on c t with _ | ⟨h0, t0⟩
      · simp [split_on, hsp, hac] at hl
        subst hl
        simp at hx
        simp [hx]
      · simp [split_on, hsp, hac] at hl
        rcases hl with hl | hl
        · subst hl
          rcases List.mem_cons.mp hx with hx | hx
          · simp [hx]
          · right
            exact ih (by rw [hsp]; simp) hx
        · right
          exact ih (by rw [hsp]; exact List.mem_cons.mpr (Or.inr hl)) hx

theorem mem_rust_lines {x : Char} {s : Str} {l : Str}
    (hl : l ∈ rust_lines s) (hx : x ∈ l) : x ∈ s := by
  simp only [rust_lines, List.mem_map] at hl
  obtain ⟨l0, hl0, hmap⟩ := hl
  have hlx : x ∈ l0 := by
    subst hmap
    revert hx
    split
    · next rest heq =>
      intro hx
      have hdec : l0 = rest.reverse ++ ['\r'] := by
        have := congrArg List.reverse heq
        simpa using this
      rw [hdec]
      exact List.mem_append.mpr (Or.inl hx)
    · intro hx
      exact hx
  have hl0' : l0 ∈ split_on '\n' s := by
    revert hl0
    split
    · next rest heq =>
      intro hl0
      have hdec : split_on '\n' s = rest.reverse ++ [[]] := by
        have := congrArg List.reverse heq
        simpa using this
      rw [hdec]
      exact List.mem_append.mpr (Or.inl hl0)
    · intro hl0
      exact hl0
  exact mem_split_on hl0' hlx

theorem mem_intersperse_cases {sep : Str} :
    ∀ {ls : List Str} {l : Str}, l ∈ List.intersperse sep ls → l = sep ∨ l ∈ ls := by
  intro ls
  induction ls with
  | nil => intro l h; simp [List.intersperse] at h
  | cons a t ih =>
    intro l h
    cases t with
    | nil =>
      simp [List.intersperse] at h
      exact Or.inr (by simp [h])
    | cons b t2 =>
      replace h : l ∈ a :: sep :: List.intersperse sep (b :: t2) := h
      rcases List.mem_cons.mp h with h | h
      · exact Or.inr (by simp [h])
      · rcases List.mem_cons.mp h with h | h
        · exact Or.inl h
        · rcases ih h with h | h
          · exact Or.inl h
          · exact Or.inr (List.mem_cons.mpr (Or.inr h))

theorem no_esc_flatten {ls : List Str} (h : ∀ l ∈ ls, no_esc l) :
    no_esc ls.flatten := by
  intro hx
  rw [List.mem_flatten] at hx
  obtain ⟨l, hl, hxl⟩ := hx
  exact h l hl hxl

theorem no_esc_intercalate {ls : List Str} (h : ∀ l ∈ ls, no_esc l) :
    no_esc (List.intercalate ['\n'] ls) := by
  rw [List.intercalate]
  refine no_esc_flatten ?_
  intro l hl
  rcases mem_intersperse_cases hl with hl | hl
  · subst hl
    decide
  · exact h l hl

theorem wrap_char_go_noesc (w : Nat) :
    ∀ (fuel : Nat) (s : Str) (st : WrapSt),
      no_esc s →
      (∀ l ∈ st.result, no_esc l) → no_esc st.current_line → no_esc st.ansi_stack →
      (∀ l ∈ (wrap_line_char_loop_go w fuel s st).result, no_esc l) ∧
        no_esc (wrap_line_char_loop_go w fuel s st).current_line := by
  intro fuel
  induction fuel with
  | zero =>
    intro s st hs hres hcur hstk
    cases s with
    | nil => exact ⟨hres, hcur⟩
    | cons c rest => exact ⟨hres, hcur⟩
  | succ fuel ih =>
    intro s st hs hres hcur hstk
    cases s with
    | nil => exact ⟨hres, hcur⟩
    | cons c rest =>
      rw [no_esc_cons] at hs
      obtain ⟨hc, hrest⟩ := hs
      rw [wrap_line_char_loop_go, if_neg hc]
      by_cases hwc : rust_is_ws c = true
      · rw [if_pos hwc]
        have hiff : (decide (st.current_width + (if c = '\t' then 4 else 1) > w) &&
            !(trim st.current_line).isEmpty) = true ↔
            (w < st.current_width + (if c = '\t' then 4 else 1) ∧
              trim st.current_line ≠ []) := by
          simp [List.isEmpty_eq_false]
        by_cases hcond : w < st.current_width + (if c = '\t' then 4 else 1) ∧
            trim st.current_line ≠ []
        · rw [if_pos (hiff.mpr hcond)]
          refine ih rest _ hrest ?_ hstk hstk
          intro l hl
          rcases List.mem_append.mp hl with hl | hl
          · exact hres l hl
          · simp at hl
            subst hl
            exact no_esc_trim_end hcur
        · rw [if_neg (fun hh => hcond (hiff.mp hh))]
          refine ih rest _ hrest hres ?_ hstk
          simp only
          exact no_esc_append.mpr ⟨hcur, no_esc_single hc⟩
      · rw [if_neg (by simp [hwc])]
        have hiff : (decide (st.current_width + char_width c > w) &&
            !(trim st.current_line).isEmpty) = true ↔
            (w < st.current_width + char_width c ∧ trim st.current_line ≠ []) := by
          simp [List.isEmpty_eq_false]
        by_cases hcond : w < st.current_width + char_width c ∧ trim st.current_line ≠ []
        · rw [if_pos (hiff.mpr hcond)]
          refine ih rest _ hrest ?_ ?_ hstk
          · intro l hl
            rcases List.mem_append.mp hl with hl | hl
            · exact hres l hl
            · simp at hl
              subst hl
              exact hcur
          · simp only
            exact no_esc_append.mpr ⟨hstk, no_esc_single hc⟩
        · rw [if_neg (fun hh => hcond (hiff.mp hh))]
          refine ih rest _ hrest hres ?_ hstk
          simp only
          exact no_esc_append.mpr ⟨hcur, no_esc_single hc⟩

theorem wrap_line_character_noesc {line : Str} (w : Nat) (h : no_esc line) :
    ∀ l ∈ wrap_line_character line w, no_esc l := by
  intro l hl
  rw [wrap_line_character] at hl
  by_cases h0 : w = 0
  · rw [if_pos h0] at hl
    simp at hl
    subst hl
    exact h
  · rw [if_neg h0] at hl
    by_cases hfit : display_width (strip_ansi line) ≤ w
    · rw [if_pos hfit] at hl
      simp at hl
      subst hl
      exact h
    · rw [if_neg hfit] at hl
      rw [wrap_line_char_loop] at hl
      obtain ⟨hres, hcur⟩ := wrap_char_go_noesc w line.length line ⟨[], [], 0, []⟩ h
        (by intro x hx; simp at hx) (by decide) (by decide)
      set ST := wrap_line_char_loop_go w line.length line ⟨[], [], 0, []⟩ with hST
      by_cases htr : (trim ST.current_line).isEmpty = true
      · simp only [htr, Bool.not_true, Bool.false_eq_true, if_false] at hl
        by_cases hre : ST.result.isEmpty = true
        · rw [if_pos hre] at hl
          simp at hl
          subst hl
          decide
        · rw [if_neg hre] at hl
          exact hres l hl
      · have htr2 : (trim ST.current_line).isEmpty = false := by simpa using htr
        simp only [htr2, Bool.not_false, if_true] at hl
        rw [if_neg (by simp)] at hl
        rcases List.mem_append.mp hl with hl | hl
        · exact hres l hl
        · simp at hl
          subst hl
          exact hcur

theorem split_words_ansi_go_noesc :
    ∀ (fuel : Nat) (s current : Str) (in_ws : Bool) (res : List (Str × Bool)),
      no_esc s → no_esc current → (∀ p ∈ res, no_esc p.1) →
      ∀ p ∈ split_words_ansi_go fuel s current in_ws res, no_esc p.1 := by
  intro fuel
  induction fuel with
  | zero =>
    intro s current in_ws res hs hcur hres p hp
    cases s with
    | nil =>
      rw [split_words_ansi_go] at hp
      revert hp
      split
      · intro hp
        rcases List.mem_append.mp hp with hp | hp
        · exact hres p hp
        · simp at hp
          subst hp
          exact hcur
      · intro hp
        exact hres p hp
    | cons c rest =>
      rw [split_words_ansi_go] at hp
      · exact hres p hp
      · simp
  | succ fuel ih =>
    intro s current in_ws res hs hcur hres p hp
    cases s with
    | nil =>
      rw [split_words_ansi_go] at hp
      revert hp
      split
      · intro hp
        rcases List.mem_append.mp hp with hp | hp
        · exact hres p hp
        · simp at hp
          subst hp
          exact hcur
      · intro hp
        exact hres p hp
    | cons c rest =>
      rw [no_esc_cons] at hs
      obtain ⟨hc, hrest⟩ := hs
      rw [split_words_ansi_go, if_neg hc] at hp
      by_cases hwc : rust_is_ws c = true
      · rw [if_pos hwc] at hp
        revert hp
        split
        · intro hp
          refine ih rest [c] true _ hrest (no_esc_single hc) ?_ p hp
          intro q hq
          rcases List.mem_append.mp hq with hq | hq
          · exact hres q hq
          · simp at hq
            rw [hq]
            exact hcur
        · intro hp
          exact ih rest _ true res hrest
            (no_esc_append.mpr ⟨hcur, no_esc_single hc⟩) hres p hp
      · rw [if_neg (by simp [hwc])] at hp
        revert hp
        split
        · intro hp
          refine ih rest [c] false _ hrest (no_esc_single hc) ?_ p hp
          intro q hq
          rcases List.mem_append.mp hq with hq | hq
          · exact hres q hq
          · simp at hq
            rw [hq]
            exact hcur
        · intro hp
          exact ih rest _ false res hrest
            (no_esc_append.mpr ⟨hcur, no_esc_single hc⟩) hres p hp

theorem contains_esc_false {word : Str} (h : no_esc word) :
    word.contains escCh = false := by
  simp [List.contains]
  exact h

theorem wrap_line_word_loop_noesc (w : Nat) :
    ∀ (words : List (Str × Bool)) (st : WrapSt),
      (∀ p ∈ words, no_esc p.1) →
      (∀ l ∈ st.result, no_esc l) → no_esc st.current_line → no_esc st.ansi_stack →
      (∀ l ∈ (wrap_line_word_loop w words st).result, no_esc l) ∧
        no_esc (wrap_line_word_loop w words st).current_line ∧
        no_esc (wrap_line_word_loop w words st).ansi_stack := by
  intro words
  induction words with
  | nil =>
    intro st hws hres hcur hstk
    exact ⟨hres, hcur, hstk⟩
  | cons p rest ih =>
    intro st hws hres hcur hstk
    have hw : no_esc p.1 := hws p (by simp)
    have hws' : ∀ q ∈ rest, no_esc q.1 := fun q hq => hws q (by simp [hq])
    obtain ⟨word, is_ws⟩ := p
    rw [wrap_line_word_loop]
    simp only [contains_esc_false hw]
    simp only [Bool.false_eq_true, if_false]
    refine ih _ hws' ?_ ?_ ?_
    · repeat' split
      all_goals
        intro l hl
        first
          | exact hres l hl
          | exact (List.mem_append.mp hl).elim (fun h2 => hres l h2)
              (fun h2 => by simp at h2; subst h2; exact no_esc_trim_end hcur)
    · repeat' split
      all_goals
        first
          | exact no_esc_append.mpr ⟨hcur, hw⟩
          | exact hstk
          | exact hcur
          | exact no_esc_append.mpr ⟨hstk, hw⟩
    · repeat' split
      all_goals exact hstk

theorem wrap_line_word_noesc {line : Str} (w : Nat) (h : no_esc line) :
    ∀ l ∈ wrap_line_word line w, no_esc l := by
  intro l hl
  rw [wrap_line_word] at hl
  by_cases h0 : w = 0
  · rw [if_pos h0] at hl
    simp at hl
    subst hl
    exact h
  · rw [if_neg h0] at hl
    by_cases hfit : display_width (strip_ansi line) ≤ w
    · rw [if_pos hfit] at hl
      simp at hl
      subst hl
      exact h
    · rw [if_neg hfit] at hl
      have hwords : ∀ p ∈ split_line_into_words_with_ansi line, no_esc p.1 := by
        intro p hp
        rw [split_line_into_words_with_ansi, split_words_ansi_loop] at hp
        exact split_words_ansi_go_noesc line.length line [] false [] h (by decide)
          (by intro q hq; simp at hq) p hp
      obtain ⟨hres, hcur, _⟩ := wrap_line_word_loop_noesc w
        (split_line_into_words_with_ansi line) ⟨[], [], 0, []⟩ hwords
        (by intro x hx; simp at hx) (by decide) (by decide)
      set ST := wrap_line_word_loop w (split_line_into_words_with_ansi line)
        ⟨[], [], 0, []⟩ with hST
      by_cases htr : (trim ST.current_line).isEmpty = true
      · simp only [htr, Bool.not_true, Bool.false_eq_true, if_false] at hl
        by_cases hre : ST.result.isEmpty = true
        · rw [if_pos hre] at hl
          simp at hl
          subst hl
          decide
        · rw [if_neg hre] at hl
          exact hres l hl
      · have htr2 : (trim ST.current_line).isEmpty = false := by simpa using htr
        simp only [htr2, Bool.not_false, if_true] at hl
        rw [if_neg (by simp)] at hl
        rcases List.mem_append.mp hl with hl | hl
        · exact hres l hl
        · simp at hl
          subst hl
          exact hcur

theorem wrap_text_with_mode_noesc {text : Str} (w : Nat) (mode : WrapMode)
    (h : no_esc text) : no_esc (wrap_text_with_mode text w mode) := by
  rw [wrap_text_with_mode]
  split
  · exact h
  · refine no_esc_intercalate ?_
    intro l hl
    rw [List.mem_flatMap] at hl
    obtain ⟨line, hline, hl⟩ := hl
    have hlne : no_esc line :=
      no_esc_of_subset (fun x hx => mem_split_on hline hx) h
    revert hl
    split
    · intro hl
      simp at hl
      subst hl
      decide
    · cases mode with
      | none => intro hl; simp at hl; subst hl; exact hlne
      | character => intro hl; exact wrap_line_character_noesc w hlne l hl
      | word => intro hl; exact wrap_line_word_noesc w hlne l hl

theorem wrap_text_for_output_noesc (config : Config) (st : RState) {text : Str}
    (h : no_esc text) : no_esc (wrap_text_for_output config st text) := by
  simp only [wrap_text_for_output]
  split_ifs <;> first | exact h | exact wrap_text_with_mode_noesc _ _ h

theorem truncate_noesc {url : Str} (m : Nat) (h : no_esc url) :
    no_esc (truncate_url_with_ellipsis url m) := by
  intro hmem
  rcases mem_truncate url m hmem with hc | hc
  · exact h hc
  · exact (by decide : escCh ≠ '.') hc

theorem wrap_url_ref_loop_noesc (fw cw rw2 : Nat) {ci : Str} (hci : no_esc ci) :
    ∀ (s result current : Str) (w : Nat) (b : Bool),
      no_esc s → no_esc result → no_esc current →
      no_esc (wrap_url_ref_loop fw cw rw2 ci s result current w b) := by
  intro s
  induction s with
  | nil =>
    intro result current w b _ hres hcur
    rw [wrap_url_ref_loop]
    split
    · exact no_esc_append.mpr ⟨hres, hcur⟩
    · exact hres
  | cons ch rest ih =>
    intro result current w b hs hres hcur
    have hch : ch ≠ escCh := (no_esc_cons.mp hs).1
    have hrest : no_esc rest := (no_esc_cons.mp hs).2
    have hchl : no_esc [ch] := no_esc_cons.mpr ⟨hch, by decide⟩
    simp only [wrap_url_ref_loop]
    generalize (if b = true then fw else cw - rw2) = M
    split
    · split
      · exact ih _ _ _ _ hrest
          (no_esc_append.mpr ⟨no_esc_append.mpr ⟨no_esc_append.mpr
            ⟨hres, no_esc_take _ hcur⟩, by decide⟩, hci⟩)
          (no_esc_append.mpr ⟨no_esc_drop _ _ hcur, hchl⟩)
      · exact ih _ _ _ _ hrest
          (no_esc_append.mpr ⟨no_esc_append.mpr ⟨no_esc_append.mpr
            ⟨hres, hcur⟩, by decide⟩, hci⟩) hchl
    · exact ih _ _ _ _ hrest hres (no_esc_append.mpr ⟨hcur, hchl⟩)

theorem wrap_url_with_reference_noesc {url : Str} (fw cw rw2 : Nat) (h : no_esc url) :
    no_esc (wrap_url_with_reference url fw cw rw2) := by
  simp only [wrap_url_with_reference]
  split
  · exact h
  · exact wrap_url_ref_loop_noesc fw cw rw2 (no_esc_char_repeat _ (by decide))
      url [] [] 0 true h (by decide) (by decide)

theorem wrap_link_line_noesc (config : Config) (st : RState) {link_line : Str}
    (h : no_esc link_line) : no_esc (wrap_link_line config st link_line) := by
  simp only [wrap_link_line]
  split
  · exact h
  · split
    · exact h
    · split
      · split
        · exact h
        · by_cases hls : config.link_style = LinkStyle.inlineTable
          · rw [if_pos hls]
            rcases hlt : config.link_truncation with _ | _ | _
            all_goals simp only [hlt]
            · exact no_esc_append.mpr ⟨no_esc_take _ h,
                no_esc_cons.mpr ⟨by decide, wrap_url_with_reference_noesc _ _ _
                  (no_esc_drop _ _ h)⟩⟩
            · exact no_esc_append.mpr ⟨no_esc_take _ h,
                no_esc_cons.mpr ⟨by decide, truncate_noesc _ (no_esc_drop _ _ h)⟩⟩
            · exact h
          · rw [if_neg hls]
            exact no_esc_append.mpr ⟨no_esc_take _ h,
              no_esc_cons.mpr ⟨by decide, wrap_url_with_reference_noesc _ _ _
                (no_esc_drop _ _ h)⟩⟩
      · exact wrap_text_with_mode_noesc _ _ h

theorem wrap_url_indent_noesc (st : RState) : no_esc (wrap_url_indent st) := by
  simp only [wrap_url_indent]
  repeat' split
  all_goals
    first
      | decide
      | exact no_esc_char_repeat _ (by decide)
      | (refine no_esc_append.mpr ⟨no_esc_append.mpr
          ⟨no_esc_append.mpr ⟨?_, no_esc_char_repeat _ (by decide)⟩, by decide⟩, ?_⟩ <;>
          first
            | decide
            | exact no_esc_char_repeat _ (by decide))

theorem wrap_url_with_indentation_noesc (config : Config) (st : RState) {text : Str}
    (h : no_esc text) : no_esc (wrap_url_with_indentation config st text) := by
  have hw := wrap_text_for_output_noesc config st h
  simp only [wrap_url_with_indentation]
  split
  · exact hw
  · split
    · decide
    · next first0 rest0 heq =>
      refine no_esc_append.mpr ⟨?_, ?_⟩
      · refine no_esc_of_subset (fun x hx => ?_) hw
        exact mem_split_on (by rw [heq]; simp) hx
      · refine no_esc_flatten ?_
        intro l hl
        rw [List.mem_map] at hl
        obtain ⟨line, hline, hmap⟩ := hl
        subst hmap
        refine no_esc_cons.mpr ⟨by decide, no_esc_append.mpr ⟨wrap_url_indent_noesc st, ?_⟩⟩
        refine no_esc_of_subset (fun x hx => ?_) hw
        exact mem_split_on (by rw [heq]; exact List.mem_cons_of_mem _ hline) hx

theorem make_clickable_wrapped_nc (config : Config) (theme : Theme) (u s : Str)
    (hnc : config.no_colors = true) :
    make_clickable_wrapped_url config theme u s = s := by
  rw [make_clickable_wrapped_url, if_pos hnc]

theorem wrap_split_chars_noesc (limit : Nat) {s : Str} (h : no_esc s) :
    no_esc (wrap_split_chars limit s).1 ∧ no_esc (wrap_split_chars limit s).2 := by
  rw [wrap_split_chars]
  suffices hgen : ∀ (l : Str) (acc : Str × Str × Nat), no_esc l → no_esc acc.1 →
      no_esc acc.2.1 →
      no_esc (l.foldl (wsc_step limit) acc).1 ∧ no_esc (l.foldl (wsc_step limit) acc).2.1 by
    exact hgen s ([], [], 0) h (by decide) (by decide)
  intro l
  induction l with
  | nil => intro acc _ h1 h2; exact ⟨h1, h2⟩
  | cons c t ih =>
    intro acc hl h1 h2
    have hc : c ≠ escCh := (no_esc_cons.mp hl).1
    have ht : no_esc t := (no_esc_cons.mp hl).2
    rw [List.foldl_cons]
    simp only [wsc_step]
    split
    · exact ih _ ht (no_esc_append.mpr ⟨h1, no_esc_cons.mpr ⟨hc, by decide⟩⟩) h2
    · exact ih _ ht h1 (no_esc_append.mpr ⟨h2, no_esc_cons.mpr ⟨hc, by decide⟩⟩)

theorem mem_enum_snd {α : Type} {p : Nat × α} {l : List α} (h : p ∈ l.enum) :
    p.2 ∈ l := by
  have he : l.enum.map Prod.snd = l := List.enum_map_snd l
  rw [← he]
  exact List.mem_map_of_mem Prod.snd h

theorem mem_split_words_styled_loop {x : Char} :
    ∀ (s current : Str) (b : Bool) (words : List Str) (u : Str),
      u ∈ split_words_styled_loop s current b words →
      x ∈ u → x ∈ s ∨ x ∈ current ∨ ∃ w ∈ words, x ∈ w := by
  intro s
  induction s with
  | nil =>
    intro current b words u hu hx
    rw [split_words_styled_loop] at hu
    revert hu
    split
    · intro hu
      rcases List.mem_append.mp hu with hu | hu
      · exact Or.inr (Or.inr ⟨u, hu, hx⟩)
      · simp at hu
        subst hu
        exact Or.inr (Or.inl hx)
    · intro hu
      exact Or.inr (Or.inr ⟨u, hu, hx⟩)
  | cons c t ih =>
    intro current b words u hu hx
    rw [split_words_styled_loop] at hu
    revert hu
    split
    · split
      · intro hu
        rcases ih _ _ _ _ hu hx with h | h | ⟨w, hw, hxw⟩
        · exact Or.inl (List.mem_cons_of_mem c h)
        · simp at h
          exact Or.inl (by simp [h])
        · rcases List.mem_append.mp hw with hw | hw
          · exact Or.inr (Or.inr ⟨w, hw, hxw⟩)
          · simp at hw
            subst hw
            exact Or.inr (Or.inl hxw)
      · intro hu
        rcases ih _ _ _ _ hu hx with h | h | h
        · exact Or.inl (List.mem_cons_of_mem c h)
        · rcases List.mem_append.mp h with h | h
          · exact Or.inr (Or.inl h)
          · simp at h
            exact Or.inl (by simp [h])
        · exact Or.inr (Or.inr h)
    · split
      · intro hu
        rcases ih _ _ _ _ hu hx with h | h | ⟨w, hw, hxw⟩
        · exact Or.inl (List.mem_cons_of_mem c h)
        · simp at h
          exact Or.inl (by simp [h])
        · rcases List.mem_append.mp hw with hw | hw
          · exact Or.inr (Or.inr ⟨w, hw, hxw⟩)
          · simp at hw
            subst hw
            exact Or.inr (Or.inl hxw)
      · intro hu
        rcases ih _ _ _ _ hu hx with h | h | h
        · exact Or.inl (List.mem_cons_of_mem c h)
        · rcases List.mem_append.mp h with h | h
          · exact Or.inr (Or.inl h)
          · simp at h
            exact Or.inl (by simp [h])
        · exact Or.inr (Or.inr h)

theorem split_units_noesc {mode : WrapMode} {text : Str} (h : no_esc text) :
    ∀ u ∈ split_units mode text, no_esc u := by
  intro u hu hx
  cases mode with
  | word =>
    rw [split_units, split_text_into_words_styled] at hu
    rcases mem_split_words_styled_loop text [] false [] u hu hx with h2 | h2 | ⟨w, hw, _⟩
    · exact h h2
    · simp at h2
    · simp at hw
  | character =>
    rw [split_units, split_text_into_characters_styled] at hu
    rw [List.mem_map] at hu
    obtain ⟨c, hc, hmap⟩ := hu
    subst hmap
    simp at hx
    subst hx
    exact h hc
  | none =>
    rw [split_units] at hu
    simp at hu
    subst hu
    exact h hx

theorem goodst_append_output {st : RState} (h : GoodSt st) {t : Str} (ht : no_esc t) :
    GoodSt { st with output := st.output ++ t } :=
  ⟨no_esc_append.mpr ⟨h.1, ht⟩, h.2.1, h.2.2.1, h.2.2.2⟩

theorem push_indent_goodst (config : Config) (theme : Theme) (st : RState)
    (hnc : config.no_colors = true) (h : GoodSt st) :
    GoodSt (push_indent_for_line_start config theme st) :=
  goodst_append_output h (current_line_ctx_noesc config theme st hnc)

theorem push_newline_goodst (config : Config) (theme : Theme) (st : RState)
    (hnc : config.no_colors = true) (h : GoodSt st) :
    GoodSt (push_newline_with_context config theme st) :=
  goodst_append_output h
    (no_esc_cons.mpr ⟨by decide, current_line_ctx_noesc config theme st hnc⟩)

theorem ensure_nl_noesc {o : Str} (h : no_esc o) : no_esc (ensure_nl o) := by
  rw [ensure_nl]
  split
  · exact no_esc_append.mpr ⟨h, by decide⟩
  · exact h

theorem ensure_ctx_on_noesc {o pfx : Str} (ho : no_esc o) (hp : no_esc pfx) :
    no_esc (ensure_contextual_blank_line_on o pfx) := by
  rw [ensure_contextual_blank_line_on]
  split
  · exact ho
  · split
    · exact no_esc_append.mpr ⟨no_esc_append.mpr ⟨ensure_nl_noesc ho, hp⟩, by decide⟩
    · exact ensure_nl_noesc ho

theorem ensure_ctx_goodst (config : Config) (theme : Theme) (st : RState)
    (hnc : config.no_colors = true) (h : GoodSt st) :
    GoodSt (ensure_contextual_blank_line config theme st) :=
  ⟨ensure_ctx_on_noesc h.1 (current_line_ctx_noesc config theme st hnc), h.2.1, h.2.2.1, h.2.2.2⟩

theorem normalize_trailing_noesc {o : Str} (h : no_esc o) :
    no_esc (normalize_trailing_blank_line o) := by
  simp only [normalize_trailing_blank_line]
  repeat' split
  all_goals
    first
      | exact h
      | exact no_esc_append.mpr ⟨no_esc_take _ h, no_esc_drop _ _ h⟩

theorem trim_trailing_go_noesc (fuel : Nat) :
    ∀ {o : Str}, no_esc o → no_esc (trim_trailing_blank_lines_go fuel o) := by
  induction fuel with
  | zero => intro o h; exact h
  | succ n ih =>
    intro o h
    simp only [trim_trailing_blank_lines_go]
    repeat' split
    all_goals first | exact h | exact ih (no_esc_take _ h)

theorem trim_trailing_noesc {o : Str} (h : no_esc o) :
    no_esc (trim_trailing_blank_lines o) := trim_trailing_go_noesc _ h

theorem enforce_width_goodst (config : Config) (theme : Theme) (st : RState)
    (hnc : config.no_colors = true) (h : GoodSt st) :
    GoodSt (enforce_width_on_current_line config theme st) := by
  simp only [enforce_width_on_current_line]
  repeat' split
  all_goals
    first
      | exact h
      | exact ⟨no_esc_append.mpr ⟨no_esc_append.mpr ⟨no_esc_take _ h.1,
          no_esc_cons.mpr ⟨by decide, current_line_ctx_noesc config theme st hnc⟩⟩,
          no_esc_drop _ _ h.1⟩, h.2.1, h.2.2.1, h.2.2.2⟩

theorem commit_goodst {st : RState} (h : GoodSt st) :
    GoodSt (commit_pending_heading_placeholder_if_content st) := by
  simp only [commit_pending_heading_placeholder_if_content]
  repeat' split
  all_goals exact ⟨h.1, h.2.1, h.2.2.1, h.2.2.2⟩

theorem finalize_goodst {st : RState} (h : GoodSt st) :
    GoodSt (finalize_pending_heading_placeholder st) := by
  simp only [finalize_pending_heading_placeholder]
  repeat' split
  all_goals
    first
      | exact ⟨h.1, h.2.1, h.2.2.1, h.2.2.2⟩
      | exact ⟨no_esc_append.mpr ⟨no_esc_take _ h.1, no_esc_drop _ _ h.1⟩,
          h.2.1, h.2.2.1, h.2.2.2⟩

theorem process_text_unit_goodst (config : Config) (theme : Theme)
    (effective_width : Nat) (wrap_mode : WrapMode) (st : RState) {unit : Str}
    (hnc : config.no_colors = true) (h : GoodSt st) (hu : no_esc unit) :
    GoodSt (process_text_unit config theme effective_width wrap_mode st unit) := by
  simp only [process_text_unit, apply_formatting_nc _ _ _ _ hnc]
  repeat' split
  all_goals
    first
      | exact goodst_append_output h hu
      | exact goodst_append_output (push_newline_goodst _ _ _ hnc h) hu
      | exact goodst_append_output (push_indent_goodst _ _ _ hnc h) hu
      | exact goodst_append_output
          (push_indent_goodst _ _ _ hnc (push_newline_goodst _ _ _ hnc h)) hu

theorem foldl_goodst {α : Type} {f : RState → α → RState} {l : List α} {st : RState}
    (hst : GoodSt st) (hf : ∀ s a, a ∈ l → GoodSt s → GoodSt (f s a)) :
    GoodSt (l.foldl f st) := by
  induction l generalizing st with
  | nil => exact hst
  | cons a t ih =>
    rw [List.foldl_cons]
    exact ih (hf st a (by simp) hst) (fun s b hb hs => hf s b (by simp [hb]) hs)

theorem process_styled_goodst (config : Config) (theme : Theme) (st : RState)
    {text : Str} (hnc : config.no_colors = true) (h : GoodSt st) (ht : no_esc text) :
    GoodSt (process_styled_text_with_wrapping config theme st text) := by
  simp only [process_styled_text_with_wrapping]
  refine foldl_goodst h ?_
  intro s p hp hs
  have hu : no_esc p.2 := split_units_noesc ht p.2 (mem_enum_snd hp)
  split
  · exact goodst_append_output hs hu
  · exact process_text_unit_goodst _ _ _ _ _ hnc hs hu

theorem process_regular_goodst (config : Config) (theme : Theme) (st : RState)
    {text : Str} (should_wrap : Bool) (hnc : config.no_colors = true)
    (h : GoodSt st) (ht : no_esc text) :
    GoodSt (process_regular_text config theme st text should_wrap) := by
  simp only [process_regular_text, apply_formatting_nc _ _ _ _ hnc]
  split
  · refine foldl_goodst h ?_
    intro s unit hunit hs
    have hu : no_esc unit := split_units_noesc ht unit hunit
    repeat' split
    all_goals
      first
        | exact push_newline_goodst _ _ _ hnc hs
        | exact goodst_append_output hs hu
        | exact process_text_unit_goodst _ _ _ _ _ hnc hs hu
  · repeat' split
    all_goals
      first
        | exact goodst_append_output h ht
        | exact goodst_append_output (push_indent_goodst _ _ _ hnc h) ht

theorem process_underlined_loop_goodst (config : Config) (theme : Theme)
    (ew : Nat) (wm : WrapMode) (hnc : config.no_colors = true) :
    ∀ (l : List (Nat × Str)) (st : RState) (frag : Str) (w : Nat),
      GoodSt st → no_esc frag → (∀ p ∈ l, no_esc p.2) →
      GoodSt (process_underlined_loop config theme ew wm l st frag w).1 ∧
        no_esc (process_underlined_loop config theme ew wm l st frag w).2 := by
  intro l
  induction l with
  | nil => intro st frag w hst hfrag _; exact ⟨hst, hfrag⟩
  | cons p rest ih =>
    intro st frag w hst hfrag hl
    obtain ⟨i, unit⟩ := p
    have hu : no_esc unit := hl (i, unit) (by simp)
    have hrest : ∀ q ∈ rest, no_esc q.2 := fun q hq => hl q (by simp [hq])
    simp only [process_underlined_loop, hnc, ul_fragment_nc]
    repeat' split
    all_goals
      first
        | exact ih _ _ _ (push_newline_goodst _ _ _ hnc (goodst_append_output hst hfrag))
            (by decide) hrest
        | exact ih _ _ _ (push_newline_goodst _ _ _ hnc (goodst_append_output hst hfrag))
            hu hrest
        | exact ih _ _ _ (goodst_append_output hst hfrag) hu hrest
        | exact ih _ _ _ (push_newline_goodst _ _ _ hnc hst)
            (no_esc_append.mpr ⟨hfrag, hu⟩) hrest
        | exact ih _ _ _ hst (no_esc_append.mpr ⟨hfrag, hu⟩) hrest

theorem process_underlined_goodst (config : Config) (theme : Theme) (st : RState)
    {text : Str} (hnc : config.no_colors = true) (h : GoodSt st) (ht : no_esc text) :
    GoodSt (process_underlined_text_with_wrapping config theme st text) := by
  have hunits : ∀ p ∈ (split_units config.text_wrap_mode text).enum, no_esc p.2 :=
    fun p hp => split_units_noesc ht p.2 (mem_enum_snd hp)
  simp only [process_underlined_text_with_wrapping, hnc, Bool.not_true,
    Bool.false_eq_true, if_false, ul_fragment_nc]
  split
  · exact goodst_append_output h ht
  · split
    · have hloop := process_underlined_loop_goodst config theme
        config.get_terminal_width config.text_wrap_mode hnc
        (split_units config.text_wrap_mode text).enum
        (push_newline_with_context config theme st) []
        (compute_line_start_context_width (push_newline_with_context config theme st))
        (push_newline_goodst _ _ _ hnc h) (by decide) hunits
      split
      · exact goodst_append_output hloop.1 hloop.2
      · exact hloop.1
    · have hloop := process_underlined_loop_goodst config theme
        config.get_terminal_width config.text_wrap_mode hnc
        (split_units config.text_wrap_mode text).enum st []
        (display_width (strip_ansi (current_line_of st.output))) h (by decide) hunits
      split
      · exact goodst_append_output hloop.1 hloop.2
      · exact hloop.1

theorem process_strike_loop_goodst (config : Config) (theme : Theme)
    (ew : Nat) (wm : WrapMode) (hnc : config.no_colors = true) :
    ∀ (l : List (Nat × Str)) (st : RState) (frag : Str) (w : Nat),
      GoodSt st → no_esc frag → (∀ p ∈ l, no_esc p.2) →
      GoodSt (process_strike_loop config theme ew wm l st frag w).1 ∧
        no_esc (process_strike_loop config theme ew wm l st frag w).2 := by
  intro l
  induction l with
  | nil => intro st frag w hst hfrag _; exact ⟨hst, hfrag⟩
  | cons p rest ih =>
    intro st frag w hst hfrag hl
    obtain ⟨i, unit⟩ := p
    have hu : no_esc unit := hl (i, unit) (by simp)
    have hrest : ∀ q ∈ rest, no_esc q.2 := fun q hq => hl q (by simp [hq])
    simp only [process_strike_loop, strike_fragment_nc _ _ _ _ hnc]
    repeat' split
    all_goals
      first
        | exact ih _ _ _ (push_newline_goodst _ _ _ hnc (goodst_append_output hst hfrag))
            (by decide) hrest
        | exact ih _ _ _ (push_newline_goodst _ _ _ hnc (goodst_append_output hst hfrag))
            hu hrest
        | exact ih _ _ _ (goodst_append_output hst hfrag) hu hrest
        | exact ih _ _ _ (push_newline_goodst _ _ _ hnc hst)
            (no_esc_append.mpr ⟨hfrag, hu⟩) hrest
        | exact ih _ _ _ hst (no_esc_append.mpr ⟨hfrag, hu⟩) hrest

theorem process_strikethrough_goodst (config : Config) (theme : Theme) (st : RState)
    {text : Str} (hnc : config.no_colors = true) (h : GoodSt st) (ht : no_esc text) :
    GoodSt (process_strikethrough_text_with_wrapping config theme st text) := by
  have hunits : ∀ p ∈ (split_units config.text_wrap_mode text).enum, no_esc p.2 :=
    fun p hp => split_units_noesc ht p.2 (mem_enum_snd hp)
  simp only [process_strikethrough_text_with_wrapping,
    apply_formatting_nc _ _ _ _ hnc, strike_fragment_nc _ _ _ _ hnc]
  split
  · exact goodst_append_output h ht
  · split
    · have hloop := process_strike_loop_goodst config theme
        config.get_terminal_width config.text_wrap_mode hnc
        (split_units config.text_wrap_mode text).enum
        (push_newline_with_context config theme st) []
        (compute_line_start_context_width (push_newline_with_context config theme st))
        (push_newline_goodst _ _ _ hnc h) (by decide) hunits
      split
      · exact goodst_append_output hloop.1 hloop.2
      · exact hloop.1
    · have hloop := process_strike_loop_goodst config theme
        config.get_terminal_width config.text_wrap_mode hnc
        (split_units config.text_wrap_mode text).enum st []
        (display_width (strip_ansi (current_line_of st.output))) h (by decide) hunits
      split
      · exact goodst_append_output hloop.1 hloop.2
      · exact hloop.1

theorem process_twf_goodst (config : Config) (theme : Theme) (st : RState)
    {text : Str} (hnc : config.no_colors = true) (h : GoodSt st) (ht : no_esc text) :
    GoodSt (process_text_with_wrapping_and_formatting config theme st text) := by
  have hsp : no_esc (char_repeat ' ' st.content_indent) :=
    no_esc_char_repeat _ (by decide)
  have hB : GoodSt { st with output := st.output ++ char_repeat ' ' st.content_indent } :=
    goodst_append_output h hsp
  simp only [process_text_with_wrapping_and_formatting]
  split
  · exact ⟨h.1, h.2.1, h.2.2.1, h.2.2.2⟩
  · repeat' split
    all_goals
      first
        | exact process_strikethrough_goodst _ _ _ hnc h ht
        | exact process_strikethrough_goodst _ _ _ hnc
            (goodst_append_output h (render_bq_marker_noesc _ _ _ hnc)) ht
        | exact process_strikethrough_goodst _ _ _ hnc
            (goodst_append_output hB (render_bq_marker_noesc _ _ _ hnc)) ht
        | exact process_styled_goodst _ _ _ hnc h ht
        | exact process_styled_goodst _ _ _ hnc
            (goodst_append_output h (render_bq_marker_noesc _ _ _ hnc)) ht
        | exact process_styled_goodst _ _ _ hnc
            (goodst_append_output hB (render_bq_marker_noesc _ _ _ hnc)) ht
        | exact process_regular_goodst _ _ _ _ hnc h ht
        | exact process_regular_goodst _ _ _ _ hnc
            (goodst_append_output h (render_bq_marker_noesc _ _ _ hnc)) ht
        | exact process_regular_goodst _ _ _ _ hnc
            (goodst_append_output hB (render_bq_marker_noesc _ _ _ hnc)) ht

theorem handle_text_goodst (config : Config) (theme : Theme) (st : RState)
    {text : Str} (hnc : config.no_colors = true) (h : GoodSt st) (ht : no_esc text) :
    GoodSt (handle_text config theme st text) := by
  simp only [handle_text]
  repeat' split
  all_goals
    first
      | exact commit_goodst (process_twf_goodst _ _ _ hnc h ht)
      | exact process_twf_goodst _ _ _ hnc h ht
      | exact commit_goodst ⟨h.1, no_esc_append.mpr ⟨h.2.1, ht⟩, h.2.2.1, h.2.2.2⟩
      | exact ⟨h.1, no_esc_append.mpr ⟨h.2.1, ht⟩, h.2.2.1, h.2.2.2⟩
      | exact commit_goodst ⟨h.1, h.2.1, h.2.2.1, h.2.2.2⟩
      | exact ⟨h.1, h.2.1, h.2.2.1, h.2.2.2⟩

theorem goodst_set_chs {st : RState} {v : Option Nat} (h : GoodSt st) :
    GoodSt { st with current_heading_start := v } :=
  ⟨h.1, h.2.1, h.2.2.1, h.2.2.2⟩

theorem goodst_set_pending {st : RState} {v : Option (Nat × Nat)} (h : GoodSt st) :
    GoodSt { st with pending_heading_placeholder := v } :=
  ⟨h.1, h.2.1, h.2.2.1, h.2.2.2⟩

theorem goodst_set_chl {st : RState} {v : Option HeadingLevel} {w : HeadingLevel}
    (h : GoodSt st) :
    GoodSt { st with current_heading_level := v, last_header_level := w } :=
  ⟨h.1, h.2.1, h.2.2.1, h.2.2.2⟩

theorem goodst_set_indents {st : RState} {a b : Nat} (h : GoodSt st) :
    GoodSt { st with heading_indent := a, content_indent := b } :=
  ⟨h.1, h.2.1, h.2.2.1, h.2.2.2⟩

theorem goodst_normalize {st : RState} (h : GoodSt st) :
    GoodSt { st with output := normalize_trailing_blank_line st.output } :=
  ⟨normalize_trailing_noesc h.1, h.2.1, h.2.2.1, h.2.2.2⟩

theorem goodst_trimtb {st : RState} (h : GoodSt st) :
    GoodSt { st with output := trim_trailing_blank_lines st.output } :=
  ⟨trim_trailing_noesc h.1, h.2.1, h.2.2.1, h.2.2.2⟩

theorem goodst_take_output {st : RState} {n : Nat} (h : GoodSt st) :
    GoodSt { st with output := st.output.take n } :=
  ⟨no_esc_take _ h.1, h.2.1, h.2.2.1, h.2.2.2⟩

theorem finalize_output_noesc {st : RState} (ho : no_esc st.output) :
    no_esc (finalize_pending_heading_placeholder st).output := by
  simp only [finalize_pending_heading_placeholder]
  repeat' split
  all_goals
    first
      | exact ho
      | exact no_esc_append.mpr ⟨no_esc_take _ ho, no_esc_drop _ _ ho⟩

theorem finalize_clt {st : RState} :
    (finalize_pending_heading_placeholder st).current_link_text =
      st.current_link_text := by
  simp only [finalize_pending_heading_placeholder]
  repeat' split
  all_goals rfl

theorem finalize_lr {st : RState} :
    (finalize_pending_heading_placeholder st).link_references = st.link_references := by
  simp only [finalize_pending_heading_placeholder]
  repeat' split
  all_goals rfl

theorem finalize_pl {st : RState} :
    (finalize_pending_heading_placeholder st).paragraph_links = st.paragraph_links := by
  simp only [finalize_pending_heading_placeholder]
  repeat' split
  all_goals rfl

theorem hhs_clt (config : Config) (theme : Theme) (st : RState) (level : HeadingLevel) :
    (handle_header_start config theme st level).current_link_text =
      st.current_link_text := by
  rcases hsm : smart_lookup (finalize_pending_heading_placeholder st).smart_level_indents
      level with _ | planned <;>
    simp only [handle_header_start, hsm, ensure_contextual_blank_line] <;>
    repeat' split
  all_goals
    (dsimp only
     exact finalize_clt)

theorem hhs_lr (config : Config) (theme : Theme) (st : RState) (level : HeadingLevel) :
    (handle_header_start config theme st level).link_references = st.link_references := by
  rcases hsm : smart_lookup (finalize_pending_heading_placeholder st).smart_level_indents
      level with _ | planned <;>
    simp only [handle_header_start, hsm, ensure_contextual_blank_line] <;>
    repeat' split
  all_goals
    (dsimp only
     exact finalize_lr)

theorem hhs_pl (config : Config) (theme : Theme) (st : RState) (level : HeadingLevel) :
    (handle_header_start config theme st level).paragraph_links = st.paragraph_links := by
  rcases hsm : smart_lookup (finalize_pending_heading_placeholder st).smart_level_indents
      level with _ | planned <;>
    simp only [handle_header_start, hsm, ensure_contextual_blank_line] <;>
    repeat' split
  all_goals
    (dsimp only
     exact finalize_pl)

theorem hhs_output_noesc (config : Config) (theme : Theme) (st : RState)
    (level : HeadingLevel) (hnc : config.no_colors = true) (ho : no_esc st.output) :
    no_esc (handle_header_start config theme st level).output := by
  have hfin : no_esc (finalize_pending_heading_placeholder st).output :=
    finalize_output_noesc ho
  rcases hsm : smart_lookup (finalize_pending_heading_placeholder st).smart_level_indents
      level with _ | planned <;>
    simp only [handle_header_start, hsm, ensure_contextual_blank_line] <;>
    repeat' split
  all_goals dsimp only
  all_goals
    first
      | exact no_esc_append.mpr ⟨normalize_trailing_noesc (ensure_ctx_on_noesc
          (trim_trailing_noesc hfin) (current_line_ctx_noesc _ _ _ hnc)),
          no_esc_char_repeat _ (by decide)⟩
      | exact normalize_trailing_noesc (ensure_ctx_on_noesc (trim_trailing_noesc hfin)
          (current_line_ctx_noesc _ _ _ hnc))
      | exact no_esc_append.mpr ⟨ensure_ctx_on_noesc (trim_trailing_noesc hfin)
          (current_line_ctx_noesc _ _ _ hnc), no_esc_char_repeat _ (by decide)⟩
      | exact ensure_ctx_on_noesc (trim_trailing_noesc hfin)
          (current_line_ctx_noesc _ _ _ hnc)

theorem handle_header_start_goodst (config : Config) (theme : Theme) (st : RState)
    (level : HeadingLevel) (hnc : config.no_colors = true) (h : GoodSt st) :
    GoodSt (handle_header_start config theme st level) := by
  refine ⟨hhs_output_noesc config theme st level hnc h.1, ?_, ?_, ?_⟩
  · rw [hhs_clt]
    exact h.2.1
  · rw [hhs_lr]
    exact h.2.2.1
  · rw [hhs_pl]
    exact h.2.2.2

theorem render_final_header_noesc (config : Config) (st : RState) (style : AnsiStyle)
    {indent_str header_text : Str} (hnc : config.no_colors = true)
    (hi : no_esc indent_str) (hh : no_esc header_text) :
    no_esc (render_final_header config st style indent_str header_text) := by
  simp only [render_final_header, hnc, apply_nc]
  split
  · refine no_esc_intercalate ?_
    intro l hl
    rw [List.mem_map] at hl
    obtain ⟨line, hline, hmap⟩ := hl
    subst hmap
    refine no_esc_append.mpr ⟨no_esc_char_repeat _ (by decide), ?_⟩
    refine no_esc_of_subset (fun x hx => mem_rust_lines hline hx) ?_
    split
    · split
      · exact no_esc_drop _ _ hh
      · exact hh
    · refine wrap_text_for_output_noesc config st ?_
      split
      · exact no_esc_drop _ _ hh
      · exact hh
  · have hw : no_esc (if (!config.is_text_wrapping_enabled) = true then
        (if indent_str.isPrefixOf header_text = true then
          header_text.drop indent_str.length else header_text)
        else wrap_text_for_output config st
          (if indent_str.isPrefixOf header_text = true then
            header_text.drop indent_str.length else header_text)) := by
      split
      · split
        · exact no_esc_drop _ _ hh
        · exact hh
      · refine wrap_text_for_output_noesc config st ?_
        split
        · exact no_esc_drop _ _ hh
        · exact hh
    split
    · exact no_esc_append.mpr ⟨hi, hw⟩
    · exact hw

theorem goodst_hdr_replace {config : Config} {style : AnsiStyle} {st : RState}
    {n m : Nat} (hnc : config.no_colors = true) (h : GoodSt st) :
    GoodSt { st with output := (st.output.take n ++
      render_final_header config st style (char_repeat ' ' st.heading_indent)
        (trim (st.output.drop m))) } :=
  ⟨no_esc_append.mpr ⟨no_esc_take _ h.1, render_final_header_noesc _ _ _ hnc
      (no_esc_char_repeat _ (by decide)) (no_esc_trim (no_esc_drop _ _ h.1))⟩,
    h.2.1, h.2.2.1, h.2.2.2⟩

theorem goodst_hdr_full {config : Config} {style : AnsiStyle} {st : RState}
    (hnc : config.no_colors = true) (h : GoodSt st) :
    GoodSt { st with output := (render_final_header config st style
      (char_repeat ' ' st.heading_indent) (trim st.output)) } :=
  ⟨render_final_header_noesc _ _ _ hnc (no_esc_char_repeat _ (by decide))
      (no_esc_trim h.1), h.2.1, h.2.2.1, h.2.2.2⟩

theorem goodst_insert_hash {st : RState} {n k m : Nat} (h : GoodSt st) :
    GoodSt { st with output := (st.output.take n ++ char_repeat '#' k ++
      st.output.drop m) } :=
  ⟨no_esc_append.mpr ⟨no_esc_append.mpr ⟨no_esc_take _ h.1,
      no_esc_char_repeat _ (by decide)⟩, no_esc_drop _ _ h.1⟩,
    h.2.1, h.2.2.1, h.2.2.2⟩

set_option maxHeartbeats 1000000 in
theorem handle_header_end_goodst (config : Config) (theme : Theme) (st : RState)
    (level : HeadingLevel) (hnc : config.no_colors = true) (h : GoodSt st) :
    GoodSt (handle_header_end config theme st level) := by
  have hph : ∀ k : Nat, no_esc (char_repeat '#' k) :=
    fun k => no_esc_char_repeat _ (by decide)
  have hnl : no_esc ['\n'] := by decide
  simp only [handle_header_end]
  repeat' split
  all_goals
    (first
      | refine goodst_append_output (goodst_append_output ?_ hnl) hnl
      | refine goodst_append_output ?_ hnl)
  all_goals
    (first
      | refine goodst_hdr_replace hnc ?_
      | refine goodst_hdr_full hnc ?_
      | skip)
  all_goals
    first
      | exact h
      | exact goodst_set_pending (goodst_set_chs h)
      | exact goodst_set_pending (goodst_append_output (goodst_set_chs h) (hph _))
      | exact goodst_set_pending (goodst_insert_hash (goodst_set_chs h))

theorem goodst_link_insert {st : RState} {k url : Str} (h : GoodSt st)
    (hu : no_esc url) :
    GoodSt { st with
      link_counter := st.link_counter + 1,
      link_references := map_insert st.link_references k url,
      current_link_text := [],
      in_link := true } := by
  refine ⟨h.1, (by decide : no_esc []), ?_, h.2.2.2⟩
  intro p hp
  replace hp : p ∈ (k, url) :: st.link_references := hp
  rcases List.mem_cons.mp hp with hp | hp
  · rw [hp]
    exact hu
  · exact h.2.2.1 p hp

theorem goodst_para_append {st : RState} {r url : Str} (hr : no_esc r)
    (hu : no_esc url) (h : GoodSt st) :
    GoodSt { st with
      paragraph_link_counter := st.paragraph_link_counter + 1,
      paragraph_links := st.paragraph_links ++ [(r, url)],
      current_link_text := [],
      in_link := true } := by
  refine ⟨h.1, (by decide : no_esc []), h.2.2.1, ?_⟩
  intro p hp
  replace hp : p ∈ st.paragraph_links ++ [(r, url)] := hp
  rcases List.mem_append.mp hp with hp | hp
  · exact h.2.2.2 p hp
  · simp at hp
    rw [hp]
    exact ⟨hr, hu⟩

theorem handle_link_start_goodst (config : Config) (theme : Theme) (st : RState)
    {dest_url : Str} (hnc : config.no_colors = true) (h : GoodSt st)
    (hurl : no_esc dest_url) :
    GoodSt (handle_link_start config theme st dest_url) := by
  have hbr : ∀ n : Nat, no_esc ('[' :: nat_str n ++ [']']) := fun n =>
    no_esc_cons.mpr ⟨by decide, no_esc_append.mpr ⟨nat_str_noesc _, by decide⟩⟩
  simp only [handle_link_start]
  repeat' split
  all_goals
    first
      | exact h
      | exact push_indent_goodst _ _ _ hnc (goodst_take_output h)
      | exact goodst_link_insert h hurl
      | exact goodst_link_insert (push_indent_goodst _ _ _ hnc (goodst_take_output h)) hurl
      | exact goodst_para_append (hbr _) hurl h
      | exact goodst_para_append (hbr _) hurl
          (push_indent_goodst _ _ _ hnc (goodst_take_output h))

theorem map_get_mem {m : List (Str × Str)} {k v : Str} (h : map_get m k = some v) :
    ∃ p ∈ m, p.2 = v := by
  rw [map_get] at h
  rcases hf : m.find? (fun p => p.1 = k) with _ | p
  · rw [hf] at h
    simp at h
  · rw [hf] at h
    simp at h
    exact ⟨p, List.mem_of_find?_eq_some hf, h⟩

theorem goodst_end_link {st : RState} (h1 : no_esc st.output)
    (h3 : ∀ p ∈ st.link_references, no_esc p.2)
    (h4 : ∀ p ∈ st.paragraph_links, no_esc p.1 ∧ no_esc p.2) :
    GoodSt { st with in_link := false, current_link_text := [] } :=
  ⟨h1, (by decide : no_esc []), h3, h4⟩

set_option maxHeartbeats 1600000 in
theorem cut_append_goodst (config : Config) (theme : Theme) (st : RState) (url : Str)
    (hnc : config.no_colors = true) (h : GoodSt st) (hu : no_esc url) :
    GoodSt (cut_append_url_part config theme st url) := by
  have hup : no_esc ('(' :: url ++ [')']) :=
    no_esc_cons.mpr ⟨by decide, no_esc_append.mpr ⟨hu, by decide⟩⟩
  have htr : ∀ m : Nat, no_esc ('(' :: truncate_url_with_ellipsis url m ++ [')']) :=
    fun m => no_esc_cons.mpr ⟨by decide, no_esc_append.mpr ⟨truncate_noesc _ hu, by decide⟩⟩
  have hnl : no_esc ['\n'] := by decide
  simp only [cut_append_url_part, hnc, apply_nc, make_clickable_nc _ _ _ hnc]
  split
  · exact enforce_width_goodst _ _ _ hnc (goodst_append_output h hup)
  · split
    · exact goodst_append_output h (htr _)
    · repeat' split
      all_goals
        first
          | exact goodst_append_output (goodst_append_output h hnl) (htr _)
          | exact goodst_append_output (goodst_append_output (goodst_append_output h hnl)
              (no_esc_char_repeat _ (by decide))) (htr _)
          | exact goodst_append_output (goodst_append_output (goodst_append_output h hnl)
              (render_bq_marker_noesc _ _ _ hnc)) (htr _)
          | exact goodst_append_output (goodst_append_output (goodst_append_output
              (goodst_append_output h hnl) (no_esc_char_repeat _ (by decide)))
              (render_bq_marker_noesc _ _ _ hnc)) (htr _)

theorem handle_link_end_clickable_goodst (config : Config) (theme : Theme)
    (st : RState) (forced : Bool) (hnc : config.no_colors = true) (h : GoodSt st) :
    GoodSt (handle_link_end_clickable config theme st forced) := by
  have hnl : no_esc ['\n'] := by decide
  simp only [handle_link_end_clickable, hnc, Bool.not_true, Bool.false_eq_true,
    if_false, apply_formatting_nc _ _ _ _ hnc]
  repeat' split
  all_goals
    first
      | exact goodst_end_link h.1 h.2.2.1 h.2.2.2
      | exact goodst_end_link (no_esc_append.mpr ⟨h.1, h.2.1⟩) h.2.2.1 h.2.2.2
      | exact goodst_end_link (no_esc_append.mpr ⟨no_esc_append.mpr ⟨h.1, hnl⟩, h.2.1⟩)
          h.2.2.1 h.2.2.2

theorem goodst_end_link_of {st : RState} (h : GoodSt st) :
    GoodSt { st with in_link := false, current_link_text := [] } :=
  goodst_end_link h.1 h.2.2.1 h.2.2.2

set_option maxHeartbeats 1600000 in
theorem handle_link_end_inline_goodst (config : Config) (theme : Theme) (st : RState)
    (hnc : config.no_colors = true) (h : GoodSt st) :
    GoodSt (handle_link_end_inline config theme st) := by
  simp only [handle_link_end_inline, hnc, Bool.not_true, Bool.false_eq_true, if_false,
    apply_nc, make_clickable_nc _ _ _ hnc, make_clickable_wrapped_nc _ _ _ _ hnc]
  split
  · -- a stored URL is found
    rename_i url hequrl
    have hu : no_esc url := by
      obtain ⟨p, hp, hpv⟩ := map_get_mem hequrl
      exact hpv ▸ h.2.2.1 p hp
    have hup : no_esc ('(' :: url ++ [')']) :=
      no_esc_cons.mpr ⟨by decide, no_esc_append.mpr ⟨hu, by decide⟩⟩
    have htr : ∀ m : Nat, no_esc ('(' :: truncate_url_with_ellipsis url m ++ [')']) :=
      fun m => no_esc_cons.mpr ⟨by decide, no_esc_append.mpr ⟨truncate_noesc _ hu, by decide⟩⟩
    have hwsc : ∀ limitN : Nat, no_esc (wrap_split_chars limitN ('(' :: url ++ [')'])).1 ∧
        no_esc (wrap_split_chars limitN ('(' :: url ++ [')'])).2 :=
      fun limitN => wrap_split_chars_noesc limitN hup
    split
    · -- table cell arm: only the table state changes
      exact goodst_end_link h.1 h.2.2.1 h.2.2.2
    · -- main output arm
      have hs1 : GoodSt (process_underlined_text_with_wrapping config theme st
          st.current_link_text) := process_underlined_goodst _ _ _ hnc h h.2.1
      have hs2 : GoodSt (enforce_width_on_current_line config theme
          (process_underlined_text_with_wrapping config theme st st.current_link_text)) :=
        enforce_width_goodst _ _ _ hnc hs1
      set s2 := enforce_width_on_current_line config theme
        (process_underlined_text_with_wrapping config theme st st.current_link_text)
      have hcad := cut_append_goodst config theme s2 url hnc hs2 hu
      repeat' split
      · exact goodst_end_link_of hcad
      · exact goodst_end_link_of (goodst_append_output hs2 hup)
      · exact goodst_end_link_of (goodst_append_output hs2 hup)
      · exact goodst_end_link_of (enforce_width_goodst _ _ _ hnc (goodst_append_output
          (push_newline_goodst _ _ _ hnc (goodst_append_output hs2 (hwsc _).1))
          (wrap_url_with_indentation_noesc config _ (hwsc _).2)))
      · exact goodst_end_link_of (enforce_width_goodst _ _ _ hnc (goodst_append_output
          (push_newline_goodst _ _ _ hnc hs2)
          (wrap_url_with_indentation_noesc config _ (hwsc _).2)))
      · exact goodst_end_link_of (goodst_append_output hs2 (hwsc _).1)
      · exact goodst_end_link_of hs2
      · exact goodst_end_link_of (enforce_width_goodst _ _ _ hnc
          (goodst_append_output hs2 hup))
      · exact goodst_end_link_of (enforce_width_goodst _ _ _ hnc
          (goodst_append_output hs2 (htr _)))
      · exact goodst_end_link_of (goodst_append_output hs2
          (by decide : no_esc (str "…")))
      · exact goodst_end_link_of hs2
      · exact goodst_end_link_of (enforce_width_goodst _ _ _ hnc
          (goodst_append_output hs2 hup))
  · -- no stored URL: state unchanged apart from the link flags
    exact goodst_end_link h.1 h.2.2.1 h.2.2.2

theorem handle_link_end_inline_table_goodst (config : Config) (theme : Theme)
    (st : RState) (hnc : config.no_colors = true) (h : GoodSt st) :
    GoodSt (handle_link_end_inline_table config theme st) := by
  have hbr : ∀ n : Nat, no_esc ('[' :: nat_str n ++ [']']) := fun n =>
    no_esc_cons.mpr ⟨by decide, no_esc_append.mpr ⟨nat_str_noesc _, by decide⟩⟩
  simp only [handle_link_end_inline_table, hnc, Bool.not_true, Bool.false_eq_true,
    if_false, apply_nc]
  split
  · exact goodst_end_link h.1 h.2.2.1 h.2.2.2
  · have hs1 : GoodSt (process_underlined_text_with_wrapping config theme st
        st.current_link_text) := process_underlined_goodst _ _ _ hnc h h.2.1
    set s1 := process_underlined_text_with_wrapping config theme st st.current_link_text
    repeat' split
    all_goals
      first
        | exact goodst_end_link_of (goodst_append_output
            (push_newline_goodst _ _ _ hnc hs1) (hbr _))
        | exact goodst_end_link_of (goodst_append_output hs1 (hbr _))

theorem handle_link_end_goodst (config : Config) (theme : Theme) (st : RState)
    (hnc : config.no_colors = true) (h : GoodSt st) :
    GoodSt (handle_link_end config theme st) := by
  simp only [handle_link_end]
  split
  · exact commit_goodst (handle_link_end_clickable_goodst _ _ _ _ hnc h)
  · exact commit_goodst (handle_link_end_clickable_goodst _ _ _ _ hnc h)
  · exact commit_goodst h
  · exact commit_goodst (handle_link_end_inline_goodst _ _ _ hnc h)
  · exact commit_goodst (handle_link_end_inline_table_goodst _ _ _ hnc h)

theorem goodst_clear_pl {st : RState} (h1 : no_esc st.output)
    (h2 : no_esc st.current_link_text)
    (h3 : ∀ p ∈ st.link_references, no_esc p.2) :
    GoodSt { st with paragraph_links := [] } :=
  ⟨h1, h2, h3, fun p hp => absurd hp (List.not_mem_nil p)⟩

theorem blocks_body_noesc {SB : List (List Str)}
    (hSB : ∀ b ∈ SB, ∀ l ∈ b, no_esc l) (pre : Str) (hpre : no_esc pre) :
    no_esc (SB.enum.map (fun bp =>
      (bp.2.enum.map (fun lp => pre ++ lp.2 ++
        (if (decide (lp.1 < bp.2.length - 1) || decide (bp.1 < SB.length - 1)) = true
         then ['\n'] else []))).flatten)).flatten := by
  refine no_esc_flatten ?_
  intro x hx
  rw [List.mem_map] at hx
  obtain ⟨bp, hbp, hxe⟩ := hx
  subst hxe
  refine no_esc_flatten ?_
  intro y hy
  rw [List.mem_map] at hy
  obtain ⟨lp, hlp, hye⟩ := hy
  subst hye
  refine no_esc_append.mpr ⟨no_esc_append.mpr
    ⟨hpre, hSB bp.2 (mem_enum_snd hbp) lp.2 (mem_enum_snd hlp)⟩, ?_⟩
  split
  · decide
  · decide

theorem aplr_with_goodst (config : Config) (theme : Theme) (st : RState)
    (atn il itb : Bool) (hnc : config.no_colors = true) (h : GoodSt st) :
    GoodSt (add_paragraph_link_references_with config theme st atn il itb) := by
  have hnlif : no_esc (if ends_with_char '\n' st.output = true
      then ['\n'] else str "\n\n") := by
    split <;> decide
  have hnl : no_esc ['\n'] := by decide
  simp only [add_paragraph_link_references_with, hnc, Bool.not_true, Bool.false_eq_true,
    if_false, apply_nc, make_clickable_nc _ _ _ hnc]
  split
  · exact h
  · split
    · exact ⟨h.1, h.2.1, h.2.2.1, fun p hp => absurd hp (List.not_mem_nil p)⟩
    · have hSB : ∀ b ∈ (st.paragraph_links.map (fun p =>
          (rust_lines (if config.is_text_wrapping_enabled = true then
            wrap_link_line config st (p.1 ++ ' ' :: p.2) else p.1 ++ ' ' :: p.2)).map
            (fun line => line))), ∀ l ∈ b, no_esc l := by
        intro b hb l hl
        rw [List.mem_map] at hb
        obtain ⟨p, hp, hbp⟩ := hb
        subst hbp
        rw [List.mem_map] at hl
        obtain ⟨line, hline, hlid⟩ := hl
        subst hlid
        have hpl := h.2.2.2 p hp
        have hll : no_esc (p.1 ++ ' ' :: p.2) :=
          no_esc_append.mpr ⟨hpl.1, no_esc_cons.mpr ⟨by decide, hpl.2⟩⟩
        refine no_esc_of_subset (fun x hx => mem_rust_lines hline hx) ?_
        split
        · exact wrap_link_line_noesc config st hll
        · exact hll
      have hpre : no_esc (if (decide (st.content_indent > 0) && !itb) = true
          then char_repeat ' ' st.content_indent else []) := by
        split
        · exact no_esc_char_repeat _ (by decide)
        · decide
      have hbody := blocks_body_noesc hSB _ hpre
      split
      · split
        · refine goodst_clear_pl ?_ h.2.1 h.2.2.1
          exact no_esc_append.mpr ⟨no_esc_append.mpr ⟨no_esc_append.mpr
            ⟨no_esc_append.mpr ⟨h.1, hnlif⟩, hbody⟩, hnl⟩, hnl⟩
        · refine goodst_clear_pl ?_ h.2.1 h.2.2.1
          exact no_esc_append.mpr ⟨no_esc_append.mpr
            ⟨no_esc_append.mpr ⟨h.1, hnlif⟩, hbody⟩, hnl⟩
      · refine goodst_clear_pl ?_ h.2.1 h.2.2.1
        exact no_esc_append.mpr ⟨no_esc_append.mpr ⟨h.1, hnlif⟩, hbody⟩

theorem add_paragraph_goodst (config : Config) (theme : Theme) (st : RState)
    (hnc : config.no_colors = true) (h : GoodSt st) :
    GoodSt (add_paragraph_link_references config theme st) := by
  simp only [add_paragraph_link_references]
  exact aplr_with_goodst config theme st _ _ _ hnc h

theorem handle_start_tag_goodst (config : Config) (theme : Theme) (st : RState)
    (e : Event) (hnc : config.no_colors = true) (h : GoodSt st)
    (he : event_payload_ok e) :
    GoodSt (handle_start_tag config theme st e) := by
  have hnl : no_esc ['\n'] := by decide
  have hP : GoodSt { st with paragraph_link_counter := 0, paragraph_links := [] } :=
    ⟨h.1, h.2.1, h.2.2.1, fun p hp => absurd hp (List.not_mem_nil p)⟩
  cases e with
  | startParagraph =>
    simp only [handle_start_tag]
    repeat' split
    all_goals
      first
        | exact h
        | exact hP
        | exact goodst_append_output h hnl
        | exact goodst_append_output hP hnl
        | exact goodst_append_output h (no_esc_char_repeat _ (by decide))
        | exact goodst_append_output hP (no_esc_char_repeat _ (by decide))
        | exact goodst_append_output (goodst_append_output h hnl)
            (no_esc_char_repeat _ (by decide))
        | exact goodst_append_output (goodst_append_output hP hnl)
            (no_esc_char_repeat _ (by decide))
  | startHeading level => exact handle_header_start_goodst config theme st level hnc h
  | startLink url => exact handle_link_start_goodst config theme st hnc h he
  | startEmphasis => exact ⟨h.1, h.2.1, h.2.2.1, h.2.2.2⟩
  | startStrong => exact ⟨h.1, h.2.1, h.2.2.1, h.2.2.2⟩
  | startStrikethrough => exact ⟨h.1, h.2.1, h.2.2.1, h.2.2.2⟩
  | text s => exact h
  | softBreak => exact h
  | hardBreak => exact h
  | endParagraph => exact h
  | endHeading level => exact h
  | endLink => exact h
  | endEmphasis => exact h
  | endStrong => exact h
  | endStrikethrough => exact h

theorem handle_end_tag_goodst (config : Config) (theme : Theme) (st : RState)
    (e : Event) (hnc : config.no_colors = true) (h : GoodSt st) :
    GoodSt (handle_end_tag config theme st e) := by
  have hnl : no_esc ['\n'] := by decide
  cases e with
  | endParagraph =>
    simp only [handle_end_tag]
    repeat' split
    all_goals
      first
        | exact h
        | exact add_paragraph_goodst config theme st hnc h
        | exact goodst_append_output h hnl
        | exact goodst_append_output (add_paragraph_goodst config theme st hnc h) hnl
  | endHeading level => exact handle_header_end_goodst config theme st level hnc h
  | endLink => exact handle_link_end_goodst config theme st hnc h
  | endEmphasis => exact ⟨h.1, h.2.1, h.2.2.1, h.2.2.2⟩
  | endStrong => exact ⟨h.1, h.2.1, h.2.2.1, h.2.2.2⟩
  | endStrikethrough => exact ⟨h.1, h.2.1, h.2.2.1, h.2.2.2⟩
  | text s => exact h
  | softBreak => exact h
  | hardBreak => exact h
  | startParagraph => exact h
  | startHeading level => exact h
  | startLink url => exact h
  | startEmphasis => exact h
  | startStrong => exact h
  | startStrikethrough => exact h

theorem process_event_goodst (config : Config) (theme : Theme) (st : RState)
    (e : Event) (hnc : config.no_colors = true) (h : GoodSt st)
    (he : event_payload_ok e) :
    GoodSt (process_event config theme st e) := by
  cases e with
  | text s => exact handle_text_goodst config theme st hnc h he
  | softBreak => exact goodst_append_output h (by decide)
  | hardBreak => exact goodst_append_output h (by decide)
  | startParagraph => exact handle_start_tag_goodst config theme st _ hnc h trivial
  | startHeading level => exact handle_start_tag_goodst config theme st _ hnc h trivial
  | startLink url => exact handle_start_tag_goodst config theme st _ hnc h he
  | startEmphasis => exact handle_start_tag_goodst config theme st _ hnc h trivial
  | startStrong => exact handle_start_tag_goodst config theme st _ hnc h trivial
  | startStrikethrough => exact handle_start_tag_goodst config theme st _ hnc h trivial
  | endParagraph => exact handle_end_tag_goodst config theme st _ hnc h
  | endHeading level => exact handle_end_tag_goodst config theme st _ hnc h
  | endLink => exact handle_end_tag_goodst config theme st _ hnc h
  | endEmphasis => exact handle_end_tag_goodst config theme st _ hnc h
  | endStrong => exact handle_end_tag_goodst config theme st _ hnc h
  | endStrikethrough => exact handle_end_tag_goodst config theme st _ hnc h

/-- C9 (amended) — no-colors purity with escape-free inputs: for every event
stream whose payloads (text runs and link destinations) are free of the byte
0x1B, every theme, and every configuration with `no_colors = true`, the
rendered output string contains no byte 0x1B: neither an SGR sequence nor an
OSC-8 hyperlink sequence, nor a payload-carried escape, is emitted.  (The
unconditional statement over all event streams is refuted by
`claim_C9_counterexample`: a text payload containing 0x1B is copied to the
output verbatim.) -/
theorem claim_C9_no_colors_purity (config : Config) (theme : Theme)
    (events : List Event) (hnc : config.no_colors = true)
    (hev : ∀ e ∈ events, event_payload_ok e) :
    no_esc (render_events config theme events) := by
  have h0 : ∀ sli : List (HeadingLevel × Nat),
      GoodSt { ({} : RState) with smart_level_indents := sli } :=
    fun sli => ⟨(by decide : no_esc []), (by decide : no_esc []),
      fun p hp => absurd hp (List.not_mem_nil p),
      fun p hp => absurd hp (List.not_mem_nil p)⟩
  have hrun : ∀ st0 : RState, GoodSt st0 →
      no_esc (trim_end (finalize_pending_heading_placeholder
        (events.foldl (fun st e => process_event config theme st e) st0)).output) :=
    fun st0 hg =>
      no_esc_trim_end (finalize_goodst (foldl_goodst hg
        (fun s a ha hs => process_event_goodst config theme s a hnc hs (hev a ha)))).1
  simp only [render_events]
  repeat' split
  all_goals
    first
      | exact no_esc_append.mpr ⟨hrun _ (h0 _), by decide⟩
      | exact hrun _ (h0 _)

/-- Counterexample to the unconditional C9: with colors disabled, rendering
the single text event whose payload is the raw escape byte produces an output
that still contains the byte 0x1B, so "for every event stream" is false
without an escape-free-payload proviso. -/
theorem claim_C9_counterexample :
    ¬ no_esc (render_events cfg_char80 theme0 [Event.text [escCh]]) := by decide

/-- Witness for C9 (amended) at a concrete input: an 80-column no-colors
configuration rendering one escape-free text event. -/
theorem claim_C9_witness :
    no_esc (render_events cfg_char80 theme0 [Event.text (str "hi")]) :=
  claim_C9_no_colors_purity cfg_char80 theme0 [Event.text (str "hi")] (by decide) (by decide)
